import Mathlib

/-
  Verification of the Carch schema compiler (lexer, parser, semantic
  analyzer, code generator) against its natural-language specification.

  The C++ sources are shallowly embedded: each C++ function is translated
  into an executable Lean definition operating on an explicit state.
  Machine integers in the source (uint32_t positions) can only grow here,
  so they are modelled by Nat. Functions of the source that may fail to
  terminate (TypeChecker::check_leaf_nodes follows Identifier nodes into
  the symbol table with no visited set) are modelled with an explicit fuel
  parameter returning none when the fuel is exhausted; a result of
  `none` for every fuel is how this development states divergence of the
  source.
-/

namespace Carch

/-! ## Data model: the AST produced by the parser (src/parser/ast.h) -/

/-- enum class PrimitiveType (src/parser/ast.h). -/
inductive PrimitiveType where
  | STR | INT | BOOL | UNIT
  | U8 | U16 | U32 | U64
  | I8 | I16 | I32 | I64
  | F32 | F64
deriving DecidableEq

/-- enum class ContainerKind (src/parser/ast.h). -/
inductive ContainerKind where
  | ARRAY | MAP | OPTIONAL
deriving DecidableEq

mutual
/-- TypeExprNode and its subclasses (src/parser/ast.h). Every node carries
the (line, column) pair of the C++ ASTNode base class. `container` keeps the
three optional children exactly as ContainerTypeNode does (element for
array/optional, key/value for map); the parser can produce null children,
hence `Option`. -/
inductive TypeExpr where
  | prim (p : PrimitiveType) (line col : Nat)
  | structT (fields : List Field) (line col : Nat)
  | variantT (alternatives : List Alt) (line col : Nat)
  | enumT (values : List String) (line col : Nat)
  | container (kind : ContainerKind) (element_type key_type value_type : Option TypeExpr)
      (line col : Nat)
  | refT (line col : Nat)
  | ident (name : String) (line col : Nat)

/-- FieldNode (src/parser/ast.h). -/
inductive Field where
  | mk (name : String) (type : TypeExpr) (line col : Nat)

/-- AlternativeNode (src/parser/ast.h); a missing type means implicit unit. -/
inductive Alt where
  | mk (name : String) (type : Option TypeExpr) (line col : Nat)
end

def Field.name : Field → String
  | .mk n _ _ _ => n

def Field.type : Field → TypeExpr
  | .mk _ t _ _ => t

def Field.line : Field → Nat
  | .mk _ _ l _ => l

def Field.col : Field → Nat
  | .mk _ _ _ c => c

def Alt.name : Alt → String
  | .mk n _ _ _ => n

def Alt.type : Alt → Option TypeExpr
  | .mk _ t _ _ => t

def Alt.line : Alt → Nat
  | .mk _ _ l _ => l

def Alt.col : Alt → Nat
  | .mk _ _ _ c => c

/-- TypeDefinitionNode (src/parser/ast.h). -/
structure TypeDefinition where
  name : String
  type : TypeExpr
  line : Nat
  col : Nat

/-- SchemaNode (src/parser/ast.h): the ordered sequence of definitions. -/
structure Schema where
  definitions : List TypeDefinition
  line : Nat
  col : Nat

/-! ## Semantic analyzer (src/semantic/type_checker.cpp)

The TypeChecker's mutable members (errors_, symbol_table_,
definition_order_, visiting_, visited_, current_definition_index_) are
passed explicitly. Diagnostics are the exact strings the C++ produces:
`report_error(msg, node)` formats "Line L, Column C: msg". -/

/-- TypeChecker::report_error(message, line, column). -/
def report_error (msg : String) (line col : Nat) : String :=
  "Line " ++ toString line ++ ", Column " ++ toString col ++ ": " ++ msg

/-- The symbol table: insertion-ordered name → definition map
(std::unordered_map looked up only by key, so an association list is a
faithful model). -/
abbrev SymTable := List (String × TypeDefinition)

/-- std::unordered_map::find / count, first-inserted entry wins
(duplicates are never inserted by build_symbol_table). -/
def lookupSym (st : SymTable) (n : String) : Option TypeDefinition :=
  match st with
  | [] => none
  | (k, d) :: rest => if k = n then some d else lookupSym rest n

/-- definition_order_ : name → index of the definition. -/
abbrev OrderMap := List (String × Nat)

def lookupOrd (om : OrderMap) (n : String) : Option Nat :=
  match om with
  | [] => none
  | (k, i) :: rest => if k = n then some i else lookupOrd rest n

/-- TypeChecker::build_symbol_table: walk definitions in order; a name
already present yields "Duplicate type definition: 'N'", otherwise the
definition and its index are recorded. Returns (errors, table, order). -/
def build_symbol_table_loop :
    List TypeDefinition → Nat → SymTable → OrderMap → List String →
      List String × SymTable × OrderMap
  | [], _, st, om, errs => (errs, st, om)
  | d :: rest, idx, st, om, errs =>
    if (lookupSym st d.name).isSome then
      build_symbol_table_loop rest (idx + 1) st om
        (errs ++ [report_error ("Duplicate type definition: '" ++ d.name ++ "'") d.line d.col])
    else
      build_symbol_table_loop rest (idx + 1) (st ++ [(d.name, d)]) (om ++ [(d.name, idx)]) errs

def build_symbol_table (defs : List TypeDefinition) :
    List String × SymTable × OrderMap :=
  build_symbol_table_loop defs 0 [] [] []

/-- ContainerTypeNode test used by check_container_type for the nested
optional rule: the element is (dynamic_cast) a container of kind OPTIONAL. -/
def isOptionalContainer : TypeExpr → Bool
  | .container .OPTIONAL _ _ _ _ _ => true
  | _ => false

/-- The value loop of check_enum_type (duplicates reported at the enum
node's position). -/
def check_enum_values : List String → String → Nat → Nat → List String → List String
  | [], _, _, _, _ => []
  | v :: rest, ctx, line, col, seen =>
    (if v ∈ seen then
      [report_error ("Duplicate enum value '" ++ v ++ "' in type '" ++ ctx ++ "'") line col]
    else []) ++
    check_enum_values rest ctx line col (if v ∈ seen then seen else seen ++ [v])

mutual
/-- TypeChecker::check_type_expr (dispatch over the node kind) together
with check_struct_type / check_variant_type / check_enum_type /
check_container_type, returning the diagnostics it appends, in order. -/
def check_type_expr (st : SymTable) (om : OrderMap) (curIdx : Nat) :
    TypeExpr → String → List String
  | .structT fields line col, ctx =>
    (if fields.isEmpty then
      [report_error ("Struct must have at least one field in type '" ++ ctx ++ "'") line col]
    else []) ++ check_field_list st om curIdx fields ctx []
  | .variantT alts line col, ctx =>
    (if alts.isEmpty then
      [report_error ("Variant must have at least one alternative in type '" ++ ctx ++ "'")
        line col]
    else []) ++ check_alt_list st om curIdx alts ctx []
  | .enumT values line col, ctx =>
    (if values.isEmpty then
      [report_error ("Enum must have at least one value in type '" ++ ctx ++ "'") line col]
    else []) ++ check_enum_values values ctx line col []
  | .container kind el k v line col, ctx =>
    match kind with
    | .ARRAY =>
      match el with
      | none => [report_error ("Container type missing element type in '" ++ ctx ++ "'") line col]
      | some e => check_type_expr st om curIdx e ctx
    | .OPTIONAL =>
      match el with
      | none => [report_error ("Container type missing element type in '" ++ ctx ++ "'") line col]
      | some e =>
        check_type_expr st om curIdx e ctx ++
        (if isOptionalContainer e then
          [report_error
            ("Nested optional types (optional<optional<T>>) are not allowed in '" ++ ctx ++ "'")
            line col]
        else [])
    | .MAP =>
      match k, v with
      | some kt, some vt =>
        check_type_expr st om curIdx kt (ctx ++ " (map key)") ++
        check_type_expr st om curIdx vt (ctx ++ " (map value)")
      | _, _ => [report_error ("Map type missing key or value type in '" ++ ctx ++ "'") line col]
  | .ident n line col, ctx =>
    if (lookupSym st n).isSome then
      match lookupOrd om n with
      | some j =>
        if j > curIdx then
          [report_error ("Forward reference to type '" ++ n ++ "' (defined later) in '"
            ++ ctx ++ "'") line col]
        else []
      | none => []
    else
      [report_error ("Undefined type '" ++ n ++ "' referenced in '" ++ ctx ++ "'") line col]
  | .prim _ _ _, _ => []
  | .refT _ _, _ => []
termination_by e _ => sizeOf e

/-- The field loop of check_struct_type: duplicate-name detection against
the `seen` set, then recursion into the field's type. -/
def check_field_list (st : SymTable) (om : OrderMap) (curIdx : Nat) :
    List Field → String → List String → List String
  | [], _, _ => []
  | .mk fname ftype fline fcol :: rest, ctx, seen =>
    (if fname ∈ seen then
      [report_error ("Duplicate field name '" ++ fname ++ "' in struct in type '" ++ ctx ++ "'")
        fline fcol]
    else []) ++
    check_type_expr st om curIdx ftype (ctx ++ "." ++ fname) ++
    check_field_list st om curIdx rest ctx (if fname ∈ seen then seen else seen ++ [fname])
termination_by fs _ _ => sizeOf fs

/-- The alternative loop of check_variant_type. -/
def check_alt_list (st : SymTable) (om : OrderMap) (curIdx : Nat) :
    List Alt → String → List String → List String
  | [], _, _ => []
  | .mk aname atype aline acol :: rest, ctx, seen =>
    (if aname ∈ seen then
      [report_error ("Duplicate alternative name '" ++ aname ++ "' in variant in type '"
        ++ ctx ++ "'") aline acol]
    else []) ++
    (match atype with
     | some t => check_type_expr st om curIdx t (ctx ++ "." ++ aname)
     | none => []) ++
    check_alt_list st om curIdx rest ctx (if aname ∈ seen then seen else seen ++ [aname])
termination_by as _ _ => sizeOf as

end

/-- TypeChecker::is_leaf_type: primitive, ref or enum. -/
def is_leaf_type : TypeExpr → Bool
  | .prim _ _ _ => true
  | .refT _ _ => true
  | .enumT _ _ _ => true
  | _ => false

/-- Line of a TypeExpr node (the ASTNode base member). -/
def leafLine : TypeExpr → Nat
  | .prim _ l _ => l
  | .structT _ l _ => l
  | .variantT _ l _ => l
  | .enumT _ l _ => l
  | .container _ _ _ _ l _ => l
  | .refT l _ => l
  | .ident _ l _ => l

/-- Column of a TypeExpr node (the ASTNode base member). -/
def leafCol : TypeExpr → Nat
  | .prim _ _ c => c
  | .structT _ _ c => c
  | .variantT _ _ c => c
  | .enumT _ _ c => c
  | .container _ _ _ _ _ c => c
  | .refT _ c => c
  | .ident _ _ c => c

mutual
/-- TypeChecker::check_leaf_nodes. The source follows Identifier nodes
into the looked-up definition with NO visited set, so on a schema whose
identifier graph has a reachable cycle the C++ recursion never returns.
The fuel parameter (consumed on each identifier hop) makes the model
total: `none` means the recursion exceeded the fuel, and a result of
`none` for every fuel witnesses divergence of the source. -/
def check_leaf_nodes (st : SymTable) (fuel : Nat) :
    TypeExpr → String → Bool → Option (List String)
  | .structT fields _ _, ctx, _ => check_leaf_field_list st fuel fields ctx
  | .variantT alts _ _, ctx, _ => check_leaf_alt_list st fuel alts ctx
  | .container _ el k v _ _, ctx, mustTerm => do
    let e1 ← match el with
      | some e => check_leaf_nodes st fuel e ctx mustTerm
      | none => pure []
    let e2 ← match k with
      | some e => check_leaf_nodes st fuel e (ctx ++ " (key)") mustTerm
      | none => pure []
    let e3 ← match v with
      | some e => check_leaf_nodes st fuel e (ctx ++ " (value)") mustTerm
      | none => pure []
    pure (e1 ++ e2 ++ e3)
  | .ident n _ _, _, mustTerm =>
    match lookupSym st n with
    | some d =>
      match fuel with
      | 0 => none
      | fuel + 1 => check_leaf_nodes st fuel d.type n mustTerm
    | none => some []
  | e, ctx, mustTerm =>
    if mustTerm && !is_leaf_type e then
      some [report_error ("Type path in '" ++ ctx ++ "' does not terminate at a primitive or ref type")
        (leafLine e) (leafCol e)]
    else some []
termination_by e _ _ => (fuel, sizeOf e)

def check_leaf_field_list (st : SymTable) (fuel : Nat) :
    List Field → String → Option (List String)
  | [], _ => some []
  | .mk fname ftype _ _ :: rest, ctx => do
    let e1 ← check_leaf_nodes st fuel ftype (ctx ++ "." ++ fname) true
    let e2 ← check_leaf_field_list st fuel rest ctx
    pure (e1 ++ e2)
termination_by fs _ => (fuel, sizeOf fs)

def check_leaf_alt_list (st : SymTable) (fuel : Nat) :
    List Alt → String → Option (List String)
  | [], _ => some []
  | .mk aname atype _ _ :: rest, ctx => do
    let e1 ← match atype with
      | some t => check_leaf_nodes st fuel t (ctx ++ "." ++ aname) true
      | none => pure []
    let e2 ← check_leaf_alt_list st fuel rest ctx
    pure (e1 ++ e2)
termination_by as _ => (fuel, sizeOf as)
end

mutual
/-- TypeChecker::check_circular_in_type_expr. `current` is the name the
DFS started from; `vg` models the visiting_ (gray) set and `vb` the
visited_ (black) set, threaded exactly as the C++ mutates them (inserted
before the recursion into a looked-up definition, visiting erased and
visited inserted afterwards whatever the result; loops return early on
true, keeping the state mutated so far). The C++ recursion terminates
because a name is recursed into at most once per top-level call; fuel is
consumed on each such hop, and `none` (never reached with fuel above the
number of definitions) models exhaustion. -/
def check_circular_in_type_expr (st : SymTable) (current : String) (fuel : Nat) :
    TypeExpr → List String → List String → Option (Bool × List String × List String)
  | .structT fields _ _, vg, vb => circ_field_list st current fuel fields vg vb
  | .variantT alts _ _, vg, vb => circ_alt_list st current fuel alts vg vb
  | .container _ el k v _ _, vg, vb => do
    let (b1, vg1, vb1) ← match el with
      | some e => check_circular_in_type_expr st current fuel e vg vb
      | none => pure (false, vg, vb)
    if b1 then pure (true, vg1, vb1) else do
    let (b2, vg2, vb2) ← match k with
      | some e => check_circular_in_type_expr st current fuel e vg1 vb1
      | none => pure (false, vg1, vb1)
    if b2 then pure (true, vg2, vb2) else do
    let (b3, vg3, vb3) ← match v with
      | some e => check_circular_in_type_expr st current fuel e vg2 vb2
      | none => pure (false, vg2, vb2)
    pure (b3, vg3, vb3)
  | .ident n _ _, vg, vb =>
    if n = current then some (true, vg, vb)
    else if n ∈ vg then some (true, vg, vb)
    else if n ∈ vb then some (false, vg, vb)
    else
      match lookupSym st n with
      | some d =>
        match fuel with
        | 0 => none
        | fuel + 1 => do
          let (b, vg2, vb2) ← check_circular_in_type_expr st current fuel d.type (n :: vg) vb
          pure (b, vg2.erase n, n :: vb2)
      | none => some (false, vg, vb)
  | .prim _ _ _, vg, vb => some (false, vg, vb)
  | .enumT _ _ _, vg, vb => some (false, vg, vb)
  | .refT _ _, vg, vb => some (false, vg, vb)
termination_by e _ _ => (fuel, sizeOf e)

/-- The struct-field loop of check_circular_in_type_expr, with the C++
early `return true`. -/
def circ_field_list (st : SymTable) (current : String) (fuel : Nat) :
    List Field → List String → List String → Option (Bool × List String × List String)
  | [], vg, vb => some (false, vg, vb)
  | .mk _ ftype _ _ :: rest, vg, vb => do
    let (b, vg1, vb1) ← check_circular_in_type_expr st current fuel ftype vg vb
    if b then pure (true, vg1, vb1) else circ_field_list st current fuel rest vg1 vb1
termination_by fs _ _ => (fuel, sizeOf fs)

/-- The alternative loop of check_circular_in_type_expr. -/
def circ_alt_list (st : SymTable) (current : String) (fuel : Nat) :
    List Alt → List String → List String → Option (Bool × List String × List String)
  | [], vg, vb => some (false, vg, vb)
  | .mk _ atype _ _ :: rest, vg, vb => do
    let (b, vg1, vb1) ← match atype with
      | some t => check_circular_in_type_expr st current fuel t vg vb
      | none => pure (false, vg, vb)
    if b then pure (true, vg1, vb1) else circ_alt_list st current fuel rest vg1 vb1
termination_by as _ _ => (fuel, sizeOf as)
end

/-- TypeChecker::has_circular_dependency: clear both sets, seed visiting_
with the type name, run the DFS over the definition's body. -/
def has_circular_dependency (st : SymTable) (fuel : Nat) (n : String) : Option Bool :=
  match lookupSym st n with
  | none => some false
  | some d => do
    let (b, _, _) ← check_circular_in_type_expr st n fuel d.type [n] []
    pure b

/-- The per-definition loop of TypeChecker::check_type_definitions
(check_type_definition = check_type_expr then check_leaf_nodes), walking
definitions in order with current_definition_index_. -/
def check_type_definitions_loop (st : SymTable) (om : OrderMap) (fuel : Nat) :
    List TypeDefinition → Nat → Option (List String)
  | [], _ => some []
  | d :: rest, idx => do
    let e1 := check_type_expr st om idx d.type d.name
    let e2 ← check_leaf_nodes st fuel d.type d.name false
    let e3 ← check_type_definitions_loop st om fuel rest (idx + 1)
    pure (e1 ++ e2 ++ e3)

/-- The circular-dependency loop at the end of check_type_definitions. -/
def circular_loop (st : SymTable) (fuel : Nat) : List TypeDefinition → Option (List String)
  | [] => some []
  | d :: rest => do
    let b ← has_circular_dependency st fuel d.name
    let e2 ← circular_loop st fuel rest
    pure ((if b then
      [report_error ("Circular type dependency detected for: '" ++ d.name ++ "'") d.line d.col]
    else []) ++ e2)

/-- TypeChecker::check: build the symbol table; if that already produced
errors return false at once (per-definition validation is NOT reached);
otherwise run per-definition validation and cycle detection and report
success iff no diagnostic accumulated. The result is the pair
(return value of check(), errors()). `none` models divergence of the
C++ (check_leaf_nodes recursing beyond the given fuel). -/
def check (fuel : Nat) (schema : Schema) : Option (Bool × List String) :=
  let r := build_symbol_table schema.definitions
  if r.1.isEmpty then do
    let e2 ← check_type_definitions_loop r.2.1 r.2.2 fuel schema.definitions 0
    let e3 ← circular_loop r.2.1 fuel schema.definitions
    pure ((e2 ++ e3).isEmpty, e2 ++ e3)
  else
    some (false, r.1)

/-! ## Predicates used in the claim statements -/

/-- Some definition name occurs twice in the schema (the situation phase 1
diagnoses). -/
def hasDuplicateName : List TypeDefinition → Bool
  | [] => false
  | d :: rest => (rest.map TypeDefinition.name).contains d.name || hasDuplicateName rest

mutual
/-- Some Optional container in the expression directly wraps another
Optional container, over the children the schema grammar populates
(element of array/optional, key/value of map, field and alternative
types). -/
def directNestedOptional : TypeExpr → Bool
  | .structT fields _ _ => dnoFields fields
  | .variantT alts _ _ => dnoAlts alts
  | .container .ARRAY el _ _ _ _ =>
    (match el with | some e => directNestedOptional e | none => false)
  | .container .OPTIONAL el _ _ _ _ =>
    (match el with | some e => isOptionalContainer e || directNestedOptional e | none => false)
  | .container .MAP _ k v _ _ =>
    (match k with | some e => directNestedOptional e | none => false) ||
    (match v with | some e => directNestedOptional e | none => false)
  | _ => false
termination_by e => sizeOf e

def dnoFields : List Field → Bool
  | [] => false
  | .mk _ ftype _ _ :: rest => directNestedOptional ftype || dnoFields rest
termination_by fs => sizeOf fs

def dnoAlts : List Alt → Bool
  | [] => false
  | .mk _ atype _ _ :: rest =>
    (match atype with | some t => directNestedOptional t | none => false) || dnoAlts rest
termination_by as => sizeOf as
end

/-- Starting below this node and descending through container nodes only,
an Optional container is reached (the node itself counts). -/
def wrapsOptionalThroughContainers : TypeExpr → Bool
  | .container .OPTIONAL _ _ _ _ _ => true
  | .container _ el k v _ _ =>
    (match el with | some e => wrapsOptionalThroughContainers e | none => false) ||
    (match k with | some e => wrapsOptionalThroughContainers e | none => false) ||
    (match v with | some e => wrapsOptionalThroughContainers e | none => false)
  | _ => false
termination_by e => sizeOf e

mutual
/-- Some Optional container wraps, transitively through container nodes
only, another Optional container (the claimed invariant of C2), over the
children the schema grammar populates. -/
def transitiveNestedOptional : TypeExpr → Bool
  | .structT fields _ _ => tnoFields fields
  | .variantT alts _ _ => tnoAlts alts
  | .container .ARRAY el _ _ _ _ =>
    (match el with | some e => transitiveNestedOptional e | none => false)
  | .container .OPTIONAL el _ _ _ _ =>
    (match el with
     | some e => wrapsOptionalThroughContainers e || transitiveNestedOptional e
     | none => false)
  | .container .MAP _ k v _ _ =>
    (match k with | some e => transitiveNestedOptional e | none => false) ||
    (match v with | some e => transitiveNestedOptional e | none => false)
  | _ => false
termination_by e => sizeOf e

def tnoFields : List Field → Bool
  | [] => false
  | .mk _ ftype _ _ :: rest => transitiveNestedOptional ftype || tnoFields rest
termination_by fs => sizeOf fs

def tnoAlts : List Alt → Bool
  | [] => false
  | .mk _ atype _ _ :: rest =>
    (match atype with | some t => transitiveNestedOptional t | none => false) || tnoAlts rest
termination_by as => sizeOf as
end

def schemaDirectNestedOptional (s : Schema) : Bool :=
  s.definitions.any fun d => directNestedOptional d.type

def schemaTransitiveNestedOptional (s : Schema) : Bool :=
  s.definitions.any fun d => transitiveNestedOptional d.type

/-! ## Concrete schemas used by the claims (ASTs the parser produces for
the quoted sources, with their source positions) -/

/-- AST of the multi-fault schema of spec §8 ("duplicate name + undefined
ref + duplicate field in one schema"), as in tests/error_message_tests.cpp
test_error_recovery:
Point : struct with a duplicate field x, a second definition of Point,
and Player referencing an undefined type. -/
def multiFaultSchema : Schema := {
  definitions := [
    ⟨"Point", .structT [.mk "x" (.prim .U32 2 23) 2 20, .mk "x" (.prim .U32 2 31) 2 28] 2 17, 2, 9⟩,
    ⟨"Point", .structT [.mk "y" (.prim .U32 3 23) 3 20] 3 17, 3, 9⟩,
    ⟨"Player", .structT [.mk "pos" (.ident "UndefinedType" 4 24) 4 19] 4 18, 4, 9⟩ ],
  line := 2, col := 9 }

/-- AST of `Bad : struct { field: optional<optional<u32>> }`. -/
def badOptSchema : Schema := {
  definitions := [
    ⟨"Bad", .structT [.mk "field" (.container .OPTIONAL
      (some (.container .OPTIONAL (some (.prim .U32 1 33)) none none 1 24))
      none none 1 15) 1 8] 1 7, 1, 1⟩ ],
  line := 1, col := 1 }

/-- AST of `Ok : struct { f: optional<array<optional<u32>>> }`: an Optional
wrapping an Optional transitively through an Array container. -/
def transOptSchema : Schema := {
  definitions := [
    ⟨"Ok", .structT [.mk "f" (.container .OPTIONAL
      (some (.container .ARRAY
        (some (.container .OPTIONAL (some (.prim .U32 1 40)) none none 1 30))
        none none 1 24))
      none none 1 14) 1 10] 1 6, 1, 1⟩ ],
  line := 1, col := 1 }

/-- AST of `Node : struct { child: Node }` (spec §8 scenario 4). -/
def nodeSchema : Schema := {
  definitions := [
    ⟨"Node", .structT [.mk "child" (.ident "Node" 1 23) 1 16] 1 8, 1, 1⟩ ],
  line := 1, col := 1 }

/-- AST of `Node : struct { child: ref<entity> }`. -/
def nodeRefSchema : Schema := {
  definitions := [
    ⟨"Node", .structT [.mk "child" (.refT 1 23) 1 16] 1 8, 1, 1⟩ ],
  line := 1, col := 1 }

/-- AST of `First : struct { second: Second }` then
`Second : struct { value: u32 }` (spec §8 scenario 5). -/
def fwdSchema : Schema := {
  definitions := [
    ⟨"First", .structT [.mk "second" (.ident "Second" 1 18) 1 10] 1 9, 1, 1⟩,
    ⟨"Second", .structT [.mk "value" (.prim .U32 2 19) 2 10] 2 10, 2, 1⟩ ],
  line := 1, col := 1 }

/-- The two definitions of fwdSchema in the opposite order. -/
def fwdSchemaSwapped : Schema := {
  definitions := [
    ⟨"Second", .structT [.mk "value" (.prim .U32 1 19) 1 10] 1 10, 1, 1⟩,
    ⟨"First", .structT [.mk "second" (.ident "Second" 2 18) 2 10] 2 9, 2, 1⟩ ],
  line := 1, col := 1 }

/-! ## Lemmas about symbol-table construction (claim C1) -/

theorem build_symbol_table_loop_errs_mono (defs : List TypeDefinition) :
    ∀ idx st om errs, ∃ suf, (build_symbol_table_loop defs idx st om errs).1 = errs ++ suf := by
  induction defs with
  | nil => exact fun idx st om errs => ⟨[], by simp [build_symbol_table_loop]⟩
  | cons d rest ih =>
    intro idx st om errs
    cases h : lookupSym st d.name with
    | some d0 =>
      obtain ⟨suf, hs⟩ := ih (idx + 1) st om
        (errs ++ [report_error ("Duplicate type definition: '" ++ d.name ++ "'") d.line d.col])
      refine ⟨[report_error ("Duplicate type definition: '" ++ d.name ++ "'") d.line d.col]
        ++ suf, ?_⟩
      simp [build_symbol_table_loop, h, hs]
    | none =>
      obtain ⟨suf, hs⟩ := ih (idx + 1) (st ++ [(d.name, d)]) (om ++ [(d.name, idx)]) errs
      exact ⟨suf, by simp [build_symbol_table_loop, h, hs]⟩

theorem lookupSym_isSome_append (st : SymTable) (x : String × TypeDefinition) (n : String)
    (h : (lookupSym st n).isSome = true) : (lookupSym (st ++ [x]) n).isSome = true := by
  induction st with
  | nil => simp [lookupSym] at h
  | cons p rest ih =>
    obtain ⟨k, d⟩ := p
    by_cases hk : k = n
    · simp [lookupSym, hk]
    · simp [lookupSym, hk] at h ⊢
      exact ih h

theorem lookupSym_append_self (st : SymTable) (n : String) (d : TypeDefinition) :
    (lookupSym (st ++ [(n, d)]) n).isSome = true := by
  induction st with
  | nil => simp [lookupSym]
  | cons p rest ih =>
    obtain ⟨k, e⟩ := p
    by_cases hk : k = n <;> simp [lookupSym, hk, ih]

theorem build_symbol_table_loop_hit (defs : List TypeDefinition) :
    ∀ idx st om errs n, n ∈ defs.map TypeDefinition.name →
      (lookupSym st n).isSome = true →
      (build_symbol_table_loop defs idx st om errs).1 ≠ [] := by
  induction defs with
  | nil => intro idx st om errs n hmem; simp at hmem
  | cons d rest ih =>
    intro idx st om errs n hmem hsome
    rw [List.map_cons] at hmem
    rcases List.mem_cons.mp hmem with heq | hmem2
    · subst heq
      cases h : lookupSym st d.name with
      | some d0 =>
        obtain ⟨suf, hs⟩ := build_symbol_table_loop_errs_mono rest (idx + 1) st om
          (errs ++ [report_error ("Duplicate type definition: '" ++ d.name ++ "'") d.line d.col])
        simp only [build_symbol_table_loop, h, Option.isSome_some, if_true, hs]
        simp
      | none => rw [h] at hsome; simp at hsome
    · cases h : lookupSym st d.name with
      | some d0 =>
        simp only [build_symbol_table_loop, h, Option.isSome_some, if_true]
        exact ih (idx + 1) st om _ n hmem2 hsome
      | none =>
        simp only [build_symbol_table_loop, h, Option.isSome_none, Bool.false_eq_true, if_false]
        exact ih (idx + 1) (st ++ [(d.name, d)]) (om ++ [(d.name, idx)]) errs n
          hmem2 (lookupSym_isSome_append st _ n hsome)

theorem build_symbol_table_loop_dup (defs : List TypeDefinition) :
    ∀ idx st om errs, hasDuplicateName defs = true →
      (build_symbol_table_loop defs idx st om errs).1 ≠ [] := by
  induction defs with
  | nil => intro idx st om errs h; simp [hasDuplicateName] at h
  | cons d rest ih =>
    intro idx st om errs h
    have h2 : (∃ a ∈ rest, a.name = d.name) ∨ hasDuplicateName rest = true := by
      simpa [hasDuplicateName] using h
    rcases h2 with hdup | hrest
    · cases hl : lookupSym st d.name with
      | some d0 =>
        obtain ⟨suf, hs⟩ := build_symbol_table_loop_errs_mono rest (idx + 1) st om
          (errs ++ [report_error ("Duplicate type definition: '" ++ d.name ++ "'") d.line d.col])
        simp only [build_symbol_table_loop, hl, Option.isSome_some, if_true, hs]
        simp
      | none =>
        simp only [build_symbol_table_loop, hl, Option.isSome_none, Bool.false_eq_true, if_false]
        obtain ⟨a, ha, hname⟩ := hdup
        exact build_symbol_table_loop_hit rest (idx + 1) (st ++ [(d.name, d)])
          (om ++ [(d.name, idx)]) errs d.name
          (List.mem_map.mpr ⟨a, ha, hname⟩)
          (lookupSym_append_self st d.name d)
    · cases hl : lookupSym st d.name with
      | some d0 =>
        simp only [build_symbol_table_loop, hl, Option.isSome_some, if_true]
        exact ih (idx + 1) st om _ hrest
      | none =>
        simp only [build_symbol_table_loop, hl, Option.isSome_none, Bool.false_eq_true, if_false]
        exact ih (idx + 1) (st ++ [(d.name, d)]) (om ++ [(d.name, idx)]) errs hrest

/-! ## Claim C1 -/

/-- C1 (corrected). The claim that a schema with a duplicate
type-definition name plus an undefined reference and a duplicate field
accumulates at least 3 diagnostics is false: TypeChecker::check returns
immediately after build_symbol_table whenever phase 1 produced errors
(type_checker.cpp lines 19-21). Amended: for every schema containing a
duplicate type-definition name, check() returns false with errors()
holding exactly the diagnostics of symbol-table construction; the
per-definition validation (undefined-type and duplicate-field checks) and
cycle detection are not reached. -/
theorem claim_C1_duplicate_name_stops_check (fuel : Nat) (s : Schema)
    (h : hasDuplicateName s.definitions = true) :
    check fuel s = some (false, (build_symbol_table s.definitions).1) ∧
    (build_symbol_table s.definitions).1 ≠ [] := by
  have hne : (build_symbol_table s.definitions).1 ≠ [] :=
    build_symbol_table_loop_dup s.definitions 0 [] [] [] h
  refine ⟨?_, hne⟩
  have hemp : (build_symbol_table s.definitions).1.isEmpty = false := by
    cases he : (build_symbol_table s.definitions).1 with
    | nil => exact absurd he hne
    | cons a l => simp
  simp [check, hemp]

/-- C1 counterexample: on the schema of spec §8 (duplicate type name
`Point`, duplicate field `x`, undefined reference `UndefinedType`),
check() produces exactly ONE diagnostic — the duplicate-name error from
phase 1 — not the claimed "at least 3". -/
theorem claim_C1_counterexample :
    check 10 multiFaultSchema =
      some (false, ["Line 3, Column 9: Duplicate type definition: 'Point'"]) ∧
    hasDuplicateName multiFaultSchema.definitions = true := by
  constructor
  · rfl
  · rfl

/-- Witness for claim_C1_duplicate_name_stops_check at the concrete
multi-fault schema. -/
theorem claim_C1_witness :
    check 10 multiFaultSchema = some (false, (build_symbol_table multiFaultSchema.definitions).1) ∧
    (build_symbol_table multiFaultSchema.definitions).1 ≠ [] :=
  claim_C1_duplicate_name_stops_check 10 multiFaultSchema (by rfl)

/-! ## Claim C2: nested optionals -/

/-- A direct optional-in-optional anywhere in an expression (or in a
field/alternative list) forces check_type_expr (check_field_list,
check_alt_list) to emit at least one diagnostic. Proved by strong
induction on the size of the expression. -/
theorem dno_forces_diagnostic : ∀ N : Nat,
    (∀ (st : SymTable) (om : OrderMap) (curIdx : Nat) (e : TypeExpr) (ctx : String),
      sizeOf e ≤ N → directNestedOptional e = true →
        check_type_expr st om curIdx e ctx ≠ []) ∧
    (∀ (st : SymTable) (om : OrderMap) (curIdx : Nat) (fs : List Field) (ctx : String)
      (seen : List String), sizeOf fs ≤ N → dnoFields fs = true →
        check_field_list st om curIdx fs ctx seen ≠ []) ∧
    (∀ (st : SymTable) (om : OrderMap) (curIdx : Nat) (as : List Alt) (ctx : String)
      (seen : List String), sizeOf as ≤ N → dnoAlts as = true →
        check_alt_list st om curIdx as ctx seen ≠ []) := by
  intro N
  induction N using Nat.strong_induction_on with
  | _ N ih =>
    refine ⟨?_, ?_, ?_⟩
    · intro st om curIdx e ctx hN h
      cases e with
      | prim p l c => simp [directNestedOptional] at h
      | refT l c => simp [directNestedOptional] at h
      | ident n l c => simp [directNestedOptional] at h
      | enumT vs l c => simp [directNestedOptional] at h
      | structT fields l c =>
        have hf : dnoFields fields = true := by simpa [directNestedOptional] using h
        have hlt : sizeOf fields < N := by
          have hz : sizeOf fields < sizeOf (TypeExpr.structT fields l c) := by
            simp <;> omega
          omega
        have hne := (ih (sizeOf fields) hlt).2.1 st om curIdx fields ctx [] le_rfl hf
        intro hc
        rw [check_type_expr, List.append_eq_nil] at hc
        exact hne hc.2
      | variantT alts l c =>
        have ha : dnoAlts alts = true := by simpa [directNestedOptional] using h
        have hlt : sizeOf alts < N := by
          have hz : sizeOf alts < sizeOf (TypeExpr.variantT alts l c) := by
            simp <;> omega
          omega
        have hne := (ih (sizeOf alts) hlt).2.2 st om curIdx alts ctx [] le_rfl ha
        intro hc
        rw [check_type_expr, List.append_eq_nil] at hc
        exact hne hc.2
      | container kind el k v l c =>
        cases kind with
        | ARRAY =>
          cases el with
          | none => simp [directNestedOptional] at h
          | some e1 =>
            have h1 : directNestedOptional e1 = true := by
              simpa [directNestedOptional] using h
            have hlt : sizeOf e1 < N := by
              have hz : sizeOf e1 <
                  sizeOf (TypeExpr.container ContainerKind.ARRAY (some e1) k v l c) := by
                simp <;> omega
              omega
            have hne := (ih (sizeOf e1) hlt).1 st om curIdx e1 ctx le_rfl h1
            simpa [check_type_expr] using hne
        | OPTIONAL =>
          cases el with
          | none => simp [directNestedOptional] at h
          | some e1 =>
            have h1 : isOptionalContainer e1 = true ∨ directNestedOptional e1 = true := by
              simpa [directNestedOptional] using h
            intro hc
            rw [check_type_expr, List.append_eq_nil] at hc
            rcases h1 with hopt | hdno
            · rw [hopt] at hc
              simp at hc
            · have hlt : sizeOf e1 < N := by
                have hz : sizeOf e1 <
                    sizeOf (TypeExpr.container ContainerKind.OPTIONAL (some e1) k v l c) := by
                  simp <;> omega
                omega
              exact (ih (sizeOf e1) hlt).1 st om curIdx e1 ctx le_rfl hdno hc.1
        | MAP =>
          cases k with
          | none => simp [check_type_expr]
          | some kt =>
            cases v with
            | none => simp [check_type_expr]
            | some vt =>
              have h1 : directNestedOptional kt = true ∨ directNestedOptional vt = true := by
                simpa [directNestedOptional] using h
              intro hc
              rw [check_type_expr, List.append_eq_nil] at hc
              rcases h1 with hk | hv
              · have hlt : sizeOf kt < N := by
                  have hz : sizeOf kt <
                      sizeOf (TypeExpr.container ContainerKind.MAP el (some kt) (some vt) l c) := by
                    simp <;> omega
                  omega
                exact (ih (sizeOf kt) hlt).1 st om curIdx kt (ctx ++ " (map key)") le_rfl hk hc.1
              · have hlt : sizeOf vt < N := by
                  have hz : sizeOf vt <
                      sizeOf (TypeExpr.container ContainerKind.MAP el (some kt) (some vt) l c) := by
                    simp <;> omega
                  omega
                exact (ih (sizeOf vt) hlt).1 st om curIdx vt (ctx ++ " (map value)") le_rfl hv hc.2
    · intro st om curIdx fs ctx seen hN h
      cases fs with
      | nil => simp [dnoFields] at h
      | cons f rest =>
        obtain ⟨fn, ft, fl, fc⟩ := f
        have h1 : directNestedOptional ft = true ∨ dnoFields rest = true := by
          simpa [dnoFields] using h
        intro hc
        rw [check_field_list, List.append_eq_nil, List.append_eq_nil] at hc
        rcases h1 with hft | hrest
        · have hlt : sizeOf ft < N := by
            have hz : sizeOf ft < sizeOf (Field.mk fn ft fl fc :: rest) := by
              simp <;> omega
            omega
          exact (ih (sizeOf ft) hlt).1 st om curIdx ft (ctx ++ "." ++ fn) le_rfl hft hc.1.2
        · have hlt : sizeOf rest < N := by
            have hz : sizeOf rest < sizeOf (Field.mk fn ft fl fc :: rest) := by
              simp <;> omega
            omega
          exact (ih (sizeOf rest) hlt).2.1 st om curIdx rest ctx _ le_rfl hrest hc.2
    · intro st om curIdx as ctx seen hN h
      cases as with
      | nil => simp [dnoAlts] at h
      | cons a rest =>
        obtain ⟨an, at_, al, ac⟩ := a
        cases at_ with
        | none =>
          have h1 : dnoAlts rest = true := by simpa [dnoAlts] using h
          intro hc
          simp only [check_alt_list, List.append_eq_nil] at hc
          have hlt : sizeOf rest < N := by
            have hz : sizeOf rest < sizeOf (Alt.mk an none al ac :: rest) := by
              simp <;> omega
            omega
          exact (ih (sizeOf rest) hlt).2.2 st om curIdx rest ctx _ le_rfl h1 hc.2
        | some t =>
          have h1 : directNestedOptional t = true ∨ dnoAlts rest = true := by
            simpa [dnoAlts] using h
          intro hc
          simp only [check_alt_list, List.append_eq_nil] at hc
          rcases h1 with hat | hrest
          · have hlt : sizeOf t < N := by
              have hz : sizeOf t < sizeOf (Alt.mk an (some t) al ac :: rest) := by
                simp <;> omega
              omega
            exact (ih (sizeOf t) hlt).1 st om curIdx t (ctx ++ "." ++ an) le_rfl hat hc.1.2
          · have hlt : sizeOf rest < N := by
              have hz : sizeOf rest < sizeOf (Alt.mk an (some t) al ac :: rest) := by
                simp <;> omega
              omega
            exact (ih (sizeOf rest) hlt).2.2 st om curIdx rest ctx _ le_rfl hrest hc.2

/-- If some definition of the list has a direct nested optional, the
per-definition validation loop cannot produce an empty diagnostic list. -/
theorem check_type_definitions_loop_ne_nil_of_dno (st : SymTable) (om : OrderMap) (fuel : Nat)
    (defs : List TypeDefinition) :
    ∀ idx res, check_type_definitions_loop st om fuel defs idx = some res →
      (∃ d ∈ defs, directNestedOptional d.type = true) → res ≠ [] := by
  induction defs with
  | nil => intro idx res _ hex; simp at hex
  | cons d rest ih =>
    intro idx res hres hex
    have hres2 : ∃ e2, check_leaf_nodes st fuel d.type d.name false = some e2 ∧
        ∃ e3, check_type_definitions_loop st om fuel rest (idx + 1) = some e3 ∧
          check_type_expr st om idx d.type d.name ++ e2 ++ e3 = res := by
      simpa [check_type_definitions_loop, Option.bind_eq_some] using hres
    obtain ⟨e2, he2, e3, he3, heq⟩ := hres2
    rcases hex with ⟨d0, hd0, hdno⟩
    rcases List.mem_cons.mp hd0 with rfl | hmem
    · intro hc
      subst heq
      rw [List.append_eq_nil, List.append_eq_nil] at hc
      exact (dno_forces_diagnostic (sizeOf d0.type)).1 st om idx d0.type d0.name le_rfl
        hdno hc.1.1
    · intro hc
      subst heq
      rw [List.append_eq_nil] at hc
      exact ih (idx + 1) e3 he3 ⟨d0, hmem, hdno⟩ hc.2

set_option maxHeartbeats 2000000 in
/-- C2 (corrected). The claim is false for transitive wrappings:
check_container_type only inspects whether the DIRECT element of an
Optional is itself an Optional container (type_checker.cpp lines
128-133), so `optional<array<optional<u32>>>` is accepted (see the
counterexample). Amended: when check() returns true no Optional container
DIRECTLY wraps another Optional container, and a schema containing
`optional<optional<u32>>` receives the nested-optional diagnostic with
check() returning false. -/
theorem claim_C2_nested_optional :
    (∀ fuel s errs, check fuel s = some (true, errs) → schemaDirectNestedOptional s = false) ∧
    check 10 badOptSchema = some (false,
      ["Line 1, Column 15: Nested optional types (optional<optional<T>>) are not allowed in 'Bad.field'"]) := by
  constructor
  · intro fuel s errs h
    by_contra hcon
    have hany : schemaDirectNestedOptional s = true := by
      revert hcon; cases schemaDirectNestedOptional s <;> simp
    have hex : ∃ d ∈ s.definitions, directNestedOptional d.type = true := by
      simpa [schemaDirectNestedOptional, List.any_eq_true] using hany
    rw [check] at h
    cases hemp : (build_symbol_table s.definitions).1.isEmpty with
    | false =>
      rw [hemp] at h
      simp at h
    | true =>
      rw [hemp] at h
      simp only [if_true] at h
      have h2 : ∃ e2, check_type_definitions_loop (build_symbol_table s.definitions).2.1
          (build_symbol_table s.definitions).2.2 fuel s.definitions 0 = some e2 ∧
          ∃ e3, circular_loop (build_symbol_table s.definitions).2.1 fuel s.definitions = some e3 ∧
            (e2 ++ e3).isEmpty = true ∧ e2 ++ e3 = errs := by
        simpa [Option.bind_eq_some] using h
      obtain ⟨e2, he2, e3, _, hempty, _⟩ := h2
      have he2nil : e2 = [] := by
        have : e2 ++ e3 = [] := List.isEmpty_iff.mp hempty
        exact (List.append_eq_nil.mp this).1
      exact check_type_definitions_loop_ne_nil_of_dno _ _ fuel s.definitions 0 e2 he2 hex he2nil
  · simp [check, build_symbol_table, build_symbol_table_loop, check_type_definitions_loop,
      check_type_expr, check_field_list, check_leaf_nodes, check_leaf_field_list,
      circular_loop, has_circular_dependency, check_circular_in_type_expr, circ_field_list,
      lookupSym, lookupOrd, report_error, isOptionalContainer, is_leaf_type, leafLine, leafCol, badOptSchema] <;> rfl

set_option maxHeartbeats 2000000 in
/-- C2 counterexample: `Ok : struct { f: optional<array<optional<u32>>> }`
wraps an Optional in an Optional transitively through an Array container,
yet check() returns true with no diagnostics — refuting the transitive
part of the claim. -/
theorem claim_C2_counterexample :
    check 10 transOptSchema = some (true, []) ∧
    schemaTransitiveNestedOptional transOptSchema = true := by
  constructor
  · simp [check, build_symbol_table, build_symbol_table_loop, check_type_definitions_loop,
      check_type_expr, check_field_list, check_leaf_nodes, check_leaf_field_list,
      circular_loop, has_circular_dependency, check_circular_in_type_expr, circ_field_list,
      lookupSym, lookupOrd, report_error, isOptionalContainer, is_leaf_type, leafLine, leafCol, transOptSchema] <;> rfl
  · simp [schemaTransitiveNestedOptional, transitiveNestedOptional, tnoFields, tnoAlts,
      wrapsOptionalThroughContainers, isOptionalContainer, transOptSchema]

set_option maxHeartbeats 2000000 in
/-- Witness for claim_C2_nested_optional: the soundness direction applied
at the concrete accepted schema. -/
theorem claim_C2_witness :
    schemaDirectNestedOptional transOptSchema = false :=
  claim_C2_nested_optional.1 10 transOptSchema [] (by
    simp [check, build_symbol_table, build_symbol_table_loop, check_type_definitions_loop,
      check_type_expr, check_field_list, check_leaf_nodes, check_leaf_field_list,
      circular_loop, has_circular_dependency, check_circular_in_type_expr, circ_field_list,
      lookupSym, lookupOrd, report_error, isOptionalContainer, is_leaf_type, leafLine, leafCol, transOptSchema] <;> rfl)

/-! ## Claim C4: circular dependency detection -/

/-- The leaf walk of check_leaf_nodes loops forever on the
self-referential Node definition: whatever the fuel, following the
Identifier `Node` leads back to the same call. This is the Lean statement
of non-termination of the C++ recursion (type_checker.cpp lines 273-278:
the Identifier branch re-enters the looked-up definition with no visited
set). -/
theorem node_leaf_walk_diverges :
    ∀ fuel, check_leaf_nodes [("Node",
        ⟨"Node", .structT [.mk "child" (.ident "Node" 1 23) 1 16] 1 8, 1, 1⟩)] fuel
      (.ident "Node" 1 23) "Node.child" true = none := by
  intro fuel
  induction fuel with
  | zero => simp [check_leaf_nodes, lookupSym]
  | succ f ih =>
    have hctx : "Node" ++ "." ++ "child" = "Node.child" := rfl
    simp [check_leaf_nodes, lookupSym, check_leaf_field_list, hctx, ih]

/-- C4 (code_bug). The claim (and spec §8 scenario 4, and
tests/error_message_tests.cpp test_circular_dependency_detection) says
`Node : struct { child: Node }` fails semantic analysis with a circular
diagnostic while `Node : struct { child: ref<entity> }` passes. The code
diverges instead of failing: check_leaf_nodes runs BEFORE the
cycle-detection loop and follows Identifier nodes into the symbol table
with no visited set, so on the self-referential schema check() never
returns (modelled: none for every fuel). The ref<entity> variant is
accepted as claimed. -/
theorem claim_C4_circular_detection_diverges :
    (∀ fuel, check fuel nodeSchema = none) ∧
    check 10 nodeRefSchema = some (true, []) := by
  constructor
  · intro fuel
    have h := node_leaf_walk_diverges fuel
    have hctx : "Node" ++ "." ++ "child" = "Node.child" := rfl
    simp [check, build_symbol_table, build_symbol_table_loop, nodeSchema,
      check_type_definitions_loop, check_leaf_nodes, check_leaf_field_list,
      check_type_expr, check_field_list, lookupSym, lookupOrd, report_error, hctx, h]
  · simp [check, build_symbol_table, build_symbol_table_loop, check_type_definitions_loop,
      check_type_expr, check_field_list, check_leaf_nodes, check_leaf_field_list,
      circular_loop, has_circular_dependency, check_circular_in_type_expr, circ_field_list,
      lookupSym, lookupOrd, report_error, isOptionalContainer, is_leaf_type, leafLine, leafCol,
      nodeRefSchema] <;> rfl

/-! ## Claim C5: undefined and forward references -/

/-- C5 (confirmed). For an Identifier node reached by per-definition
validation: a name absent from the symbol table yields exactly the
"Undefined type" diagnostic; a name whose definition_order_ index is
strictly greater than the current definition's index yields exactly the
"Forward reference" diagnostic; a name resolving to an earlier definition
or to the definition itself (index ≤ current) yields no diagnostic. The
two concrete conjuncts are spec §8 scenario 5: First/Second fails with
the forward-reference diagnostic, the swapped order is accepted. -/
theorem claim_C5_identifier_rule :
    (∀ (st : SymTable) (om : OrderMap) (curIdx : Nat) (n : String) (line col : Nat)
      (ctx : String),
      (lookupSym st n = none →
        check_type_expr st om curIdx (.ident n line col) ctx =
          [report_error ("Undefined type '" ++ n ++ "' referenced in '" ++ ctx ++ "'")
            line col]) ∧
      (∀ d j, lookupSym st n = some d → lookupOrd om n = some j → curIdx < j →
        check_type_expr st om curIdx (.ident n line col) ctx =
          [report_error ("Forward reference to type '" ++ n ++ "' (defined later) in '"
            ++ ctx ++ "'") line col]) ∧
      (∀ d j, lookupSym st n = some d → lookupOrd om n = some j → j ≤ curIdx →
        check_type_expr st om curIdx (.ident n line col) ctx = [])) ∧
    check 10 fwdSchema = some (false,
      ["Line 1, Column 18: Forward reference to type 'Second' (defined later) in 'First.second'"]) ∧
    check 10 fwdSchemaSwapped = some (true, []) := by
  refine ⟨?_, ?_, ?_⟩
  · intro st om curIdx n line col ctx
    refine ⟨?_, ?_, ?_⟩
    · intro hnone
      simp [check_type_expr, hnone]
    · intro d j hsome hord hlt
      simp [check_type_expr, hsome, hord, hlt]
    · intro d j hsome hord hle
      simp [check_type_expr, hsome, hord, Nat.not_lt.mpr hle]
  · simp [check, build_symbol_table, build_symbol_table_loop, check_type_definitions_loop,
      check_type_expr, check_field_list, check_leaf_nodes, check_leaf_field_list,
      circular_loop, has_circular_dependency, check_circular_in_type_expr, circ_field_list,
      lookupSym, lookupOrd, report_error, isOptionalContainer, is_leaf_type, leafLine, leafCol,
      fwdSchema] <;> rfl
  · simp [check, build_symbol_table, build_symbol_table_loop, check_type_definitions_loop,
      check_type_expr, check_field_list, check_leaf_nodes, check_leaf_field_list,
      circular_loop, has_circular_dependency, check_circular_in_type_expr, circ_field_list,
      lookupSym, lookupOrd, report_error, isOptionalContainer, is_leaf_type, leafLine, leafCol,
      fwdSchemaSwapped] <;> rfl

/-- Witness for claim_C5_identifier_rule: the three identifier clauses
applied at concrete symbol tables. -/
theorem claim_C5_witness :
    (check_type_expr [] [] 0 (.ident "Missing" 5 7) "P.f" =
      [report_error ("Undefined type '" ++ "Missing" ++ "' referenced in '" ++ "P.f" ++ "'")
        5 7]) ∧
    (check_type_expr [("A", ⟨"A", .prim .U32 1 1, 1, 1⟩)] [("A", 1)] 0
        (.ident "A" 2 3) "P.f" =
      [report_error ("Forward reference to type '" ++ "A" ++ "' (defined later) in '"
        ++ "P.f" ++ "'") 2 3]) ∧
    (check_type_expr [("A", ⟨"A", .prim .U32 1 1, 1, 1⟩)] [("A", 1)] 1
        (.ident "A" 2 3) "P.f" = []) :=
  ⟨(claim_C5_identifier_rule.1 [] [] 0 "Missing" 5 7 "P.f").1 rfl,
   (claim_C5_identifier_rule.1 [("A", ⟨"A", .prim .U32 1 1, 1, 1⟩)] [("A", 1)] 0 "A" 2 3
      "P.f").2.1 ⟨"A", .prim .U32 1 1, 1, 1⟩ 1 rfl rfl (by omega),
   (claim_C5_identifier_rule.1 [("A", ⟨"A", .prim .U32 1 1, 1, 1⟩)] [("A", 1)] 1 "A" 2 3
      "P.f").2.2 ⟨"A", .prim .U32 1 1, 1, 1⟩ 1 rfl rfl (by omega)⟩

/-! ## Lexer (src/lexer/lexer.cpp, src/lexer/token.h)

The source buffer and the scanning position are modelled by the list of
not-yet-consumed characters together with the current (line, column);
`advance()` is popping the head and bumping line/column. -/

/-- enum class TokenType (src/lexer/token.h). -/
inductive TokenType where
  | STRUCT | VARIANT | ENUM | UNIT
  | ARRAY | MAP | OPTIONAL | REF | ENTITY
  | STR | INT | U8 | U16 | U32 | U64 | I8 | I16 | I32 | I64 | F32 | F64 | BOOL
  | COLON | COMMA | LBRACE | RBRACE | LANGLE | RANGLE | LPAREN | RPAREN
  | IDENTIFIER | STRING_LITERAL | NUMBER_LITERAL | TRUE | FALSE
  | NEWLINE | WHITESPACE | COMMENT | END_OF_FILE | ERROR
deriving DecidableEq

/-- struct Token (src/lexer/token.h); error_message is "" except for
ERROR tokens, whose lexeme is "". -/
structure Token where
  type : TokenType
  lexeme : String
  line : Nat
  col : Nat
  error_message : String
deriving DecidableEq

/-- The Lexer's scanning state: remaining bytes, position, errors_. -/
structure LexState where
  src : List Char
  line : Nat
  col : Nat
  errors : List String
deriving DecidableEq

/-- Lexer::is_letter. -/
def is_letter (c : Char) : Bool :=
  (97 ≤ c.toNat && c.toNat ≤ 122) || (65 ≤ c.toNat && c.toNat ≤ 90)

/-- Lexer::is_digit. -/
def is_digit (c : Char) : Bool :=
  48 ≤ c.toNat && c.toNat ≤ 57

/-- Lexer::is_hex_digit. -/
def is_hex_digit (c : Char) : Bool :=
  is_digit c || (97 ≤ c.toNat && c.toNat ≤ 102) || (65 ≤ c.toNat && c.toNat ≤ 70)

/-- Lexer::is_whitespace. -/
def is_whitespace (c : Char) : Bool :=
  c = ' ' || c = '\t' || c = '\r' || c = '\n'

/-- The hex value a digit contributes in scan_string's \xHH decoding. -/
def hexVal (c : Char) : Nat :=
  if 48 ≤ c.toNat && c.toNat ≤ 57 then c.toNat - 48
  else if 97 ≤ c.toNat && c.toNat ≤ 102 then c.toNat - 97 + 10
  else if 65 ≤ c.toNat && c.toNat ≤ 70 then c.toNat - 65 + 10
  else 0

/-- Lexer::identify_keyword (the keyword table). -/
def identify_keyword (w : String) : TokenType :=
  if w = "struct" then .STRUCT
  else if w = "variant" then .VARIANT
  else if w = "enum" then .ENUM
  else if w = "unit" then .UNIT
  else if w = "array" then .ARRAY
  else if w = "map" then .MAP
  else if w = "optional" then .OPTIONAL
  else if w = "ref" then .REF
  else if w = "entity" then .ENTITY
  else if w = "str" then .STR
  else if w = "int" then .INT
  else if w = "u8" then .U8
  else if w = "u16" then .U16
  else if w = "u32" then .U32
  else if w = "u64" then .U64
  else if w = "i8" then .I8
  else if w = "i16" then .I16
  else if w = "i32" then .I32
  else if w = "i64" then .I64
  else if w = "f32" then .F32
  else if w = "f64" then .F64
  else if w = "bool" then .BOOL
  else if w = "true" then .TRUE
  else if w = "false" then .FALSE
  else .IDENTIFIER

/-- Lexer::make_error_token with Lexer::report_error: the diagnostic is
appended to errors_ and an ERROR token carrying the message is returned,
both at the CURRENT position. -/
def lex_error_token (msg : String) (line col : Nat) (errs : List String) :
    Token × List String :=
  (⟨.ERROR, "", line, col, msg⟩, errs ++ [report_error msg line col])

/-- The whitespace-skipping loop at the top of scan_token (whitespace
other than newline, advanced over silently). -/
def skip_ws : List Char → Nat → Nat → List Char × Nat × Nat
  | [], line, col => ([], line, col)
  | c :: rest, line, col =>
    if is_whitespace c && c != '\n' then skip_ws rest line (col + 1)
    else (c :: rest, line, col)

/-- A scanning loop `while (!is_at_end() && p(current_char())) { lexeme +=
current_char(); advance(); }` for predicates that never hold of a newline
(digits, letters, hex digits), so only the column moves. -/
def scan_while (p : Char → Bool) : List Char → Nat → String → List Char × Nat × String
  | [], col, acc => ([], col, acc)
  | c :: rest, col, acc =>
    if p c then scan_while p rest (col + 1) (acc.push c)
    else (c :: rest, col, acc)

/-- Lexer::scan_identifier_or_keyword: consume [A-Za-z0-9_]+ from the
current position, then classify the lexeme through the keyword table.
Returns the token, the remaining source and the new column. -/
def scan_identifier_or_keyword (src : List Char) (line col : Nat) :
    Token × List Char × Nat :=
  let (src1, col1, lex) := scan_while (fun c => is_letter c || is_digit c || c = '_') src col ""
  (⟨identify_keyword lex, lex, line, col, ""⟩, src1, col1)

/-- The fraction stage of Lexer::scan_number: a dot followed by at least
one digit. -/
def scan_frac (src : List Char) (col : Nat) (lex : String) : List Char × Nat × String :=
  match src with
  | '.' :: d :: rest =>
    if is_digit d then scan_while is_digit (d :: rest) (col + 1) (lex.push '.')
    else ('.' :: d :: rest, col, lex)
  | _ => (src, col, lex)

/-- The exponent stage of Lexer::scan_number: e/E, an optional sign, then
digits. -/
def scan_exponent (src : List Char) (col : Nat) (lex : String) : List Char × Nat × String :=
  match src with
  | e :: rest =>
    if e = 'e' || e = 'E' then
      match rest with
      | s :: rest2 =>
        if s = '+' || s = '-' then scan_while is_digit rest2 (col + 2) ((lex.push e).push s)
        else scan_while is_digit (s :: rest2) (col + 1) (lex.push e)
      | [] => ([], col + 1, lex.push e)
    else (e :: rest, col, lex)
  | [] => ([], col, lex)

/-- The decimal part of Lexer::scan_number: integer digits, optional
fraction, optional exponent. -/
def scan_number_decimal (src : List Char) (col : Nat) (lex : String) (tl tc : Nat) :
    Token × List Char × Nat :=
  let r1 := scan_while is_digit src col lex
  let r2 := scan_frac r1.1 r1.2.1 r1.2.2
  let r3 := scan_exponent r2.1 r2.2.1 r2.2.2
  (⟨.NUMBER_LITERAL, r3.2.2, tl, tc, ""⟩, r3.1, r3.2.1)

/-- The base-prefix dispatch of Lexer::scan_number (after the optional
minus sign): 0x/0X, 0b/0B, 0o/0O prefixed literals, else the decimal
form. (tl, tc) is the token's start position. -/
def scan_number_core (src1 : List Char) (col1 : Nat) (lex1 : String) (tl tc : Nat) :
    Token × List Char × Nat :=
  match src1 with
  | '0' :: b :: rest2 =>
    if b = 'x' || b = 'X' then
      let r := scan_while is_hex_digit rest2 (col1 + 2) ((lex1.push '0').push b)
      (⟨.NUMBER_LITERAL, r.2.2, tl, tc, ""⟩, r.1, r.2.1)
    else if b = 'b' || b = 'B' then
      let r := scan_while (fun c => c = '0' || c = '1') rest2 (col1 + 2) ((lex1.push '0').push b)
      (⟨.NUMBER_LITERAL, r.2.2, tl, tc, ""⟩, r.1, r.2.1)
    else if b = 'o' || b = 'O' then
      let r := scan_while (fun c => 48 ≤ c.toNat && c.toNat ≤ 55) rest2 (col1 + 2)
        ((lex1.push '0').push b)
      (⟨.NUMBER_LITERAL, r.2.2, tl, tc, ""⟩, r.1, r.2.1)
    else scan_number_decimal ('0' :: b :: rest2) col1 lex1 tl tc
  | _ => scan_number_decimal src1 col1 lex1 tl tc

/-- Lexer::scan_number: optional minus sign, then the core. The lexeme
keeps the original characters; no newline is ever consumed, so the line
does not change. -/
def scan_number (src0 : List Char) (line col0 : Nat) : Token × List Char × Nat :=
  match src0 with
  | '-' :: rest => scan_number_core rest (col0 + 1) (String.mk ['-']) line col0
  | _ => scan_number_core src0 col0 "" line col0

/-- The body loop of Lexer::scan_string, entered after the opening quote
was consumed; (tl, tc) is the position of the opening quote. Decodes
escapes into `acc`; errors are reported at the current position exactly
as the C++ does. -/
def scan_string_loop : List Char → Nat → Nat → String → Nat → Nat → List String →
    Token × List Char × Nat × Nat × List String
  | [], line, col, _, _, _, errs =>
    let (t, e2) := lex_error_token "Unterminated string literal" line col errs
    (t, [], line, col, e2)
  | c :: rest, line, col, acc, tl, tc, errs =>
    if c = '"' then (⟨.STRING_LITERAL, acc, tl, tc, ""⟩, rest, line, col + 1, errs)
    else if c = '\\' then
      match rest with
      | [] =>
        let (t, e2) := lex_error_token "Unterminated string literal" line (col + 1) errs
        (t, [], line, col + 1, e2)
      | e :: rest2 =>
        if e = 'n' then scan_string_loop rest2 line (col + 2) (acc.push '\n') tl tc errs
        else if e = 't' then scan_string_loop rest2 line (col + 2) (acc.push '\t') tl tc errs
        else if e = 'r' then scan_string_loop rest2 line (col + 2) (acc.push '\r') tl tc errs
        else if e = '\\' then scan_string_loop rest2 line (col + 2) (acc.push '\\') tl tc errs
        else if e = '"' then scan_string_loop rest2 line (col + 2) (acc.push '"') tl tc errs
        else if e = '\'' then scan_string_loop rest2 line (col + 2) (acc.push '\'') tl tc errs
        else if e = '0' then
          scan_string_loop rest2 line (col + 2) (acc.push (Char.ofNat 0)) tl tc errs
        else if e = 'x' then
          match rest2 with
          | [] =>
            let (t, e2) := lex_error_token "Invalid hex escape sequence: missing first hex digit"
              line (col + 2) errs
            (t, [], line, col + 2, e2)
          | h1 :: rest3 =>
            if is_hex_digit h1 then
              match rest3 with
              | [] =>
                let (t, e2) := lex_error_token
                  "Invalid hex escape sequence: missing second hex digit" line (col + 3) errs
                (t, [], line, col + 3, e2)
              | h2 :: rest4 =>
                if is_hex_digit h2 then
                  scan_string_loop rest4 line (col + 4)
                    (acc.push (Char.ofNat (hexVal h1 * 16 + hexVal h2))) tl tc errs
                else
                  let (t, e2) := lex_error_token
                    "Invalid hex escape sequence: missing second hex digit" line (col + 3) errs
                  (t, h2 :: rest4, line, col + 3, e2)
            else
              let (t, e2) := lex_error_token "Invalid hex escape sequence: missing first hex digit"
                line (col + 2) errs
              (t, h1 :: rest3, line, col + 2, e2)
        else if e = '\n' then scan_string_loop rest2 (line + 1) 1 (acc.push e) tl tc errs
        else scan_string_loop rest2 line (col + 2) (acc.push e) tl tc errs
    else if c = '\n' then scan_string_loop rest (line + 1) 1 (acc.push c) tl tc errs
    else scan_string_loop rest line (col + 1) (acc.push c) tl tc errs

/-- The loop of Lexer::scan_single_line_comment: collect up to (not
including) the next newline. -/
def scan_line_comment_loop : List Char → Nat → String → List Char × Nat × String
  | [], col, acc => ([], col, acc)
  | c :: rest, col, acc =>
    if c = '\n' then (c :: rest, col, acc)
    else scan_line_comment_loop rest (col + 1) (acc.push c)

/-- The loop of Lexer::scan_multi_line_comment, entered after the opening
slash-star was consumed. -/
def scan_block_comment_loop : List Char → Nat → Nat → String → Nat → Nat → List String →
    Token × List Char × Nat × Nat × List String
  | [], line, col, _, _, _, errs =>
    let (t, e2) := lex_error_token "Unterminated multi-line comment" line col errs
    (t, [], line, col, e2)
  | '*' :: '/' :: rest, line, col, acc, tl, tc, errs =>
    (⟨.COMMENT, acc, tl, tc, ""⟩, rest, line, col + 2, errs)
  | c :: rest, line, col, acc, tl, tc, errs =>
    if c = '\n' then scan_block_comment_loop rest (line + 1) 1 (acc.push c) tl tc errs
    else scan_block_comment_loop rest line (col + 1) (acc.push c) tl tc errs

/-- The dispatch of Lexer::scan_token after whitespace skipping: `errs`
is the accumulated errors_ list, (line, col) the position of the first
significant byte, and the list argument the remaining source. The
unknown-byte case advances past the byte FIRST and then reports, so the
diagnostic carries the position after the byte, exactly as the C++
does. -/
def peek_is_digit : List Char → Bool
  | d :: _ => is_digit d
  | [] => false

def scan_token_core (errs : List String) (line col : Nat) : List Char → Token × LexState
  | [] => (⟨.END_OF_FILE, "", line, col, ""⟩, ⟨[], line, col, errs⟩)
  | '\n' :: rest => (⟨.NEWLINE, "\n", line, col, ""⟩, ⟨rest, line + 1, 1, errs⟩)
  | '/' :: '/' :: rest =>
    let r := scan_line_comment_loop rest (col + 2) ""
    (⟨.COMMENT, r.2.2, line, col, ""⟩, ⟨r.1, line, r.2.1, errs⟩)
  | '/' :: '*' :: rest =>
    let r := scan_block_comment_loop rest line (col + 2) "" line col errs
    (r.1, ⟨r.2.1, r.2.2.1, r.2.2.2.1, r.2.2.2.2⟩)
  | ':' :: rest => (⟨.COLON, ":", line, col, ""⟩, ⟨rest, line, col + 1, errs⟩)
  | ',' :: rest => (⟨.COMMA, ",", line, col, ""⟩, ⟨rest, line, col + 1, errs⟩)
  | '{' :: rest => (⟨.LBRACE, "\x7b", line, col, ""⟩, ⟨rest, line, col + 1, errs⟩)
  | '}' :: rest => (⟨.RBRACE, "\x7d", line, col, ""⟩, ⟨rest, line, col + 1, errs⟩)
  | '<' :: rest => (⟨.LANGLE, "<", line, col, ""⟩, ⟨rest, line, col + 1, errs⟩)
  | '>' :: rest => (⟨.RANGLE, ">", line, col, ""⟩, ⟨rest, line, col + 1, errs⟩)
  | '(' :: rest => (⟨.LPAREN, "(", line, col, ""⟩, ⟨rest, line, col + 1, errs⟩)
  | ')' :: rest => (⟨.RPAREN, ")", line, col, ""⟩, ⟨rest, line, col + 1, errs⟩)
  | '"' :: rest =>
    let r := scan_string_loop rest line (col + 1) "" line col errs
    (r.1, ⟨r.2.1, r.2.2.1, r.2.2.2.1, r.2.2.2.2⟩)
  | c :: rest =>
    if is_digit c || (c = '-' && peek_is_digit rest) then
      let r := scan_number (c :: rest) line col
      (r.1, ⟨r.2.1, line, r.2.2, errs⟩)
    else if is_letter c || c = '_' then
      let r := scan_identifier_or_keyword (c :: rest) line col
      (r.1, ⟨r.2.1, line, r.2.2, errs⟩)
    else
      let msg := "Unexpected character: '" ++ String.mk [c] ++ "'"
      let r := lex_error_token msg line (col + 1) errs
      (r.1, ⟨rest, line, col + 1, r.2⟩)

/-- Lexer::scan_token: skip whitespace (other than newline), then
dispatch on the first byte. -/
def scan_token (s : LexState) : Token × LexState :=
  scan_token_core s.errors (skip_ws s.src s.line s.col).2.1
    (skip_ws s.src s.line s.col).2.2 (skip_ws s.src s.line s.col).1

/-! ### Forward progress of the scanner -/

theorem skip_ws_src_le (src : List Char) : ∀ line col,
    ((skip_ws src line col).1).length ≤ src.length := by
  induction src with
  | nil => intro line col; simp [skip_ws]
  | cons c rest ih =>
    intro line col
    rw [skip_ws]
    split
    · exact le_trans (ih _ _) (by simp)
    · simp

theorem scan_while_src_le (p : Char → Bool) (src : List Char) : ∀ col acc,
    ((scan_while p src col acc).1).length ≤ src.length := by
  induction src with
  | nil => intro col acc; simp [scan_while]
  | cons c rest ih =>
    intro col acc
    rw [scan_while]
    split
    · exact le_trans (ih _ _) (by simp)
    · simp

theorem scan_line_comment_loop_src_le (src : List Char) : ∀ col acc,
    ((scan_line_comment_loop src col acc).1).length ≤ src.length := by
  induction src with
  | nil => intro col acc; simp [scan_line_comment_loop]
  | cons c rest ih =>
    intro col acc
    rw [scan_line_comment_loop]
    split
    · simp
    · exact le_trans (ih _ _) (by simp)

theorem scan_block_comment_loop_src_le (src : List Char) (line col : Nat) (acc : String)
    (tl tc : Nat) (errs : List String) :
    ((scan_block_comment_loop src line col acc tl tc errs).2.1).length ≤ src.length := by
  induction src, line, col, acc, tl, tc, errs using scan_block_comment_loop.induct <;>
    (rw [scan_block_comment_loop.eq_def]; try simp_all [lex_error_token]) <;> try omega

theorem scan_string_loop_src_le (src : List Char) (line col : Nat) (acc : String)
    (tl tc : Nat) (errs : List String) :
    ((scan_string_loop src line col acc tl tc errs).2.1).length ≤ src.length := by
  induction src, line, col, acc, tl, tc, errs using scan_string_loop.induct <;>
    (rw [scan_string_loop.eq_def]; try simp_all [lex_error_token]) <;> try omega

theorem scan_frac_src_le (src : List Char) (col : Nat) (lex : String) :
    ((scan_frac src col lex).1).length ≤ src.length := by
  rw [scan_frac.eq_def]
  split
  · split
    · exact le_trans (scan_while_src_le _ _ _ _) (by simp only [List.length_cons]; omega)
    · simp
  · simp

theorem scan_exponent_src_le (src : List Char) (col : Nat) (lex : String) :
    ((scan_exponent src col lex).1).length ≤ src.length := by
  rw [scan_exponent.eq_def]
  split
  · split
    · split
      · split
        · exact le_trans (scan_while_src_le _ _ _ _) (by simp only [List.length_cons]; omega)
        · exact le_trans (scan_while_src_le _ _ _ _) (by simp only [List.length_cons]; omega)
      · simp
    · simp
  · simp

theorem scan_number_decimal_src_le (src : List Char) (col : Nat) (lex : String) (tl tc : Nat) :
    ((scan_number_decimal src col lex tl tc).2.1).length ≤ src.length := by
  rw [scan_number_decimal]
  simp only
  have h1 := scan_while_src_le is_digit src col lex
  have h2 := scan_frac_src_le (scan_while is_digit src col lex).1
    (scan_while is_digit src col lex).2.1 (scan_while is_digit src col lex).2.2
  have h3 := scan_exponent_src_le
    (scan_frac (scan_while is_digit src col lex).1 (scan_while is_digit src col lex).2.1
      (scan_while is_digit src col lex).2.2).1
    (scan_frac (scan_while is_digit src col lex).1 (scan_while is_digit src col lex).2.1
      (scan_while is_digit src col lex).2.2).2.1
    (scan_frac (scan_while is_digit src col lex).1 (scan_while is_digit src col lex).2.1
      (scan_while is_digit src col lex).2.2).2.2
  omega

theorem scan_number_core_src_le (src1 : List Char) (col1 : Nat) (lex1 : String) (tl tc : Nat) :
    ((scan_number_core src1 col1 lex1 tl tc).2.1).length ≤ src1.length := by
  rw [scan_number_core.eq_def]
  split
  · split
    · exact le_trans (scan_while_src_le _ _ _ _) (by simp only [List.length_cons]; omega)
    · split
      · exact le_trans (scan_while_src_le _ _ _ _) (by simp only [List.length_cons]; omega)
      · split
        · exact le_trans (scan_while_src_le _ _ _ _) (by simp only [List.length_cons]; omega)
        · exact scan_number_decimal_src_le _ _ _ _ _
  · exact scan_number_decimal_src_le _ _ _ _ _

theorem scan_number_decimal_src_lt (c : Char) (rest : List Char) (col : Nat) (lex : String)
    (tl tc : Nat) (hd : is_digit c = true) :
    ((scan_number_decimal (c :: rest) col lex tl tc).2.1).length ≤ rest.length := by
  rw [scan_number_decimal]
  simp only
  rw [show scan_while is_digit (c :: rest) col lex
      = scan_while is_digit rest (col + 1) (lex.push c) by rw [scan_while]; simp [hd]]
  have h1 := scan_while_src_le is_digit rest (col + 1) (lex.push c)
  have h2 := scan_frac_src_le (scan_while is_digit rest (col + 1) (lex.push c)).1
    (scan_while is_digit rest (col + 1) (lex.push c)).2.1
    (scan_while is_digit rest (col + 1) (lex.push c)).2.2
  have h3 := scan_exponent_src_le
    (scan_frac (scan_while is_digit rest (col + 1) (lex.push c)).1
      (scan_while is_digit rest (col + 1) (lex.push c)).2.1
      (scan_while is_digit rest (col + 1) (lex.push c)).2.2).1
    (scan_frac (scan_while is_digit rest (col + 1) (lex.push c)).1
      (scan_while is_digit rest (col + 1) (lex.push c)).2.1
      (scan_while is_digit rest (col + 1) (lex.push c)).2.2).2.1
    (scan_frac (scan_while is_digit rest (col + 1) (lex.push c)).1
      (scan_while is_digit rest (col + 1) (lex.push c)).2.1
      (scan_while is_digit rest (col + 1) (lex.push c)).2.2).2.2
  omega

/-- scan_number consumes at least one character when entered on a digit
or on a minus sign (the only ways scan_token enters it). -/
theorem scan_number_src_lt (c : Char) (rest : List Char) (line col : Nat)
    (h : is_digit c = true ∨ c = '-') :
    ((scan_number (c :: rest) line col).2.1).length ≤ rest.length := by
  rcases h with hd | hm
  · have hne : c ≠ '-' := by
      intro he
      rw [he] at hd
      simp [is_digit] at hd
    rw [scan_number.eq_def]
    split
    · rename_i rest2 heq
      injection heq with h1 h2
      exact absurd h1 hne
    · rw [scan_number_core.eq_def]
      split
      · rename_i b rest2 heq
        injection heq with h1 h2
        subst h2
        split
        · exact le_trans (scan_while_src_le _ _ _ _) (by simp only [List.length_cons]; omega)
        · split
          · exact le_trans (scan_while_src_le _ _ _ _) (by simp only [List.length_cons]; omega)
          · split
            · exact le_trans (scan_while_src_le _ _ _ _) (by simp only [List.length_cons]; omega)
            · have := scan_number_decimal_src_lt '0' (b :: rest2) col "" line col (by decide)
              simp at this ⊢
              omega
      · exact scan_number_decimal_src_lt c rest col "" line col hd
  · subst hm
    rw [scan_number.eq_def]
    exact scan_number_core_src_le rest (col + 1) (String.mk ['-']) line col

theorem scan_identifier_src_lt (c : Char) (rest : List Char) (line col : Nat)
    (h : (is_letter c || is_digit c || c = '_') = true) :
    ((scan_identifier_or_keyword (c :: rest) line col).2.1).length ≤ rest.length := by
  rw [scan_identifier_or_keyword]
  simp only
  rw [show scan_while (fun ch => is_letter ch || is_digit ch || ch = '_') (c :: rest) col ""
      = scan_while (fun ch => is_letter ch || is_digit ch || ch = '_') rest (col + 1)
        ("".push c) by rw [scan_while]; simp [h]]
  exact scan_while_src_le _ rest (col + 1) ("".push c)

/-- Forward progress of the dispatch: either END_OF_FILE or at least one
character is consumed. -/
theorem scan_token_core_progress (errs : List String) (line col : Nat) (src : List Char) :
    (scan_token_core errs line col src).1.type = TokenType.END_OF_FILE ∨
      ((scan_token_core errs line col src).2).src.length < src.length := by
  cases src with
  | nil => left; rfl
  | cons c rest =>
    rw [scan_token_core.eq_def]
    split
    next heq => exact absurd heq (by simp)
    next rs heq =>
      right
      injection heq with h1 h2
      rw [← h2]
      simp
    next rs heq =>
      right
      injection heq with h1 h2
      rw [h2]
      have := scan_line_comment_loop_src_le rs (col + 2) ""
      simp
      omega
    next rs heq =>
      right
      injection heq with h1 h2
      rw [h2]
      have := scan_block_comment_loop_src_le rs line (col + 2) "" line col errs
      simp
      omega
    next rs heq =>
      right; injection heq with h1 h2; rw [← h2]; simp
    next rs heq =>
      right; injection heq with h1 h2; rw [← h2]; simp
    next rs heq =>
      right; injection heq with h1 h2; rw [← h2]; simp
    next rs heq =>
      right; injection heq with h1 h2; rw [← h2]; simp
    next rs heq =>
      right; injection heq with h1 h2; rw [← h2]; simp
    next rs heq =>
      right; injection heq with h1 h2; rw [← h2]; simp
    next rs heq =>
      right; injection heq with h1 h2; rw [← h2]; simp
    next rs heq =>
      right; injection heq with h1 h2; rw [← h2]; simp
    next rs heq =>
      right
      injection heq with h1 h2
      rw [← h2]
      have := scan_string_loop_src_le rest line (col + 1) "" line col errs
      simp
      omega
    next a hd tl h1 h2 h3 h4 h5 h6 h7 h8 h9 h10 h11 h12 hequ =>
      injection hequ with he1 he2
      rw [← he1, ← he2]
      split
      · rename_i hnum
        right
        have hcond : is_digit c = true ∨ c = '-' := by
          rcases Bool.or_eq_true_iff.mp hnum with hx | hy
          · exact Or.inl hx
          · exact Or.inr (by simpa using (Bool.and_eq_true_iff.mp hy).1)
        have := scan_number_src_lt c rest line col hcond
        simp
        omega
      · split
        · rename_i hid
          right
          have hcond : (is_letter c || is_digit c || c = '_') = true := by
            rcases Bool.or_eq_true_iff.mp hid with hx | hy
            · simp [hx]
            · simp [hy]
          have := scan_identifier_src_lt c rest line col hcond
          simp
          omega
        · right; simp

/-- Forward progress: scan_token either returns END_OF_FILE or strictly
consumes input. -/
theorem scan_token_progress (s : LexState) :
    (scan_token s).1.type = TokenType.END_OF_FILE ∨
      ((scan_token s).2).src.length < s.src.length := by
  have hws := skip_ws_src_le s.src s.line s.col
  rw [scan_token]
  rcases scan_token_core_progress s.errors (skip_ws s.src s.line s.col).2.1
      (skip_ws s.src s.line s.col).2.2 (skip_ws s.src s.line s.col).1 with h | h
  · exact Or.inl h
  · exact Or.inr (lt_of_lt_of_le h hws)

/-- Lexer tokenization to exhaustion: repeatedly call scan_token until an
END_OF_FILE token is produced, which is kept as the final element. Its
acceptance by Lean (termination through scan_token_progress) is the
totality claim of the lexer. -/
def tokenize (s : LexState) : List Token :=
  match hsc : scan_token s with
  | (t, s2) =>
    if ht : t.type = TokenType.END_OF_FILE then [t]
    else t :: tokenize s2
termination_by s.src.length
decreasing_by
  have := scan_token_progress s
  rw [hsc] at this
  simp only at this
  rcases this with h1 | h2
  · exact absurd h1 ht
  · exact h2

/-- Lexer::peeked_token_ and the demand-driven interface (next_token,
peek_token, has_more_tokens). -/
structure Lexer where
  state : LexState
  peeked : Option Token
deriving DecidableEq

/-- Lexer::next_token: return the buffered token if present, else scan. -/
def next_token (l : Lexer) : Token × Lexer :=
  match l.peeked with
  | some t => (t, { l with peeked := none })
  | none =>
    let (t, s2) := scan_token l.state
    (t, ⟨s2, none⟩)

/-- Lexer::peek_token: scan and buffer if nothing is buffered. -/
def peek_token (l : Lexer) : Token × Lexer :=
  match l.peeked with
  | some t => (t, l)
  | none =>
    let (t, s2) := scan_token l.state
    (t, ⟨s2, some t⟩)

/-- Lexer::has_more_tokens: `!is_at_end()`, i.e. purely whether the
scanning position reached the end of the buffer — the peeked buffer is
not consulted. -/
def has_more_tokens (l : Lexer) : Bool :=
  !(l.state.src.isEmpty)

/-! ## Claim C6: lexer totality -/

theorem tokenize_ne_nil (s : LexState) : tokenize s ≠ [] := by
  rw [tokenize.eq_def]
  split
  split <;> simp

theorem tokenize_ends_eof (s : LexState) :
    ∃ tk, (tokenize s).getLast? = some tk ∧ tk.type = TokenType.END_OF_FILE := by
  induction s using tokenize.induct with
  | case1 s t s2 hsc ht =>
    rw [tokenize.eq_def, hsc]
    simp [ht]
  | case2 s t s2 hsc ht ih =>
    rw [tokenize.eq_def, hsc]
    simp only [ht, dite_false]
    obtain ⟨tk, htk, hty⟩ := ih
    refine ⟨tk, ?_, hty⟩
    cases htl : tokenize s2 with
    | nil => exact absurd htl (tokenize_ne_nil s2)
    | cons a l =>
      rw [htl] at htk
      rw [List.getLast?_cons_cons]
      exact htk

/-- C6 (confirmed): lexer totality. (1) Every scan either returns
END_OF_FILE or consumes at least one byte; (2) tokenizing to exhaustion
is total (tokenize is a terminating function, accepted by Lean through
that progress) and its output is non-empty and ends with an END_OF_FILE
token; (3) an unknown byte — one that starts no token form — yields an
ERROR token carrying the "Unexpected character" diagnostic, the byte is
consumed (scanning continues at rest with the diagnostic appended);
(4) once the input is exhausted, scan_token returns END_OF_FILE and
leaves the state unchanged, so every subsequent call does the same. -/
theorem claim_C6_lexer_totality :
    (∀ s : LexState, (scan_token s).1.type = TokenType.END_OF_FILE ∨
      ((scan_token s).2).src.length < s.src.length) ∧
    (∀ s : LexState, tokenize s ≠ [] ∧
      ∃ tk, (tokenize s).getLast? = some tk ∧ tk.type = TokenType.END_OF_FILE) ∧
    (∀ (errs : List String) (line col : Nat) (c : Char) (rest : List Char),
      c ≠ '\n' → c ≠ ':' → c ≠ ',' → c ≠ '{' → c ≠ '}' → c ≠ '<' → c ≠ '>' →
      c ≠ '(' → c ≠ ')' → c ≠ '"' → c ≠ '/' →
      (is_digit c || (c = '-' && peek_is_digit rest)) = false →
      (is_letter c || c = '_') = false →
      scan_token_core errs line col (c :: rest) =
        (⟨.ERROR, "", line, col + 1, "Unexpected character: '" ++ String.mk [c] ++ "'"⟩,
         ⟨rest, line, col + 1,
          errs ++ [report_error ("Unexpected character: '" ++ String.mk [c] ++ "'")
            line (col + 1)]⟩)) ∧
    (∀ s : LexState, s.src = [] →
      scan_token s = (⟨.END_OF_FILE, "", s.line, s.col, ""⟩, s)) := by
  refine ⟨scan_token_progress, fun s => ⟨tokenize_ne_nil s, tokenize_ends_eof s⟩, ?_, ?_⟩
  · intro errs line col c rest hnl hco hcm hlb hrb hla hra hlp hrp hqu hsl hnum hid
    rw [scan_token_core.eq_def]
    simp [hnl, hco, hcm, hlb, hrb, hla, hra, hlp, hrp, hqu, hsl, hnum, hid, lex_error_token]
  · intro s hsrc
    rw [scan_token, hsrc]
    simp [skip_ws, scan_token_core]
    cases s
    simp at hsrc
    simp [hsrc]

/-- Witness for claim_C6_lexer_totality: the unknown byte clause applied
at the byte '@', and the exhausted clause at an empty state. -/
theorem claim_C6_witness :
    scan_token_core [] 1 1 ('@' :: ['x']) =
      (⟨.ERROR, "", 1, 2, "Unexpected character: '" ++ String.mk ['@'] ++ "'"⟩,
       ⟨['x'], 1, 2, [report_error ("Unexpected character: '" ++ String.mk ['@'] ++ "'") 1 2]⟩) ∧
    scan_token ⟨[], 7, 3, []⟩ = (⟨.END_OF_FILE, "", 7, 3, ""⟩, ⟨[], 7, 3, []⟩) :=
  ⟨by
    have h := claim_C6_lexer_totality.2.2.1 [] 1 1 '@' ['x']
      (by decide) (by decide) (by decide) (by decide) (by decide) (by decide) (by decide)
      (by decide) (by decide) (by decide) (by decide) (by decide) (by decide)
    simpa using h,
   claim_C6_lexer_totality.2.2.2 ⟨[], 7, 3, []⟩ rfl⟩

/-! ## Claim C7: string literal escape decoding -/

/-- C7 (confirmed): behaviour of the scan_string body loop. (1) The seven
simple escapes decode to their characters; (2) a backslash-x escape with
exactly two (case-insensitive) hex digits decodes to the single byte
16*v(H1)+v(H2); (3) any other escaped character other than a newline maps
to that literal character (an escaped newline also maps to itself, with
the line counter advanced); (4) input exhausted before the closing quote
— also right after a backslash — yields the "Unterminated string literal"
ERROR token; (5) a backslash-x escape not followed by a first or second
hex digit (including end of input) yields the corresponding "Invalid hex
escape sequence" ERROR token. Positions and the errors_ entry match the
C++ exactly. -/
theorem claim_C7_scan_string_escapes :
    (∀ (rest : List Char) (line col : Nat) (acc : String) (tl tc : Nat) (errs : List String),
      scan_string_loop ('\\' :: 'n' :: rest) line col acc tl tc errs =
        scan_string_loop rest line (col + 2) (acc.push '\n') tl tc errs ∧
      scan_string_loop ('\\' :: 't' :: rest) line col acc tl tc errs =
        scan_string_loop rest line (col + 2) (acc.push '\t') tl tc errs ∧
      scan_string_loop ('\\' :: 'r' :: rest) line col acc tl tc errs =
        scan_string_loop rest line (col + 2) (acc.push '\r') tl tc errs ∧
      scan_string_loop ('\\' :: '\\' :: rest) line col acc tl tc errs =
        scan_string_loop rest line (col + 2) (acc.push '\\') tl tc errs ∧
      scan_string_loop ('\\' :: '"' :: rest) line col acc tl tc errs =
        scan_string_loop rest line (col + 2) (acc.push '"') tl tc errs ∧
      scan_string_loop ('\\' :: '\'' :: rest) line col acc tl tc errs =
        scan_string_loop rest line (col + 2) (acc.push '\'') tl tc errs ∧
      scan_string_loop ('\\' :: '0' :: rest) line col acc tl tc errs =
        scan_string_loop rest line (col + 2) (acc.push (Char.ofNat 0)) tl tc errs) ∧
    (∀ (rest : List Char) (line col : Nat) (acc : String) (tl tc : Nat) (errs : List String)
      (h1 h2 : Char), is_hex_digit h1 = true → is_hex_digit h2 = true →
      scan_string_loop ('\\' :: 'x' :: h1 :: h2 :: rest) line col acc tl tc errs =
        scan_string_loop rest line (col + 4)
          (acc.push (Char.ofNat (hexVal h1 * 16 + hexVal h2))) tl tc errs) ∧
    (∀ (rest : List Char) (line col : Nat) (acc : String) (tl tc : Nat) (errs : List String)
      (c : Char), c ≠ 'n' → c ≠ 't' → c ≠ 'r' → c ≠ '\\' → c ≠ '"' → c ≠ '\'' → c ≠ '0' →
      c ≠ 'x' → c ≠ '\n' →
      scan_string_loop ('\\' :: c :: rest) line col acc tl tc errs =
        scan_string_loop rest line (col + 2) (acc.push c) tl tc errs) ∧
    (∀ (line col : Nat) (acc : String) (tl tc : Nat) (errs : List String),
      scan_string_loop [] line col acc tl tc errs =
        (⟨.ERROR, "", line, col, "Unterminated string literal"⟩, [], line, col,
         errs ++ [report_error "Unterminated string literal" line col]) ∧
      scan_string_loop ['\\'] line col acc tl tc errs =
        (⟨.ERROR, "", line, col + 1, "Unterminated string literal"⟩, [], line, col + 1,
         errs ++ [report_error "Unterminated string literal" line (col + 1)]) ∧
      scan_string_loop ['\\', 'x'] line col acc tl tc errs =
        (⟨.ERROR, "", line, col + 2, "Invalid hex escape sequence: missing first hex digit"⟩,
         [], line, col + 2,
         errs ++ [report_error "Invalid hex escape sequence: missing first hex digit"
           line (col + 2)])) ∧
    (∀ (rest3 : List Char) (line col : Nat) (acc : String) (tl tc : Nat) (errs : List String)
      (h1 : Char), is_hex_digit h1 = false →
      scan_string_loop ('\\' :: 'x' :: h1 :: rest3) line col acc tl tc errs =
        (⟨.ERROR, "", line, col + 2, "Invalid hex escape sequence: missing first hex digit"⟩,
         h1 :: rest3, line, col + 2,
         errs ++ [report_error "Invalid hex escape sequence: missing first hex digit"
           line (col + 2)])) ∧
    (∀ (line col : Nat) (acc : String) (tl tc : Nat) (errs : List String) (h1 : Char),
      is_hex_digit h1 = true →
      scan_string_loop ['\\', 'x', h1] line col acc tl tc errs =
        (⟨.ERROR, "", line, col + 3, "Invalid hex escape sequence: missing second hex digit"⟩,
         [], line, col + 3,
         errs ++ [report_error "Invalid hex escape sequence: missing second hex digit"
           line (col + 3)])) ∧
    (∀ (rest4 : List Char) (line col : Nat) (acc : String) (tl tc : Nat) (errs : List String)
      (h1 h2 : Char), is_hex_digit h1 = true → is_hex_digit h2 = false →
      scan_string_loop ('\\' :: 'x' :: h1 :: h2 :: rest4) line col acc tl tc errs =
        (⟨.ERROR, "", line, col + 3, "Invalid hex escape sequence: missing second hex digit"⟩,
         h2 :: rest4, line, col + 3,
         errs ++ [report_error "Invalid hex escape sequence: missing second hex digit"
           line (col + 3)])) := by
  refine ⟨?_, ?_, ?_, ?_, ?_, ?_, ?_⟩
  · intro rest line col acc tl tc errs
    refine ⟨?_, ?_, ?_, ?_, ?_, ?_, ?_⟩ <;>
      (rw [scan_string_loop.eq_def]; simp)
  · intro rest line col acc tl tc errs h1 h2 hh1 hh2
    rw [scan_string_loop.eq_def]
    simp [hh1, hh2]
  · intro rest line col acc tl tc errs c hn ht hr hbs hq hap h0 hx hnl
    rw [scan_string_loop.eq_def]
    simp [hn, ht, hr, hbs, hq, hap, h0, hx, hnl]
  · intro line col acc tl tc errs
    refine ⟨?_, ?_, ?_⟩ <;> (rw [scan_string_loop.eq_def]; simp [lex_error_token])
  · intro rest3 line col acc tl tc errs h1 hh1
    rw [scan_string_loop.eq_def]
    simp [hh1, lex_error_token]
  · intro line col acc tl tc errs h1 hh1
    rw [scan_string_loop.eq_def]
    simp [hh1, lex_error_token]
  · intro rest4 line col acc tl tc errs h1 h2 hh1 hh2
    rw [scan_string_loop.eq_def]
    simp [hh1, hh2, lex_error_token]

/-- Witness for claim_C7_scan_string_escapes: the hex clause at "\x41"
(decoding to the byte 65) and the simple escape clause at "\n". -/
theorem claim_C7_witness :
    scan_string_loop ('\\' :: 'x' :: '4' :: '1' :: ['"']) 1 2 "" 1 1 [] =
      scan_string_loop ['"'] 1 6 ("".push (Char.ofNat (hexVal '4' * 16 + hexVal '1'))) 1 1 [] ∧
    scan_string_loop ('\\' :: 'n' :: ['"']) 1 2 "" 1 1 [] =
      scan_string_loop ['"'] 1 4 ("".push '\n') 1 1 [] :=
  ⟨claim_C7_scan_string_escapes.2.1 ['"'] 1 2 "" 1 1 [] '4' '1' (by decide) (by decide),
   (claim_C7_scan_string_escapes.1 ['"'] 1 2 "" 1 1 []).1⟩

/-! ## Claim C10: has_more_tokens ignores the peeked buffer -/

/-- A lexer over the one-byte source "a". -/
def lexA : Lexer := ⟨⟨['a'], 1, 1, []⟩, none⟩

/-- C10 (confirmed): has_more_tokens() only reports whether the scanning
position reached the end of the buffer. On the source "a", peek_token()
scans and buffers the IDENTIFIER token "a", consuming the whole buffer;
has_more_tokens() then returns false although the next next_token() call
still delivers that buffered non-END_OF_FILE token. -/
theorem claim_C10_has_more_tokens_ignores_buffer :
    has_more_tokens lexA = true ∧
    (peek_token lexA).1 = ⟨.IDENTIFIER, "a", 1, 1, ""⟩ ∧
    has_more_tokens (peek_token lexA).2 = false ∧
    (next_token (peek_token lexA).2).1 = ⟨.IDENTIFIER, "a", 1, 1, ""⟩ ∧
    (next_token (peek_token lexA).2).1.type ≠ TokenType.END_OF_FILE := by
  refine ⟨rfl, rfl, rfl, rfl, by decide⟩

/-! ## Parser (src/parser/parser.cpp)

The parser's view of the lexer is a list of tokens still to be
delivered; a lexer whose input is exhausted returns END_OF_FILE forever,
modelled by a default END_OF_FILE token once the list is empty. -/

/-- The token the lexer keeps returning after its stream is exhausted. -/
def eofTok : Token := ⟨.END_OF_FILE, "", 0, 0, ""⟩

/-- Tokens Parser::advance skips implicitly. -/
def isTrivia (t : Token) : Bool :=
  t.type = TokenType.COMMENT || t.type = TokenType.WHITESPACE || t.type = TokenType.NEWLINE

/-- Parser::advance on the raw token stream: pull tokens until the
current one is significant. Returns (current_token_, remaining). -/
def parser_advance : List Token → Token × List Token
  | [] => (eofTok, [])
  | t :: rest => if isTrivia t then parser_advance rest else (t, rest)

theorem parser_advance_not_newline (ts : List Token) :
    ((parser_advance ts).1).type ≠ TokenType.NEWLINE := by
  induction ts with
  | nil => simp [parser_advance, eofTok]
  | cons t rest ih =>
    rw [parser_advance]
    split
    · exact ih
    · rename_i h
      intro hc
      simp only at hc
      exact h (by simp [isTrivia, hc])

theorem parser_advance_src_le (ts : List Token) :
    ((parser_advance ts).2).length ≤ ts.length := by
  induction ts with
  | nil => simp [parser_advance]
  | cons t rest ih =>
    rw [parser_advance]
    split
    · exact le_trans ih (by simp)
    · simp

/-- The recovery loop of Parser::synchronize, instrumented: the Bool
records whether the `current == NEWLINE` branch (parser.cpp lines 57-60)
was ever taken. `cur` is current_token_, the list the tokens still to be
pulled. -/
def synchronize_loop (cur : Token) (rest : List Token) : Bool × Token × List Token :=
  if cur.type = TokenType.END_OF_FILE then (false, cur, rest)
  else if cur.type = TokenType.NEWLINE then
    (true, (parser_advance rest).1, (parser_advance rest).2)
  else if cur.type = TokenType.IDENTIFIER then (false, cur, rest)
  else synchronize_loop (parser_advance rest).1 (parser_advance rest).2
termination_by rest.length + (if cur.type = TokenType.END_OF_FILE then 0 else 1)
decreasing_by
  have hcur : ¬ cur.type = TokenType.END_OF_FILE := by assumption
  rw [if_neg hcur]
  cases rest with
  | nil => simp [parser_advance, eofTok]
  | cons t more =>
    have h1 : ((parser_advance (t :: more)).2).length ≤ more.length := by
      rw [parser_advance]
      split
      · exact parser_advance_src_le more
      · simp
    have h2 : (if ((parser_advance (t :: more)).1).type = TokenType.END_OF_FILE then 0 else 1) ≤ 1 := by
      split <;> omega
    simp only [List.length_cons]
    omega

/-- Parser::synchronize: advance past the offending token (the
unconditional advance() at parser.cpp line 54), then run the recovery
loop. -/
def synchronize (rest : List Token) : Bool × Token × List Token :=
  synchronize_loop (parser_advance rest).1 (parser_advance rest).2

theorem synchronize_loop_spec (cur : Token) (rest : List Token)
    (h : cur.type ≠ TokenType.NEWLINE) :
    (synchronize_loop cur rest).1 = false ∧
    ((synchronize_loop cur rest).2.1.type = TokenType.IDENTIFIER ∨
     (synchronize_loop cur rest).2.1.type = TokenType.END_OF_FILE) := by
  induction cur, rest using synchronize_loop.induct with
  | case1 cur rest heof =>
    rw [synchronize_loop, if_pos heof]
    exact ⟨rfl, Or.inr heof⟩
  | case2 cur rest heof hnl =>
    exact absurd hnl h
  | case3 cur rest heof hnl hid =>
    rw [synchronize_loop, if_neg heof, if_neg hnl, if_pos hid]
    exact ⟨rfl, Or.inl hid⟩
  | case4 cur rest heof hnl hid ih =>
    rw [synchronize_loop, if_neg heof, if_neg hnl, if_neg hid]
    exact ih (parser_advance_not_newline rest)

/-- C3: corrected. Parser::synchronize first advances past the offending
token, and its loop stops with the current token an IDENTIFIER or
END_OF_FILE; the NEWLINE branch of the loop (parser.cpp:57-60) is never
taken, because Parser::advance filters out NEWLINE tokens, so no input
makes recovery stop at a NEWLINE token (the instrumentation flag, true
iff that branch runs, is false on every stream). -/
theorem claim_C3_synchronize_skips_newlines (rest : List Token) :
    (synchronize rest).1 = false ∧
    ((synchronize rest).2.1.type = TokenType.IDENTIFIER ∨
     (synchronize rest).2.1.type = TokenType.END_OF_FILE) :=
  synchronize_loop_spec (parser_advance rest).1 (parser_advance rest).2
    (parser_advance_not_newline rest)

/-- C3 counterexample to the literal claim: a raw stream whose very next
token after the offending one is a NEWLINE. The claim predicts the
recovery loop stops at that NEWLINE; the code skips it inside advance()
and stops only at the later IDENTIFIER, never taking the NEWLINE
branch. -/
theorem claim_C3_counterexample :
    synchronize
      [⟨.NEWLINE, "\n", 1, 5, ""⟩, ⟨.NUMBER_LITERAL, "5", 2, 1, ""⟩,
       ⟨.IDENTIFIER, "Y", 2, 3, ""⟩] =
      (false, ⟨.IDENTIFIER, "Y", 2, 3, ""⟩, []) ∧
    (⟨.NEWLINE, "\n", 1, 5, ""⟩ : Token) ∈
      ([⟨.NEWLINE, "\n", 1, 5, ""⟩, ⟨.NUMBER_LITERAL, "5", 2, 1, ""⟩,
        ⟨.IDENTIFIER, "Y", 2, 3, ""⟩] : List Token) ∧
    (TokenType.NEWLINE = TokenType.IDENTIFIER ↔ False) := by
  refine ⟨?_, by simp, by simp⟩
  simp [synchronize, parser_advance, isTrivia]
  rw [synchronize_loop]
  simp [parser_advance, isTrivia]
  rw [synchronize_loop]
  simp

/-! ### The type-expression parser over significant tokens (C8)

Parser::advance filters COMMENT/WHITESPACE/NEWLINE when loading
current_token_, so from the parse_* functions' point of view the input
is the stream of significant tokens; the head of the list plays
current_token_ and consuming a token is popping the head. Each function
returns (AST value, diagnostics appended to errors_, remaining stream).
The C++ recursion nests as deep as the input; that bound is made
explicit by a fuel parameter decremented at every call, `none` meaning
the fuel ran out (every theorem below supplies enough fuel). -/

/-- current_token_ when `ts` is the unconsumed stream (an exhausted
lexer keeps yielding END_OF_FILE). -/
def curTok (ts : List Token) : Token := ts.headD eofTok

/-- Parser::check. -/
def checkTok (ts : List Token) (k : TokenType) : Bool := (curTok ts).type = k

/-- Parser::report_error(message): same "Line L, Column C: msg" format
as the type checker's, at the current token. -/
def perr (msg : String) (ts : List Token) : String :=
  report_error msg (curTok ts).line (curTok ts).col

/-- Parser::skip_newlines. -/
def skip_newlines : List Token → List Token
  | t :: rest => if t.type = TokenType.NEWLINE then skip_newlines rest else t :: rest
  | [] => []

/-- Parser::expect: on success consume and return the token; on failure
report and return the current token without consuming. -/
def expect (ts : List Token) (k : TokenType) (msg : String) :
    Token × List String × List Token :=
  if checkTok ts k then (curTok ts, [], ts.tail)
  else (curTok ts, [perr msg ts], ts)

/-- Parser::is_primitive_type. -/
def is_primitive_type (ts : List Token) : Bool :=
  checkTok ts .STR || checkTok ts .INT || checkTok ts .BOOL || checkTok ts .UNIT ||
  checkTok ts .U8 || checkTok ts .U16 || checkTok ts .U32 || checkTok ts .U64 ||
  checkTok ts .I8 || checkTok ts .I16 || checkTok ts .I32 || checkTok ts .I64 ||
  checkTok ts .F32 || checkTok ts .F64

/-- Parser::token_to_primitive_type. -/
def token_to_primitive_type (t : TokenType) : PrimitiveType :=
  match t with
  | .STR => .STR
  | .INT => .INT
  | .BOOL => .BOOL
  | .UNIT => .UNIT
  | .U8 => .U8
  | .U16 => .U16
  | .U32 => .U32
  | .U64 => .U64
  | .I8 => .I8
  | .I16 => .I16
  | .I32 => .I32
  | .I64 => .I64
  | .F32 => .F32
  | .F64 => .F64
  | _ => .INT

/-- Parser::parse_ref_type (no recursion, so no fuel). -/
def parse_ref_type (ts : List Token) : TypeExpr × List String × List Token :=
  let start := curTok ts
  let r1 := expect ts .REF "Expected 'ref'"
  let r2 := expect r1.2.2 .LANGLE "Expected '<' after 'ref'"
  let r3 := expect r2.2.2 .ENTITY "Expected 'entity' in ref type"
  let r4 := expect r3.2.2 .RANGLE "Expected '>' after 'entity'"
  (.refT start.line start.col, r1.2.1 ++ r2.2.1 ++ r3.2.1 ++ r4.2.1, r4.2.2)

/-- Parser::parse_primitive_type (no recursion, so no fuel). -/
def parse_primitive_type (ts : List Token) :
    Option TypeExpr × List String × List Token :=
  if is_primitive_type ts then
    (some (.prim (token_to_primitive_type (curTok ts).type) (curTok ts).line
        (curTok ts).col), [], ts.tail)
  else (none, [perr "Expected primitive type" ts], ts)

mutual

/-- Parser::parse_type_expr: dispatch on the current token; on no match
report "Expected type expression" and return null. -/
def parse_type_expr : Nat → List Token → Option (Option TypeExpr × List String × List Token)
  | 0, _ => none
  | fuel+1, ts =>
    if checkTok ts .STRUCT then
      match parse_struct_type fuel ts with
      | none => none
      | some r => some (some r.1, r.2.1, r.2.2)
    else if checkTok ts .VARIANT then
      match parse_variant_type fuel ts with
      | none => none
      | some r => some (some r.1, r.2.1, r.2.2)
    else if checkTok ts .ENUM then
      match parse_enum_type fuel ts with
      | none => none
      | some r => some (some r.1, r.2.1, r.2.2)
    else if checkTok ts .ARRAY || checkTok ts .MAP || checkTok ts .OPTIONAL then
      parse_container_type fuel ts
    else if checkTok ts .REF then
      some (some (parse_ref_type ts).1, (parse_ref_type ts).2.1, (parse_ref_type ts).2.2)
    else if is_primitive_type ts then
      some (parse_primitive_type ts)
    else if checkTok ts .IDENTIFIER then
      some (some (.ident (curTok ts).lexeme (curTok ts).line (curTok ts).col), [], ts.tail)
    else
      some (none, [perr "Expected type expression" ts], ts)

/-- Parser::parse_struct_type. -/
def parse_struct_type : Nat → List Token → Option (TypeExpr × List String × List Token)
  | 0, _ => none
  | fuel+1, ts =>
    let start := curTok ts
    let r1 := expect ts .STRUCT "Expected 'struct'"
    let r2 := expect r1.2.2 .LBRACE "Expected '\x7b' after 'struct'"
    match parse_struct_loop fuel (skip_newlines r2.2.2) [] with
    | none => none
    | some b =>
      let r3 := expect b.2.2 .RBRACE "Expected '\x7d' after struct fields"
      some (.structT b.1 start.line start.col,
            r1.2.1 ++ r2.2.1 ++ b.2.1 ++ r3.2.1, r3.2.2)

/-- The field loop of Parser::parse_struct_type (parser.cpp:144-159):
parse a field, skip newlines, continue on a comma, otherwise leave the
loop (the RBRACE or the offending token stays current). -/
def parse_struct_loop : Nat → List Token → List Field →
    Option (List Field × List String × List Token)
  | 0, _, _ => none
  | fuel+1, ts, acc =>
    if checkTok ts .RBRACE || checkTok ts .END_OF_FILE then some (acc, [], ts)
    else
      match parse_field fuel ts with
      | none => none
      | some f =>
        let acc2 := match f.1 with
          | some fd => acc ++ [fd]
          | none => acc
        let ts2 := skip_newlines f.2.2
        if checkTok ts2 .COMMA then
          match parse_struct_loop fuel (skip_newlines ts2.tail) acc2 with
          | none => none
          | some r => some (r.1, f.2.1 ++ r.2.1, r.2.2)
        else some (acc2, f.2.1, ts2)

/-- Parser::parse_variant_type. -/
def parse_variant_type : Nat → List Token → Option (TypeExpr × List String × List Token)
  | 0, _ => none
  | fuel+1, ts =>
    let start := curTok ts
    let r1 := expect ts .VARIANT "Expected 'variant'"
    let r2 := expect r1.2.2 .LBRACE "Expected '\x7b' after 'variant'"
    match parse_variant_loop fuel (skip_newlines r2.2.2) [] with
    | none => none
    | some b =>
      let r3 := expect b.2.2 .RBRACE "Expected '\x7d' after variant alternatives"
      some (.variantT b.1 start.line start.col,
            r1.2.1 ++ r2.2.1 ++ b.2.1 ++ r3.2.1, r3.2.2)

/-- The alternative loop of Parser::parse_variant_type
(parser.cpp:175-189). -/
def parse_variant_loop : Nat → List Token → List Alt →
    Option (List Alt × List String × List Token)
  | 0, _, _ => none
  | fuel+1, ts, acc =>
    if checkTok ts .RBRACE || checkTok ts .END_OF_FILE then some (acc, [], ts)
    else
      match parse_alternative fuel ts with
      | none => none
      | some a =>
        let acc2 := match a.1 with
          | some al => acc ++ [al]
          | none => acc
        let ts2 := skip_newlines a.2.2
        if checkTok ts2 .COMMA then
          match parse_variant_loop fuel (skip_newlines ts2.tail) acc2 with
          | none => none
          | some r => some (r.1, a.2.1 ++ r.2.1, r.2.2)
        else some (acc2, a.2.1, ts2)

/-- Parser::parse_enum_type. -/
def parse_enum_type : Nat → List Token → Option (TypeExpr × List String × List Token)
  | 0, _ => none
  | fuel+1, ts =>
    let start := curTok ts
    let r1 := expect ts .ENUM "Expected 'enum'"
    let r2 := expect r1.2.2 .LBRACE "Expected '\x7b' after 'enum'"
    match parse_enum_loop fuel (skip_newlines r2.2.2) [] with
    | none => none
    | some b =>
      let r3 := expect b.2.2 .RBRACE "Expected '\x7d' after enum values"
      some (.enumT b.1 start.line start.col,
            r1.2.1 ++ r2.2.1 ++ b.2.1 ++ r3.2.1, r3.2.2)

/-- The value loop of Parser::parse_enum_type (parser.cpp:207-222): an
enum value is a bare IDENTIFIER (a non-identifier reports "Expected enum
value" and leaves the loop). -/
def parse_enum_loop : Nat → List Token → List String →
    Option (List String × List String × List Token)
  | 0, _, _ => none
  | fuel+1, ts, acc =>
    if checkTok ts .RBRACE || checkTok ts .END_OF_FILE then some (acc, [], ts)
    else if !(checkTok ts .IDENTIFIER) then
      some (acc, [perr "Expected enum value" ts], ts)
    else
      let acc2 := acc ++ [(curTok ts).lexeme]
      let ts2 := skip_newlines ts.tail
      if checkTok ts2 .COMMA then
        parse_enum_loop fuel (skip_newlines ts2.tail) acc2
      else some (acc2, [], ts2)

/-- Parser::parse_field: IDENTIFIER ':' type-expr; null (with the
diagnostics) if the name is missing or the type fails to parse. -/
def parse_field : Nat → List Token → Option (Option Field × List String × List Token)
  | 0, _ => none
  | fuel+1, ts =>
    if !(checkTok ts .IDENTIFIER) then
      some (none, [perr "Expected field name" ts], ts)
    else
      let name_token := curTok ts
      let r1 := expect ts.tail .COLON "Expected ':' after field name"
      match parse_type_expr fuel r1.2.2 with
      | none => none
      | some t =>
        match t.1 with
        | none => some (none, r1.2.1 ++ t.2.1, t.2.2)
        | some te =>
          some (some (.mk name_token.lexeme te name_token.line name_token.col),
                r1.2.1 ++ t.2.1, t.2.2)

/-- Parser::parse_alternative: IDENTIFIER, optionally ':' type-expr
(without a colon the payload is implicitly unit / null). -/
def parse_alternative : Nat → List Token → Option (Option Alt × List String × List Token)
  | 0, _ => none
  | fuel+1, ts =>
    if !(checkTok ts .IDENTIFIER) then
      some (none, [perr "Expected alternative name" ts], ts)
    else
      let name_token := curTok ts
      if checkTok ts.tail .COLON then
        match parse_type_expr fuel ts.tail.tail with
        | none => none
        | some t =>
          some (some (.mk name_token.lexeme t.1 name_token.line name_token.col),
                t.2.1, t.2.2)
      else some (some (.mk name_token.lexeme none name_token.line name_token.col),
                 [], ts.tail)

/-- Parser::parse_container_type: array/map/optional '<' ... '>'. -/
def parse_container_type : Nat → List Token → Option (Option TypeExpr × List String × List Token)
  | 0, _ => none
  | fuel+1, ts =>
    let start := curTok ts
    if checkTok ts .ARRAY || checkTok ts .MAP || checkTok ts .OPTIONAL then
      let kind : ContainerKind :=
        if checkTok ts .ARRAY then .ARRAY
        else if checkTok ts .MAP then .MAP
        else .OPTIONAL
      let r1 := expect ts.tail .LANGLE "Expected '<' after container type"
      if kind = ContainerKind.MAP then
        match parse_type_expr fuel r1.2.2 with
        | none => none
        | some k =>
          let r2 := expect k.2.2 .COMMA "Expected ',' between map key and value types"
          match parse_type_expr fuel r2.2.2 with
          | none => none
          | some v =>
            let r3 := expect v.2.2 .RANGLE "Expected '>' after container type parameter"
            some (some (.container .MAP none k.1 v.1 start.line start.col),
                  r1.2.1 ++ k.2.1 ++ r2.2.1 ++ v.2.1 ++ r3.2.1, r3.2.2)
      else
        match parse_type_expr fuel r1.2.2 with
        | none => none
        | some el =>
          let r3 := expect el.2.2 .RANGLE "Expected '>' after container type parameter"
          some (some (.container kind el.1 none none start.line start.col),
                r1.2.1 ++ el.2.1 ++ r3.2.1, r3.2.2)
    else some (none, [perr "Expected container type" ts], ts)

end

/-! ### Stream helper lemmas -/

theorem append_cancel_right {α : Type} {a b s : List α} (h : a ++ s = b ++ s) : a = b :=
  (List.append_left_injective s) h

theorem append_eq_self_nil {α : Type} {p s : List α} (h : p ++ s = s) : p = [] := by
  simpa using congrArg List.length h

theorem curTok_append {pre : List Token} (h : pre ≠ []) (X : List Token) :
    curTok (pre ++ X) = curTok pre := by
  cases pre with
  | nil => exact absurd rfl h
  | cons a l => rfl

theorem checkTok_append {pre : List Token} (h : pre ≠ []) (X : List Token) (k : TokenType) :
    checkTok (pre ++ X) k = checkTok pre k := by
  simp [checkTok, curTok_append h]

theorem tail_append {pre : List Token} (h : pre ≠ []) (X : List Token) :
    (pre ++ X).tail = pre.tail ++ X := by
  cases pre with
  | nil => exact absurd rfl h
  | cons a l => rfl

theorem curTok_type_append_congr {rest rest2 : List Token}
    (h : (curTok rest).type = (curTok rest2).type) (mid : List Token) :
    (curTok (mid ++ rest)).type = (curTok (mid ++ rest2)).type := by
  cases mid with
  | nil => simpa using h
  | cons a l => rfl

theorem checkTok_nil_iff (k : TokenType) :
    checkTok [] k = true ↔ k = TokenType.END_OF_FILE := by
  constructor
  · intro h
    simp [checkTok, curTok, eofTok] at h
    exact h.symm
  · intro h
    simp [checkTok, curTok, eofTok, h]

theorem checkTok_some_ne_nil {ts : List Token} {k : TokenType}
    (h : checkTok ts k = true) (hk : k ≠ TokenType.END_OF_FILE) : ts ≠ [] := by
  intro hn
  rw [hn, checkTok_nil_iff] at h
  exact hk h

theorem checkTok_cons (t : Token) (X : List Token) (k : TokenType) :
    checkTok (t :: X) k = decide (t.type = k) := rfl

theorem expect_pos {ts : List Token} {k : TokenType} (m : String)
    (h : checkTok ts k = true) :
    expect ts k m = (curTok ts, [], ts.tail) := by
  simp [expect, h]

theorem expect_neg {ts : List Token} {k : TokenType} (m : String)
    (h : checkTok ts k = false) :
    expect ts k m = (curTok ts, [perr m ts], ts) := by
  simp [expect, h]

theorem expect_errs_nil {ts : List Token} {k : TokenType} {m : String}
    (h : (expect ts k m).2.1 = []) : checkTok ts k = true := by
  by_cases hc : checkTok ts k = true
  · exact hc
  · rw [expect_neg m (by simpa using hc)] at h
    simp at h

theorem skip_newlines_decomp (ts : List Token) :
    ∃ nls, ts = nls ++ skip_newlines ts ∧ ∀ t ∈ nls, t.type = TokenType.NEWLINE := by
  induction ts with
  | nil => exact ⟨[], rfl, by simp⟩
  | cons t rest ih =>
    rw [skip_newlines]
    split
    · obtain ⟨nls, h1, h2⟩ := ih
      refine ⟨t :: nls, by simpa using h1, ?_⟩
      intro x hx
      rcases List.mem_cons.mp hx with h | h
      · rw [h]; assumption
      · exact h2 x h
    · exact ⟨[], rfl, by simp⟩

theorem skip_newlines_cons_head {ts : List Token} {t : Token} {r : List Token}
    (h : skip_newlines ts = t :: r) : ¬ t.type = TokenType.NEWLINE := by
  induction ts with
  | nil => simp [skip_newlines] at h
  | cons a l ih =>
    rw [skip_newlines] at h
    split at h
    · exact ih h
    · rename_i hnl
      injection h with h1 h2
      rw [← h1]
      exact hnl

theorem skip_newlines_of_curTok {ts : List Token}
    (h : ¬ (curTok ts).type = TokenType.NEWLINE) : skip_newlines ts = ts := by
  cases ts with
  | nil => rfl
  | cons t r =>
    rw [skip_newlines, if_neg]
    exact h

theorem skip_newlines_append_nl {nls : List Token}
    (h : ∀ t ∈ nls, t.type = TokenType.NEWLINE) (X : List Token) :
    skip_newlines (nls ++ X) = skip_newlines X := by
  induction nls with
  | nil => rfl
  | cons t r ih =>
    have ht : t.type = TokenType.NEWLINE := h t (by simp)
    simp only [List.cons_append]
    rw [skip_newlines, if_pos ht]
    exact ih (fun x hx => h x (by simp [hx]))

theorem skip_newlines_append_stop {pre q : List Token}
    (h : skip_newlines pre = q) (hq : q ≠ []) (X : List Token) :
    skip_newlines (pre ++ X) = q ++ X := by
  induction pre with
  | nil => exact absurd h.symm hq
  | cons t r ih =>
    rw [skip_newlines] at h
    simp only [List.cons_append]
    rw [skip_newlines]
    split at h
    · rename_i hnl
      rw [if_pos hnl]
      exact ih h
    · rename_i hnl
      rw [if_neg hnl]
      simp [← h]

theorem skip_newlines_curTok_not_newline (ts : List Token) :
    ¬ (curTok (skip_newlines ts)).type = TokenType.NEWLINE := by
  cases hs : skip_newlines ts with
  | nil => simp [curTok, eofTok]
  | cons t r =>
    have := skip_newlines_cons_head hs
    simpa [curTok] using this

theorem checkTok_cons_of {ts : List Token} {k : TokenType} (h : checkTok ts k = true)
    (hk : k ≠ TokenType.END_OF_FILE) : ∃ t u, ts = t :: u ∧ t.type = k := by
  cases ts with
  | nil => rw [checkTok_nil_iff] at h; exact absurd h hk
  | cons t u => exact ⟨t, u, rfl, by simpa [checkTok, curTok] using h⟩

/-- An error-free run of parse_ref_type consumed the four tokens
ref '<' entity '>'. -/
theorem parse_ref_consumes {ts : List Token} (h : (parse_ref_type ts).2.1 = []) :
    ∃ p, p ≠ [] ∧ ts = p ++ (parse_ref_type ts).2.2 := by
  simp only [parse_ref_type, List.append_eq_nil] at h ⊢
  obtain ⟨⟨⟨h1, h2⟩, h3⟩, h4⟩ := h
  have hc1 := expect_errs_nil h1
  obtain ⟨t1, u1, hts1, -⟩ := checkTok_cons_of hc1 (by decide)
  subst hts1
  rw [expect_pos _ hc1] at h2 h3 h4 ⊢
  simp only [List.tail_cons] at h2 h3 h4 ⊢
  have hc2 := expect_errs_nil h2
  obtain ⟨t2, u2, hts2, -⟩ := checkTok_cons_of hc2 (by decide)
  subst hts2
  rw [expect_pos _ hc2] at h3 h4 ⊢
  simp only [List.tail_cons] at h3 h4 ⊢
  have hc3 := expect_errs_nil h3
  obtain ⟨t3, u3, hts3, -⟩ := checkTok_cons_of hc3 (by decide)
  subst hts3
  rw [expect_pos _ hc3] at h4 ⊢
  simp only [List.tail_cons] at h4 ⊢
  have hc4 := expect_errs_nil h4
  obtain ⟨t4, u4, hts4, -⟩ := checkTok_cons_of hc4 (by decide)
  subst hts4
  rw [expect_pos _ hc4]
  exact ⟨[t1, t2, t3, t4], by simp, by simp⟩

/-- An error-free run of parse_primitive_type consumed one token. -/
theorem parse_prim_consumes {ts : List Token} (h : (parse_primitive_type ts).2.1 = []) :
    ∃ p, p ≠ [] ∧ ts = p ++ (parse_primitive_type ts).2.2 := by
  cases ts with
  | nil =>
    rw [parse_primitive_type] at h
    rw [if_neg (by decide)] at h
    simp at h
  | cons t u =>
    rw [parse_primitive_type] at h ⊢
    split at h
    · rename_i hp
      rw [if_pos hp]
      exact ⟨[t], by simp, by simp⟩
    · simp at h

/-- Error-free runs of the parse functions return a suffix of the input,
and (except for the body loops, which may run zero iterations) consume
at least one token. -/
theorem parse_consumes (fuel : Nat) :
    (∀ ts rv re rs, parse_type_expr fuel ts = some (rv, re, rs) → re = [] →
      ∃ p, p ≠ [] ∧ ts = p ++ rs) ∧
    (∀ ts rv re rs, parse_struct_type fuel ts = some (rv, re, rs) → re = [] →
      ∃ p, p ≠ [] ∧ ts = p ++ rs) ∧
    (∀ ts rv re rs, parse_variant_type fuel ts = some (rv, re, rs) → re = [] →
      ∃ p, p ≠ [] ∧ ts = p ++ rs) ∧
    (∀ ts rv re rs, parse_enum_type fuel ts = some (rv, re, rs) → re = [] →
      ∃ p, p ≠ [] ∧ ts = p ++ rs) ∧
    (∀ ts rv re rs, parse_container_type fuel ts = some (rv, re, rs) → re = [] →
      ∃ p, p ≠ [] ∧ ts = p ++ rs) ∧
    (∀ ts rv re rs, parse_field fuel ts = some (rv, re, rs) → re = [] →
      ∃ p, p ≠ [] ∧ ts = p ++ rs) ∧
    (∀ ts rv re rs, parse_alternative fuel ts = some (rv, re, rs) → re = [] →
      ∃ p, p ≠ [] ∧ ts = p ++ rs) ∧
    (∀ ts acc rv re rs, parse_struct_loop fuel ts acc = some (rv, re, rs) → re = [] →
      ∃ p, ts = p ++ rs) ∧
    (∀ ts acc rv re rs, parse_variant_loop fuel ts acc = some (rv, re, rs) → re = [] →
      ∃ p, ts = p ++ rs) ∧
    (∀ ts acc rv re rs, parse_enum_loop fuel ts acc = some (rv, re, rs) → re = [] →
      ∃ p, ts = p ++ rs) := by
  induction fuel with
  | zero =>
    refine ⟨?_, ?_, ?_, ?_, ?_, ?_, ?_, ?_, ?_, ?_⟩ <;>
      (intros ts; intros;
       simp_all [parse_type_expr, parse_struct_type, parse_variant_type,
         parse_enum_type, parse_container_type, parse_field, parse_alternative,
         parse_struct_loop, parse_variant_loop, parse_enum_loop])
  | succ f ih =>
    obtain ⟨ihte, ihst, ihvt, ihen, ihco, ihfi, ihal, ihsl, ihvl, ihel⟩ := ih
    refine ⟨?_, ?_, ?_, ?_, ?_, ?_, ?_, ?_, ?_, ?_⟩
    -- parse_type_expr
    · intro ts rv re rs h hnil
      simp only [parse_type_expr] at h
      split at h
      · cases hm : parse_struct_type f ts with
        | none => rw [hm] at h; simp at h
        | some r =>
          obtain ⟨r1, r2, r3⟩ := r
          rw [hm] at h
          simp only [Option.some.injEq, Prod.mk.injEq] at h
          obtain ⟨hv, he, hs⟩ := h
          obtain ⟨p, hp, hts⟩ := ihst ts r1 r2 r3 hm (he.trans hnil)
          exact ⟨p, hp, hs ▸ hts⟩
      · split at h
        · cases hm : parse_variant_type f ts with
          | none => rw [hm] at h; simp at h
          | some r =>
            obtain ⟨r1, r2, r3⟩ := r
            rw [hm] at h
            simp only [Option.some.injEq, Prod.mk.injEq] at h
            obtain ⟨hv, he, hs⟩ := h
            obtain ⟨p, hp, hts⟩ := ihvt ts r1 r2 r3 hm (he.trans hnil)
            exact ⟨p, hp, hs ▸ hts⟩
        · split at h
          · cases hm : parse_enum_type f ts with
            | none => rw [hm] at h; simp at h
            | some r =>
              obtain ⟨r1, r2, r3⟩ := r
              rw [hm] at h
              simp only [Option.some.injEq, Prod.mk.injEq] at h
              obtain ⟨hv, he, hs⟩ := h
              obtain ⟨p, hp, hts⟩ := ihen ts r1 r2 r3 hm (he.trans hnil)
              exact ⟨p, hp, hs ▸ hts⟩
          · split at h
            · exact ihco ts rv re rs h hnil
            · split at h
              · simp only [Option.some.injEq, Prod.mk.injEq] at h
                obtain ⟨hv, he, hs⟩ := h
                obtain ⟨p, hp, hts⟩ := parse_ref_consumes (he.trans hnil)
                exact ⟨p, hp, hs ▸ hts⟩
              · split at h
                · rename_i hprim
                  simp only [Option.some.injEq] at h
                  obtain ⟨p, hp, hts⟩ := @parse_prim_consumes ts (by rw [h]; exact hnil)
                  rw [h] at hts
                  exact ⟨p, hp, hts⟩
                · split at h
                  · rename_i hident
                    simp only [Option.some.injEq, Prod.mk.injEq] at h
                    obtain ⟨hv, he, hs⟩ := h
                    obtain ⟨t, u, hts, -⟩ := checkTok_cons_of hident (by decide)
                    subst hts
                    exact ⟨[t], by simp, by simp [← hs]⟩
                  · simp only [Option.some.injEq, Prod.mk.injEq] at h
                    obtain ⟨-, he, -⟩ := h
                    rw [← he] at hnil
                    simp at hnil
    -- parse_struct_type
    · intro ts rv re rs h hnil
      simp only [parse_struct_type] at h
      split at h
      · simp at h
      · rename_i b heq
        simp only [Option.some.injEq, Prod.mk.injEq] at h
        obtain ⟨hv, he, hs⟩ := h
        have herr := he.trans hnil
        simp only [List.append_eq_nil] at herr
        obtain ⟨⟨⟨h1, h2⟩, h3⟩, h4⟩ := herr
        have hc1 := expect_errs_nil h1
        obtain ⟨t1, u1, hts1, -⟩ := checkTok_cons_of hc1 (by decide)
        subst hts1
        rw [expect_pos _ hc1] at h2 heq
        simp only [List.tail_cons] at h2 heq
        have hc2 := expect_errs_nil h2
        obtain ⟨t2, u2, hts2, -⟩ := checkTok_cons_of hc2 (by decide)
        subst hts2
        rw [expect_pos _ hc2] at heq
        simp only [List.tail_cons] at heq
        obtain ⟨p3, hp3⟩ := ihsl (skip_newlines u2) [] b.1 b.2.1 b.2.2 (by rw [heq]) h3
        have hc3 := expect_errs_nil h4
        obtain ⟨rb, u3, hb2, -⟩ := checkTok_cons_of hc3 (by decide)
        rw [expect_pos _ hc3, hb2] at hs
        simp only [List.tail_cons] at hs
        obtain ⟨nls, hdec, -⟩ := skip_newlines_decomp u2
        refine ⟨t1 :: t2 :: (nls ++ p3 ++ [rb]), by simp, ?_⟩
        simp only [List.cons_append, List.append_assoc, List.singleton_append]
        rw [hdec, hp3, hb2, hs]
        simp
    -- parse_variant_type
    · intro ts rv re rs h hnil
      simp only [parse_variant_type] at h
      split at h
      · simp at h
      · rename_i b heq
        simp only [Option.some.injEq, Prod.mk.injEq] at h
        obtain ⟨hv, he, hs⟩ := h
        have herr := he.trans hnil
        simp only [List.append_eq_nil] at herr
        obtain ⟨⟨⟨h1, h2⟩, h3⟩, h4⟩ := herr
        have hc1 := expect_errs_nil h1
        obtain ⟨t1, u1, hts1, -⟩ := checkTok_cons_of hc1 (by decide)
        subst hts1
        rw [expect_pos _ hc1] at h2 heq
        simp only [List.tail_cons] at h2 heq
        have hc2 := expect_errs_nil h2
        obtain ⟨t2, u2, hts2, -⟩ := checkTok_cons_of hc2 (by decide)
        subst hts2
        rw [expect_pos _ hc2] at heq
        simp only [List.tail_cons] at heq
        obtain ⟨p3, hp3⟩ := ihvl (skip_newlines u2) [] b.1 b.2.1 b.2.2 (by rw [heq]) h3
        have hc3 := expect_errs_nil h4
        obtain ⟨rb, u3, hb2, -⟩ := checkTok_cons_of hc3 (by decide)
        rw [expect_pos _ hc3, hb2] at hs
        simp only [List.tail_cons] at hs
        obtain ⟨nls, hdec, -⟩ := skip_newlines_decomp u2
        refine ⟨t1 :: t2 :: (nls ++ p3 ++ [rb]), by simp, ?_⟩
        simp only [List.cons_append, List.append_assoc, List.singleton_append]
        rw [hdec, hp3, hb2, hs]
        simp
    -- parse_enum_type
    · intro ts rv re rs h hnil
      simp only [parse_enum_type] at h
      split at h
      · simp at h
      · rename_i b heq
        simp only [Option.some.injEq, Prod.mk.injEq] at h
        obtain ⟨hv, he, hs⟩ := h
        have herr := he.trans hnil
        simp only [List.append_eq_nil] at herr
        obtain ⟨⟨⟨h1, h2⟩, h3⟩, h4⟩ := herr
        have hc1 := expect_errs_nil h1
        obtain ⟨t1, u1, hts1, -⟩ := checkTok_cons_of hc1 (by decide)
        subst hts1
        rw [expect_pos _ hc1] at h2 heq
        simp only [List.tail_cons] at h2 heq
        have hc2 := expect_errs_nil h2
        obtain ⟨t2, u2, hts2, -⟩ := checkTok_cons_of hc2 (by decide)
        subst hts2
        rw [expect_pos _ hc2] at heq
        simp only [List.tail_cons] at heq
        obtain ⟨p3, hp3⟩ := ihel (skip_newlines u2) [] b.1 b.2.1 b.2.2 (by rw [heq]) h3
        have hc3 := expect_errs_nil h4
        obtain ⟨rb, u3, hb2, -⟩ := checkTok_cons_of hc3 (by decide)
        rw [expect_pos _ hc3, hb2] at hs
        simp only [List.tail_cons] at hs
        obtain ⟨nls, hdec, -⟩ := skip_newlines_decomp u2
        refine ⟨t1 :: t2 :: (nls ++ p3 ++ [rb]), by simp, ?_⟩
        simp only [List.cons_append, List.append_assoc, List.singleton_append]
        rw [hdec, hp3, hb2, hs]
        simp
    -- parse_container_type
    · intro ts rv re rs h hnil
      cases ts with
      | nil =>
        simp only [parse_container_type] at h
        rw [if_neg (by decide)] at h
        simp only [Option.some.injEq, Prod.mk.injEq] at h
        obtain ⟨-, he, -⟩ := h
        rw [← he] at hnil
        simp at hnil
      | cons t u =>
        simp only [parse_container_type, List.tail_cons] at h
        split at h
        · split at h
          · rw [if_neg (by decide)] at h
            split at h
            · simp at h
            · rename_i el heqe
              simp only [Option.some.injEq, Prod.mk.injEq] at h
              obtain ⟨hv, he, hs⟩ := h
              have herr := he.trans hnil
              simp only [List.append_eq_nil] at herr
              obtain ⟨⟨hA, hB⟩, hC⟩ := herr
              have hcl := expect_errs_nil hA
              obtain ⟨l, u2, hu, -⟩ := checkTok_cons_of hcl (by decide)
              subst hu
              rw [expect_pos _ hcl] at heqe
              simp only [List.tail_cons] at heqe
              obtain ⟨pe, hpe, hupe⟩ := ihte u2 el.1 el.2.1 el.2.2 (by rw [heqe]) hB
              have hcr := expect_errs_nil hC
              obtain ⟨ra, u4, he2, -⟩ := checkTok_cons_of hcr (by decide)
              rw [expect_pos _ hcr, he2] at hs
              simp only [List.tail_cons] at hs
              refine ⟨t :: l :: (pe ++ [ra]), by simp, ?_⟩
              simp only [List.cons_append, List.append_assoc, List.singleton_append]
              rw [hupe, he2, hs]
              simp
          · split at h
            · rw [if_pos rfl] at h
              split at h
              · simp at h
              · rename_i kq heqk
                split at h
                · simp at h
                · rename_i vq heqv
                  simp only [Option.some.injEq, Prod.mk.injEq] at h
                  obtain ⟨hv, he, hs⟩ := h
                  have herr := he.trans hnil
                  simp only [List.append_eq_nil] at herr
                  obtain ⟨⟨⟨⟨hA, hB⟩, hC⟩, hD⟩, hE⟩ := herr
                  have hcl := expect_errs_nil hA
                  obtain ⟨l, u2, hu, -⟩ := checkTok_cons_of hcl (by decide)
                  subst hu
                  rw [expect_pos _ hcl] at heqk
                  simp only [List.tail_cons] at heqk
                  obtain ⟨pk, hpk, hupk⟩ := ihte u2 kq.1 kq.2.1 kq.2.2 (by rw [heqk]) hB
                  have hcc := expect_errs_nil hC
                  obtain ⟨c2, u3, hk2, -⟩ := checkTok_cons_of hcc (by decide)
                  rw [expect_pos _ hcc, hk2] at heqv
                  simp only [List.tail_cons] at heqv
                  obtain ⟨pv, hpv, hupv⟩ := ihte u3 vq.1 vq.2.1 vq.2.2 (by rw [heqv]) hD
                  have hcr := expect_errs_nil hE
                  obtain ⟨ra, u4, hv2, -⟩ := checkTok_cons_of hcr (by decide)
                  rw [expect_pos _ hcr, hv2] at hs
                  simp only [List.tail_cons] at hs
                  refine ⟨t :: l :: (pk ++ c2 :: pv ++ [ra]), by simp, ?_⟩
                  simp only [List.cons_append, List.append_assoc, List.singleton_append]
                  rw [hupk, hk2, hupv, hv2, hs]
                  simp
            · rw [if_neg (by decide)] at h
              split at h
              · simp at h
              · rename_i el heqe
                simp only [Option.some.injEq, Prod.mk.injEq] at h
                obtain ⟨hv, he, hs⟩ := h
                have herr := he.trans hnil
                simp only [List.append_eq_nil] at herr
                obtain ⟨⟨hA, hB⟩, hC⟩ := herr
                have hcl := expect_errs_nil hA
                obtain ⟨l, u2, hu, -⟩ := checkTok_cons_of hcl (by decide)
                subst hu
                rw [expect_pos _ hcl] at heqe
                simp only [List.tail_cons] at heqe
                obtain ⟨pe, hpe, hupe⟩ := ihte u2 el.1 el.2.1 el.2.2 (by rw [heqe]) hB
                have hcr := expect_errs_nil hC
                obtain ⟨ra, u4, he2, -⟩ := checkTok_cons_of hcr (by decide)
                rw [expect_pos _ hcr, he2] at hs
                simp only [List.tail_cons] at hs
                refine ⟨t :: l :: (pe ++ [ra]), by simp, ?_⟩
                simp only [List.cons_append, List.append_assoc, List.singleton_append]
                rw [hupe, he2, hs]
                simp
        · simp only [Option.some.injEq, Prod.mk.injEq] at h
          obtain ⟨-, he, -⟩ := h
          rw [← he] at hnil
          simp at hnil
    -- parse_field
    · intro ts rv re rs h hnil
      simp only [parse_field] at h
      split at h
      · simp only [Option.some.injEq, Prod.mk.injEq] at h
        obtain ⟨-, he, -⟩ := h
        rw [← he] at hnil
        simp at hnil
      · rename_i hident0
        have hident : checkTok ts .IDENTIFIER = true := by
          revert hident0
          cases checkTok ts TokenType.IDENTIFIER <;> simp
        obtain ⟨t, u, hts, -⟩ := checkTok_cons_of hident (by decide)
        subst hts
        simp only [List.tail_cons] at h
        split at h
        · simp at h
        · rename_i tq heqt
          have hcomp : (expect u TokenType.COLON "Expected ':' after field name").2.1 ++ tq.2.1 = re ∧ tq.2.2 = rs := by
            split at h <;>
              (simp only [Option.some.injEq, Prod.mk.injEq] at h; exact ⟨h.2.1, h.2.2⟩)
          obtain ⟨he, hs⟩ := hcomp
          have herr := he.trans hnil
          simp only [List.append_eq_nil] at herr
          obtain ⟨h1, h2⟩ := herr
          have hcc := expect_errs_nil h1
          obtain ⟨c, u2, hu, -⟩ := checkTok_cons_of hcc (by decide)
          subst hu
          rw [expect_pos _ hcc] at heqt
          simp only [List.tail_cons] at heqt
          obtain ⟨pt, hpt, hupt⟩ := ihte u2 tq.1 tq.2.1 tq.2.2 (by rw [heqt]) h2
          refine ⟨t :: c :: pt, by simp, ?_⟩
          simp only [List.cons_append]
          rw [hupt, hs]
    -- parse_alternative
    · intro ts rv re rs h hnil
      simp only [parse_alternative] at h
      split at h
      · simp only [Option.some.injEq, Prod.mk.injEq] at h
        obtain ⟨-, he, -⟩ := h
        rw [← he] at hnil
        simp at hnil
      · rename_i hident0
        have hident : checkTok ts .IDENTIFIER = true := by
          revert hident0
          cases checkTok ts TokenType.IDENTIFIER <;> simp
        obtain ⟨t, u, hts, -⟩ := checkTok_cons_of hident (by decide)
        subst hts
        simp only [List.tail_cons] at h
        split at h
        · rename_i hcol
          split at h
          · simp at h
          · rename_i tq heqt
            simp only [Option.some.injEq, Prod.mk.injEq] at h
            obtain ⟨hv, he, hs⟩ := h
            obtain ⟨c, u2, hu, -⟩ := checkTok_cons_of hcol (by decide)
            subst hu
            simp only [List.tail_cons] at heqt
            obtain ⟨pt, hpt, hupt⟩ := ihte u2 tq.1 tq.2.1 tq.2.2 (by rw [heqt]) (he.trans hnil)
            refine ⟨t :: c :: pt, by simp, ?_⟩
            simp only [List.cons_append]
            rw [hupt, hs]
        · simp only [Option.some.injEq, Prod.mk.injEq] at h
          obtain ⟨hv, he, hs⟩ := h
          exact ⟨[t], by simp, by simp [← hs]⟩
    -- parse_struct_loop
    · intro ts acc rv re rs h hnil
      simp only [parse_struct_loop] at h
      split at h
      · simp only [Option.some.injEq, Prod.mk.injEq] at h
        exact ⟨[], by simp [← h.2.2]⟩
      · split at h
        · simp at h
        · rename_i fd heqf
          split at h
          · rename_i hcomma
            split at h
            · simp at h
            · rename_i q heq2
              simp only [Option.some.injEq, Prod.mk.injEq] at h
              obtain ⟨hv, he, hs⟩ := h
              have herr := he.trans hnil
              simp only [List.append_eq_nil] at herr
              obtain ⟨hf1, hq1⟩ := herr
              obtain ⟨pf, hpf, htsf⟩ := ihfi ts fd.1 fd.2.1 fd.2.2 (by rw [heqf]) hf1
              obtain ⟨ct, ts2t, hts2, -⟩ := checkTok_cons_of hcomma (by decide)
              rw [hts2] at heq2
              simp only [List.tail_cons] at heq2
              obtain ⟨p4, hp4⟩ := ihsl (skip_newlines ts2t) _ q.1 q.2.1 q.2.2 (by rw [heq2]) hq1
              obtain ⟨nls, hd1, -⟩ := skip_newlines_decomp fd.2.2
              obtain ⟨nls2, hd2, -⟩ := skip_newlines_decomp ts2t
              refine ⟨pf ++ nls ++ ct :: (nls2 ++ p4), ?_⟩
              simp only [List.append_assoc, List.cons_append]
              rw [htsf, hd1, hts2, hd2, hp4, hs]
          · rename_i hncomma
            simp only [Option.some.injEq, Prod.mk.injEq] at h
            obtain ⟨hv, he, hs⟩ := h
            obtain ⟨pf, hpf, htsf⟩ := ihfi ts fd.1 fd.2.1 fd.2.2 (by rw [heqf]) (he.trans hnil)
            obtain ⟨nls, hd1, -⟩ := skip_newlines_decomp fd.2.2
            refine ⟨pf ++ nls, ?_⟩
            simp only [List.append_assoc]
            rw [htsf, hd1, hs]
    -- parse_variant_loop
    · intro ts acc rv re rs h hnil
      simp only [parse_variant_loop] at h
      split at h
      · simp only [Option.some.injEq, Prod.mk.injEq] at h
        exact ⟨[], by simp [← h.2.2]⟩
      · split at h
        · simp at h
        · rename_i fd heqf
          split at h
          · rename_i hcomma
            split at h
            · simp at h
            · rename_i q heq2
              simp only [Option.some.injEq, Prod.mk.injEq] at h
              obtain ⟨hv, he, hs⟩ := h
              have herr := he.trans hnil
              simp only [List.append_eq_nil] at herr
              obtain ⟨hf1, hq1⟩ := herr
              obtain ⟨pf, hpf, htsf⟩ := ihal ts fd.1 fd.2.1 fd.2.2 (by rw [heqf]) hf1
              obtain ⟨ct, ts2t, hts2, -⟩ := checkTok_cons_of hcomma (by decide)
              rw [hts2] at heq2
              simp only [List.tail_cons] at heq2
              obtain ⟨p4, hp4⟩ := ihvl (skip_newlines ts2t) _ q.1 q.2.1 q.2.2 (by rw [heq2]) hq1
              obtain ⟨nls, hd1, -⟩ := skip_newlines_decomp fd.2.2
              obtain ⟨nls2, hd2, -⟩ := skip_newlines_decomp ts2t
              refine ⟨pf ++ nls ++ ct :: (nls2 ++ p4), ?_⟩
              simp only [List.append_assoc, List.cons_append]
              rw [htsf, hd1, hts2, hd2, hp4, hs]
          · rename_i hncomma
            simp only [Option.some.injEq, Prod.mk.injEq] at h
            obtain ⟨hv, he, hs⟩ := h
            obtain ⟨pf, hpf, htsf⟩ := ihal ts fd.1 fd.2.1 fd.2.2 (by rw [heqf]) (he.trans hnil)
            obtain ⟨nls, hd1, -⟩ := skip_newlines_decomp fd.2.2
            refine ⟨pf ++ nls, ?_⟩
            simp only [List.append_assoc]
            rw [htsf, hd1, hs]
    -- parse_enum_loop
    · intro ts acc rv re rs h hnil
      simp only [parse_enum_loop] at h
      split at h
      · simp only [Option.some.injEq, Prod.mk.injEq] at h
        exact ⟨[], by simp [← h.2.2]⟩
      · split at h
        · simp only [Option.some.injEq, Prod.mk.injEq] at h
          obtain ⟨-, he, -⟩ := h
          rw [← he] at hnil
          simp at hnil
        · rename_i hident0
          have hident : checkTok ts .IDENTIFIER = true := by
            revert hident0
            cases checkTok ts TokenType.IDENTIFIER <;> simp
          obtain ⟨t, u, hts, -⟩ := checkTok_cons_of hident (by decide)
          subst hts
          simp only [List.tail_cons] at h
          split at h
          · rename_i hcomma
            obtain ⟨ct, ts2t, hts2, -⟩ := checkTok_cons_of hcomma (by decide)
            rw [hts2] at h
            simp only [List.tail_cons] at h
            obtain ⟨p4, hp4⟩ := ihel (skip_newlines ts2t) _ rv re rs h hnil
            obtain ⟨nls, hd1, -⟩ := skip_newlines_decomp u
            obtain ⟨nls2, hd2, -⟩ := skip_newlines_decomp ts2t
            refine ⟨t :: (nls ++ ct :: (nls2 ++ p4)), ?_⟩
            simp only [List.append_assoc, List.cons_append]
            rw [hd1, hts2, hd2, hp4]
          · simp only [Option.some.injEq, Prod.mk.injEq] at h
            obtain ⟨hv, he, hs⟩ := h
            obtain ⟨nls, hd1, -⟩ := skip_newlines_decomp u
            refine ⟨t :: nls, ?_⟩
            simp only [List.cons_append]
            rw [hd1, hs]

theorem expect_cons_pos {t : Token} {k : TokenType} (h : t.type = k) (X : List Token)
    (m : String) : expect (t :: X) k m = (t, [], X) := by
  simp [expect, checkTok, curTok, h]

theorem checkTok_congr_type {rest rest2 : List Token}
    (h : (curTok rest).type = (curTok rest2).type) (k : TokenType) :
    checkTok rest k = checkTok rest2 k := by
  simp [checkTok, h]

/-- An error-free parse_ref_type run, restarted on the same consumed
tokens followed by any other suffix, yields the same node. -/
theorem parse_ref_sr {ts pre rest : List Token}
    (he : (parse_ref_type ts).2.1 = []) (hrest : (parse_ref_type ts).2.2 = rest)
    (hpre : ts = pre ++ rest) (rest2 : List Token) :
    parse_ref_type (pre ++ rest2) = ((parse_ref_type ts).1, [], rest2) := by
  have he' := he
  simp only [parse_ref_type, List.append_eq_nil] at he'
  obtain ⟨⟨⟨h1, h2⟩, h3⟩, h4⟩ := he'
  have hc1 := expect_errs_nil h1
  obtain ⟨t1, u1, hts1, hty1⟩ := checkTok_cons_of hc1 (by decide)
  subst hts1
  rw [expect_pos _ hc1] at h2 h3 h4
  simp only [List.tail_cons] at h2 h3 h4
  have hc2 := expect_errs_nil h2
  obtain ⟨t2, u2, hts2, hty2⟩ := checkTok_cons_of hc2 (by decide)
  subst hts2
  rw [expect_pos _ hc2] at h3 h4
  simp only [List.tail_cons] at h3 h4
  have hc3 := expect_errs_nil h3
  obtain ⟨t3, u3, hts3, hty3⟩ := checkTok_cons_of hc3 (by decide)
  subst hts3
  rw [expect_pos _ hc3] at h4
  simp only [List.tail_cons] at h4
  have hc4 := expect_errs_nil h4
  obtain ⟨t4, u4, hts4, hty4⟩ := checkTok_cons_of hc4 (by decide)
  subst hts4
  have hrest' : u4 = rest := by
    rw [parse_ref_type] at hrest
    rw [expect_pos _ hc1] at hrest
    simp only [List.tail_cons] at hrest
    rw [expect_pos _ hc2] at hrest
    simp only [List.tail_cons] at hrest
    rw [expect_pos _ hc3] at hrest
    simp only [List.tail_cons] at hrest
    rw [expect_pos _ hc4] at hrest
    simpa using hrest
  have hx : pre ++ rest = [t1, t2, t3, t4] ++ rest := by
    rw [← hpre, hrest']
    simp
  have hpe : pre = [t1, t2, t3, t4] := append_cancel_right hx
  subst hpe
  have hfirst : (parse_ref_type (t1 :: t2 :: t3 :: t4 :: u4)).1 = .refT t1.line t1.col := by
    rw [parse_ref_type]
    rw [expect_pos _ hc1]
    simp [curTok]
  rw [hfirst]
  simp only [List.cons_append, List.nil_append]
  rw [parse_ref_type]
  rw [expect_cons_pos hty1]
  simp only
  rw [expect_cons_pos hty2]
  simp only
  rw [expect_cons_pos hty3]
  simp only
  rw [expect_cons_pos hty4]
  simp [curTok]

/-- The primitive-type test looks only at the head token. -/
theorem is_primitive_cons (t : Token) (X Y : List Token) :
    is_primitive_type (t :: X) = is_primitive_type (t :: Y) := rfl

theorem curTok_cons (t : Token) (X : List Token) : curTok (t :: X) = t := rfl

/-- An error-free parse_primitive_type run, restarted on the same
consumed token followed by any other suffix, yields the same node. -/
theorem parse_prim_sr {ts pre rest : List Token}
    (he : (parse_primitive_type ts).2.1 = []) (hrest : (parse_primitive_type ts).2.2 = rest)
    (hpre : ts = pre ++ rest) (rest2 : List Token) :
    parse_primitive_type (pre ++ rest2) = ((parse_primitive_type ts).1, [], rest2) := by
  cases ts with
  | nil =>
    rw [parse_primitive_type, if_neg (by decide)] at he
    simp at he
  | cons t u =>
    by_cases hp : is_primitive_type (t :: u) = true
    · have h1 : parse_primitive_type (t :: u) =
          (some (.prim (token_to_primitive_type t.type) t.line t.col), [], u) := by
        rw [parse_primitive_type, if_pos hp]
        simp [curTok]
      rw [h1] at hrest
      simp only at hrest
      have hx : pre ++ rest = [t] ++ rest := by
        rw [← hpre, hrest]
        simp
      have hpe : pre = [t] := append_cancel_right hx
      subst hpe
      rw [h1]
      simp only [List.cons_append, List.nil_append]
      rw [parse_primitive_type, if_pos (show is_primitive_type (t :: rest2) = true from hp)]
      simp [curTok]
    · rw [parse_primitive_type, if_neg hp] at he
      simp at he

set_option maxHeartbeats 1600000 in
/-- Suffix replacement: an error-free run of a parse function reads only
the tokens it consumes (plus, for the body loops and parse_alternative,
the stated head probes of the remainder), so replacing the unconsumed
remainder, at equal or larger fuel, reruns it to the same value over the
new remainder. -/
theorem parse_sr (fuel : Nat) :
    (∀ g ts pre rest rest2 rv, fuel ≤ g →
      parse_type_expr fuel ts = some (rv, [], rest) → ts = pre ++ rest →
      parse_type_expr g (pre ++ rest2) = some (rv, [], rest2)) ∧
    (∀ g ts pre rest rest2 rv, fuel ≤ g →
      parse_struct_type fuel ts = some (rv, [], rest) → ts = pre ++ rest →
      parse_struct_type g (pre ++ rest2) = some (rv, [], rest2)) ∧
    (∀ g ts pre rest rest2 rv, fuel ≤ g →
      parse_variant_type fuel ts = some (rv, [], rest) → ts = pre ++ rest →
      parse_variant_type g (pre ++ rest2) = some (rv, [], rest2)) ∧
    (∀ g ts pre rest rest2 rv, fuel ≤ g →
      parse_enum_type fuel ts = some (rv, [], rest) → ts = pre ++ rest →
      parse_enum_type g (pre ++ rest2) = some (rv, [], rest2)) ∧
    (∀ g ts pre rest rest2 rv, fuel ≤ g →
      parse_container_type fuel ts = some (rv, [], rest) → ts = pre ++ rest →
      parse_container_type g (pre ++ rest2) = some (rv, [], rest2)) ∧
    (∀ g ts pre rest rest2 rv, fuel ≤ g →
      parse_field fuel ts = some (rv, [], rest) → ts = pre ++ rest →
      parse_field g (pre ++ rest2) = some (rv, [], rest2)) ∧
    (∀ g ts pre rest rest2 rv, fuel ≤ g →
      parse_alternative fuel ts = some (rv, [], rest) → ts = pre ++ rest →
      checkTok rest TokenType.COLON = checkTok rest2 TokenType.COLON →
      parse_alternative g (pre ++ rest2) = some (rv, [], rest2)) ∧
    (∀ g ts pre rest rest2 acc rv, fuel ≤ g →
      parse_struct_loop fuel ts acc = some (rv, [], rest) → ts = pre ++ rest →
      (curTok rest).type = (curTok rest2).type →
      parse_struct_loop g (pre ++ rest2) acc = some (rv, [], rest2)) ∧
    (∀ g ts pre rest rest2 acc rv, fuel ≤ g →
      parse_variant_loop fuel ts acc = some (rv, [], rest) → ts = pre ++ rest →
      (curTok rest).type = (curTok rest2).type →
      parse_variant_loop g (pre ++ rest2) acc = some (rv, [], rest2)) ∧
    (∀ g ts pre rest rest2 acc rv, fuel ≤ g →
      parse_enum_loop fuel ts acc = some (rv, [], rest) → ts = pre ++ rest →
      (curTok rest).type = (curTok rest2).type →
      parse_enum_loop g (pre ++ rest2) acc = some (rv, [], rest2)) := by
  induction fuel with
  | zero =>
    refine ⟨?_, ?_, ?_, ?_, ?_, ?_, ?_, ?_, ?_, ?_⟩ <;>
      (intro g ts; intros;
       simp_all [parse_type_expr, parse_struct_type, parse_variant_type,
         parse_enum_type, parse_container_type, parse_field, parse_alternative,
         parse_struct_loop, parse_variant_loop, parse_enum_loop])
  | succ f ih =>
    obtain ⟨ste, sst, svt, sen, sco, sfi, sal, ssl, svl, sel⟩ := ih
    obtain ⟨cte, cst, cvt, cen, cco, cfi, cal, csl, cvl, cel⟩ := parse_consumes f
    refine ⟨?_, ?_, ?_, ?_, ?_, ?_, ?_, ?_, ?_, ?_⟩
    · intro g ts pre rest rest2 rv hg h hpre
      cases g with
      | zero => exact absurd hg (by omega)
      | succ g' =>
      have hg' : f ≤ g' := by omega
      obtain ⟨p0, hp0, hts0⟩ := (parse_consumes (f+1)).1 ts rv [] rest h rfl
      have hp0e : p0 = pre := append_cancel_right (hts0.symm.trans hpre)
      rw [hp0e] at hp0
      cases hpc : pre with
      | nil => rw [hpc] at hp0; exact absurd rfl hp0
      | cons t pp =>
      subst hpc
      rw [hpre] at h
      simp only [List.cons_append] at h ⊢
      simp only [parse_type_expr] at h
      rw [parse_type_expr]
      split at h
      · rename_i hstr
        have hty : t.type = TokenType.STRUCT := by simpa [checkTok_cons] using hstr
        rw [if_pos (show checkTok (t :: (pp ++ rest2)) TokenType.STRUCT = true by
              simp [checkTok_cons, hty])]
        cases hm : parse_struct_type f (t :: (pp ++ rest)) with
        | none => rw [hm] at h; simp at h
        | some r =>
          obtain ⟨r1, r2, r3⟩ := r
          rw [hm] at h
          simp only [Option.some.injEq, Prod.mk.injEq, eq_self_iff_true, true_and, and_true] at h
          obtain ⟨hv, he, hs⟩ := h
          rw [he, hs] at hm
          have hres := sst g' (t :: (pp ++ rest)) (t :: pp) rest rest2 r1 hg' hm (by simp)
          simp only [List.cons_append] at hres
          rw [hres]
          simp [← hv]
      · rename_i hstr
        have hty1 : ¬ t.type = TokenType.STRUCT := by simpa [checkTok_cons] using hstr
        rw [if_neg (show ¬ checkTok (t :: (pp ++ rest2)) TokenType.STRUCT = true by
              simp [checkTok_cons, hty1])]
        split at h
        · rename_i hvar
          have hty : t.type = TokenType.VARIANT := by simpa [checkTok_cons] using hvar
          rw [if_pos (show checkTok (t :: (pp ++ rest2)) TokenType.VARIANT = true by
                simp [checkTok_cons, hty])]
          cases hm : parse_variant_type f (t :: (pp ++ rest)) with
          | none => rw [hm] at h; simp at h
          | some r =>
            obtain ⟨r1, r2, r3⟩ := r
            rw [hm] at h
            simp only [Option.some.injEq, Prod.mk.injEq, eq_self_iff_true, true_and, and_true] at h
            obtain ⟨hv, he, hs⟩ := h
            rw [he, hs] at hm
            have hres := svt g' (t :: (pp ++ rest)) (t :: pp) rest rest2 r1 hg' hm (by simp)
            simp only [List.cons_append] at hres
            rw [hres]
            simp [← hv]
        · rename_i hvar
          have hty2 : ¬ t.type = TokenType.VARIANT := by simpa [checkTok_cons] using hvar
          rw [if_neg (show ¬ checkTok (t :: (pp ++ rest2)) TokenType.VARIANT = true by
                simp [checkTok_cons, hty2])]
          split at h
          · rename_i henu
            have hty : t.type = TokenType.ENUM := by simpa [checkTok_cons] using henu
            rw [if_pos (show checkTok (t :: (pp ++ rest2)) TokenType.ENUM = true by
                  simp [checkTok_cons, hty])]
            cases hm : parse_enum_type f (t :: (pp ++ rest)) with
            | none => rw [hm] at h; simp at h
            | some r =>
              obtain ⟨r1, r2, r3⟩ := r
              rw [hm] at h
              simp only [Option.some.injEq, Prod.mk.injEq, eq_self_iff_true, true_and, and_true] at h
              obtain ⟨hv, he, hs⟩ := h
              rw [he, hs] at hm
              have hres := sen g' (t :: (pp ++ rest)) (t :: pp) rest rest2 r1 hg' hm (by simp)
              simp only [List.cons_append] at hres
              rw [hres]
              simp [← hv]
          · rename_i henu
            have hty3 : ¬ t.type = TokenType.ENUM := by simpa [checkTok_cons] using henu
            rw [if_neg (show ¬ checkTok (t :: (pp ++ rest2)) TokenType.ENUM = true by
                  simp [checkTok_cons, hty3])]
            split at h
            · rename_i hcont
              rw [if_pos (show (checkTok (t :: (pp ++ rest2)) TokenType.ARRAY ||
                      checkTok (t :: (pp ++ rest2)) TokenType.MAP ||
                      checkTok (t :: (pp ++ rest2)) TokenType.OPTIONAL) = true by
                    simpa [checkTok_cons] using hcont)]
              have hres := sco g' (t :: (pp ++ rest)) (t :: pp) rest rest2 rv hg' h (by simp)
              simpa using hres
            · rename_i hcont
              rw [if_neg (show ¬ (checkTok (t :: (pp ++ rest2)) TokenType.ARRAY ||
                      checkTok (t :: (pp ++ rest2)) TokenType.MAP ||
                      checkTok (t :: (pp ++ rest2)) TokenType.OPTIONAL) = true by
                    simpa [checkTok_cons] using hcont)]
              split at h
              · rename_i href
                have hty : t.type = TokenType.REF := by simpa [checkTok_cons] using href
                rw [if_pos (show checkTok (t :: (pp ++ rest2)) TokenType.REF = true by
                      simp [checkTok_cons, hty])]
                simp only [Option.some.injEq, Prod.mk.injEq, eq_self_iff_true, true_and, and_true] at h
                obtain ⟨hv, he, hs⟩ := h
                have hr := @parse_ref_sr (t :: (pp ++ rest)) (t :: pp) rest he hs (by simp) rest2
                simp only [List.cons_append] at hr
                rw [hr]
                simp [← hv]
              · rename_i href
                have hty4 : ¬ t.type = TokenType.REF := by simpa [checkTok_cons] using href
                rw [if_neg (show ¬ checkTok (t :: (pp ++ rest2)) TokenType.REF = true by
                      simp [checkTok_cons, hty4])]
                split at h
                · rename_i hprim
                  rw [if_pos (show is_primitive_type (t :: (pp ++ rest2)) = true from hprim)]
                  simp only [Option.some.injEq] at h
                  have hr := @parse_prim_sr (t :: (pp ++ rest)) (t :: pp) rest
                    (by rw [h]) (by rw [h]) (by simp) rest2
                  simp only [List.cons_append] at hr
                  rw [hr, h]
                · rename_i hprim
                  rw [if_neg (show ¬ is_primitive_type (t :: (pp ++ rest2)) = true from hprim)]
                  split at h
                  · rename_i hident
                    have hty : t.type = TokenType.IDENTIFIER := by simpa [checkTok_cons] using hident
                    rw [if_pos (show checkTok (t :: (pp ++ rest2)) TokenType.IDENTIFIER = true by
                          simp [checkTok_cons, hty])]
                    simp only [Option.some.injEq, Prod.mk.injEq, List.tail_cons] at h
                    obtain ⟨hv, -, hs⟩ := h
                    have hpp : pp = [] := append_eq_self_nil hs
                    subst hpp
                    simp only [curTok_cons, List.tail_cons, List.nil_append] at hv ⊢
                    rw [hv]
                  · simp only [Option.some.injEq, Prod.mk.injEq, eq_self_iff_true, true_and, and_true] at h
                    obtain ⟨-, he, -⟩ := h
                    simp at he
    · intro g ts pre rest rest2 rv hg h hpre
      cases g with
      | zero => exact absurd hg (by omega)
      | succ g' =>
      have hg' : f ≤ g' := by omega
      simp only [parse_struct_type] at h
      split at h
      · simp at h
      · rename_i b heq
        obtain ⟨b1, b2, b3⟩ := b
        simp only [Option.some.injEq, Prod.mk.injEq, eq_self_iff_true, true_and, and_true] at h
        obtain ⟨hv, he, hs⟩ := h
        simp only [List.append_eq_nil] at he
        obtain ⟨⟨⟨h1, h2⟩, h3⟩, h4⟩ := he
        have hc1 := expect_errs_nil h1
        obtain ⟨t1, u1, hts1, hty1⟩ := checkTok_cons_of hc1 (by decide)
        subst hts1
        rw [expect_pos _ hc1] at h2 heq
        simp only [List.tail_cons] at h2 heq
        have hc2 := expect_errs_nil h2
        obtain ⟨t2, u2, hts2, hty2⟩ := checkTok_cons_of hc2 (by decide)
        subst hts2
        rw [expect_pos _ hc2] at heq
        simp only [List.tail_cons] at heq
        have hc3 := expect_errs_nil h4
        obtain ⟨rb, u3, hb2, htyrb⟩ := checkTok_cons_of hc3 (by decide)
        rw [expect_pos _ hc3, hb2] at hs
        simp only [List.tail_cons] at hs
        subst h3
        rw [hb2, hs] at heq
        obtain ⟨p3, hp3⟩ := csl (skip_newlines u2) [] b1 [] (rb :: rest) heq rfl
        obtain ⟨nls, hdec, hnls⟩ := skip_newlines_decomp u2
        have hpe : pre = t1 :: t2 :: (nls ++ p3 ++ [rb]) := by
          apply append_cancel_right (s := rest)
          rw [← hpre, hdec, hp3]
          simp
        subst hpe
        simp only [List.cons_append, List.append_assoc, List.singleton_append, List.nil_append]
        rw [parse_struct_type]
        rw [expect_cons_pos hty1]
        dsimp only
        rw [expect_cons_pos hty2]
        dsimp only
        rw [skip_newlines_append_nl hnls]
        have hskip : skip_newlines (p3 ++ (rb :: rest2)) = p3 ++ (rb :: rest2) := by
          cases p3 with
          | nil =>
            simp only [List.nil_append]
            exact skip_newlines_of_curTok (by simp [curTok_cons, htyrb])
          | cons q qs =>
            have hq := skip_newlines_cons_head
              (show skip_newlines u2 = q :: (qs ++ (rb :: rest)) by rw [hp3]; simp)
            exact skip_newlines_of_curTok (by simpa [curTok_cons] using hq)
        rw [hskip]
        have hloop := ssl g' (skip_newlines u2) p3 (rb :: rest) (rb :: rest2) [] b1 hg' heq hp3 rfl
        rw [hloop]
        dsimp only
        rw [expect_cons_pos htyrb]
        simp only [curTok_cons] at hv
        simp [curTok_cons, ← hv]
    · intro g ts pre rest rest2 rv hg h hpre
      cases g with
      | zero => exact absurd hg (by omega)
      | succ g' =>
      have hg' : f ≤ g' := by omega
      simp only [parse_variant_type] at h
      split at h
      · simp at h
      · rename_i b heq
        obtain ⟨b1, b2, b3⟩ := b
        simp only [Option.some.injEq, Prod.mk.injEq, eq_self_iff_true, true_and, and_true] at h
        obtain ⟨hv, he, hs⟩ := h
        simp only [List.append_eq_nil] at he
        obtain ⟨⟨⟨h1, h2⟩, h3⟩, h4⟩ := he
        have hc1 := expect_errs_nil h1
        obtain ⟨t1, u1, hts1, hty1⟩ := checkTok_cons_of hc1 (by decide)
        subst hts1
        rw [expect_pos _ hc1] at h2 heq
        simp only [List.tail_cons] at h2 heq
        have hc2 := expect_errs_nil h2
        obtain ⟨t2, u2, hts2, hty2⟩ := checkTok_cons_of hc2 (by decide)
        subst hts2
        rw [expect_pos _ hc2] at heq
        simp only [List.tail_cons] at heq
        have hc3 := expect_errs_nil h4
        obtain ⟨rb, u3, hb2, htyrb⟩ := checkTok_cons_of hc3 (by decide)
        rw [expect_pos _ hc3, hb2] at hs
        simp only [List.tail_cons] at hs
        subst h3
        rw [hb2, hs] at heq
        obtain ⟨p3, hp3⟩ := cvl (skip_newlines u2) [] b1 [] (rb :: rest) heq rfl
        obtain ⟨nls, hdec, hnls⟩ := skip_newlines_decomp u2
        have hpe : pre = t1 :: t2 :: (nls ++ p3 ++ [rb]) := by
          apply append_cancel_right (s := rest)
          rw [← hpre, hdec, hp3]
          simp
        subst hpe
        simp only [List.cons_append, List.append_assoc, List.singleton_append, List.nil_append]
        rw [parse_variant_type]
        rw [expect_cons_pos hty1]
        dsimp only
        rw [expect_cons_pos hty2]
        dsimp only
        rw [skip_newlines_append_nl hnls]
        have hskip : skip_newlines (p3 ++ (rb :: rest2)) = p3 ++ (rb :: rest2) := by
          cases p3 with
          | nil =>
            simp only [List.nil_append]
            exact skip_newlines_of_curTok (by simp [curTok_cons, htyrb])
          | cons q qs =>
            have hq := skip_newlines_cons_head
              (show skip_newlines u2 = q :: (qs ++ (rb :: rest)) by rw [hp3]; simp)
            exact skip_newlines_of_curTok (by simpa [curTok_cons] using hq)
        rw [hskip]
        have hloop := svl g' (skip_newlines u2) p3 (rb :: rest) (rb :: rest2) [] b1 hg' heq hp3 rfl
        rw [hloop]
        dsimp only
        rw [expect_cons_pos htyrb]
        simp only [curTok_cons] at hv
        simp [curTok_cons, ← hv]
    · intro g ts pre rest rest2 rv hg h hpre
      cases g with
      | zero => exact absurd hg (by omega)
      | succ g' =>
      have hg' : f ≤ g' := by omega
      simp only [parse_enum_type] at h
      split at h
      · simp at h
      · rename_i b heq
        obtain ⟨b1, b2, b3⟩ := b
        simp only [Option.some.injEq, Prod.mk.injEq, eq_self_iff_true, true_and, and_true] at h
        obtain ⟨hv, he, hs⟩ := h
        simp only [List.append_eq_nil] at he
        obtain ⟨⟨⟨h1, h2⟩, h3⟩, h4⟩ := he
        have hc1 := expect_errs_nil h1
        obtain ⟨t1, u1, hts1, hty1⟩ := checkTok_cons_of hc1 (by decide)
        subst hts1
        rw [expect_pos _ hc1] at h2 heq
        simp only [List.tail_cons] at h2 heq
        have hc2 := expect_errs_nil h2
        obtain ⟨t2, u2, hts2, hty2⟩ := checkTok_cons_of hc2 (by decide)
        subst hts2
        rw [expect_pos _ hc2] at heq
        simp only [List.tail_cons] at heq
        have hc3 := expect_errs_nil h4
        obtain ⟨rb, u3, hb2, htyrb⟩ := checkTok_cons_of hc3 (by decide)
        rw [expect_pos _ hc3, hb2] at hs
        simp only [List.tail_cons] at hs
        subst h3
        rw [hb2, hs] at heq
        obtain ⟨p3, hp3⟩ := cel (skip_newlines u2) [] b1 [] (rb :: rest) heq rfl
        obtain ⟨nls, hdec, hnls⟩ := skip_newlines_decomp u2
        have hpe : pre = t1 :: t2 :: (nls ++ p3 ++ [rb]) := by
          apply append_cancel_right (s := rest)
          rw [← hpre, hdec, hp3]
          simp
        subst hpe
        simp only [List.cons_append, List.append_assoc, List.singleton_append, List.nil_append]
        rw [parse_enum_type]
        rw [expect_cons_pos hty1]
        dsimp only
        rw [expect_cons_pos hty2]
        dsimp only
        rw [skip_newlines_append_nl hnls]
        have hskip : skip_newlines (p3 ++ (rb :: rest2)) = p3 ++ (rb :: rest2) := by
          cases p3 with
          | nil =>
            simp only [List.nil_append]
            exact skip_newlines_of_curTok (by simp [curTok_cons, htyrb])
          | cons q qs =>
            have hq := skip_newlines_cons_head
              (show skip_newlines u2 = q :: (qs ++ (rb :: rest)) by rw [hp3]; simp)
            exact skip_newlines_of_curTok (by simpa [curTok_cons] using hq)
        rw [hskip]
        have hloop := sel g' (skip_newlines u2) p3 (rb :: rest) (rb :: rest2) [] b1 hg' heq hp3 rfl
        rw [hloop]
        dsimp only
        rw [expect_cons_pos htyrb]
        simp only [curTok_cons] at hv
        simp [curTok_cons, ← hv]
    · intro g ts pre rest rest2 rv hg h hpre
      cases g with
      | zero => exact absurd hg (by omega)
      | succ g' =>
      have hg' : f ≤ g' := by omega
      cases ts with
      | nil =>
        rw [parse_container_type, if_neg (by decide)] at h
        simp at h
      | cons t u =>
        simp only [parse_container_type, List.tail_cons, curTok_cons] at h
        split at h
        · rename_i hent
          split at h
          · rename_i harr
            rw [if_neg (by decide)] at h
            split at h
            · simp at h
            · rename_i el heqe
              obtain ⟨e1, e2, e3⟩ := el
              simp only [Option.some.injEq, Prod.mk.injEq, eq_self_iff_true, true_and, and_true] at h
              obtain ⟨hv, he, hs⟩ := h
              simp only [List.append_eq_nil] at he
              obtain ⟨⟨hA, hB⟩, hC⟩ := he
              have hcl := expect_errs_nil hA
              obtain ⟨l, u2, hu, htyl⟩ := checkTok_cons_of hcl (by decide)
              subst hu
              rw [expect_pos _ hcl] at heqe
              simp only [List.tail_cons] at heqe
              subst hB
              have hcr := expect_errs_nil hC
              obtain ⟨ra, u4, he2, htyr⟩ := checkTok_cons_of hcr (by decide)
              rw [expect_pos _ hcr, he2] at hs
              simp only [List.tail_cons] at hs
              rw [he2, hs] at heqe
              obtain ⟨pe, hpe_ne, hupe⟩ := cte u2 e1 [] (ra :: rest) heqe rfl
              have hpe : pre = t :: l :: (pe ++ [ra]) := by
                apply append_cancel_right (s := rest)
                rw [← hpre, hupe]
                simp
              subst hpe
              simp only [List.cons_append, List.append_assoc, List.singleton_append, List.nil_append]
              rw [parse_container_type]
              simp only [checkTok_cons] at hent harr ⊢
              rw [if_pos hent]
              rw [if_pos harr]
              rw [if_neg (by decide)]
              simp only [List.tail_cons]
              rw [expect_cons_pos htyl]
              dsimp only
              have hres := ste g' u2 pe (ra :: rest) (ra :: rest2) e1 hg' heqe hupe
              rw [hres]
              dsimp only
              rw [expect_cons_pos htyr]
              simp [curTok_cons, ← hv]
          · rename_i harr2
            split at h
            · rename_i hmap
              rw [if_pos rfl] at h
              split at h
              · simp at h
              · rename_i kq heqk
                obtain ⟨k1, k2, kq3⟩ := kq
                split at h
                · simp at h
                · rename_i vq heqv
                  obtain ⟨v1, v2, vq3⟩ := vq
                  simp only [Option.some.injEq, Prod.mk.injEq, eq_self_iff_true, true_and, and_true] at h
                  obtain ⟨hv, he, hs⟩ := h
                  simp only [List.append_eq_nil] at he
                  obtain ⟨⟨⟨⟨hA, hB⟩, hC⟩, hD⟩, hE⟩ := he
                  have hcl := expect_errs_nil hA
                  obtain ⟨l, u2, hu, htyl⟩ := checkTok_cons_of hcl (by decide)
                  subst hu
                  rw [expect_pos _ hcl] at heqk
                  simp only [List.tail_cons] at heqk
                  subst hB
                  have hcc := expect_errs_nil hC
                  obtain ⟨c2, u3, hk2, htyc2⟩ := checkTok_cons_of hcc (by decide)
                  rw [expect_pos _ hcc, hk2] at heqv
                  simp only [List.tail_cons] at heqv
                  subst hD
                  have hcr := expect_errs_nil hE
                  obtain ⟨ra, u4, hv2, htyr⟩ := checkTok_cons_of hcr (by decide)
                  rw [expect_pos _ hcr, hv2] at hs
                  simp only [List.tail_cons] at hs
                  rw [hv2, hs] at heqv
                  obtain ⟨pv, hpv_ne, hupv⟩ := cte u3 v1 [] (ra :: rest) heqv rfl
                  rw [hk2, hupv] at heqk
                  obtain ⟨pk, hpk_ne, hupk⟩ := cte u2 k1 [] (c2 :: (pv ++ (ra :: rest))) heqk rfl
                  have hpe : pre = t :: l :: (pk ++ c2 :: (pv ++ [ra])) := by
                    apply append_cancel_right (s := rest)
                    rw [← hpre, hupk]
                    simp
                  subst hpe
                  simp only [List.cons_append, List.append_assoc, List.singleton_append, List.nil_append]
                  rw [parse_container_type]
                  simp only [checkTok_cons] at hent harr2 hmap ⊢
                  rw [if_pos hent]
                  rw [if_neg harr2, if_pos hmap]
                  rw [if_pos rfl]
                  simp only [List.tail_cons]
                  rw [expect_cons_pos htyl]
                  dsimp only
                  have hkres := ste g' u2 pk (c2 :: (pv ++ (ra :: rest))) (c2 :: (pv ++ (ra :: rest2))) k1 hg' heqk hupk
                  rw [hkres]
                  dsimp only
                  rw [expect_cons_pos htyc2]
                  dsimp only
                  have hvres := ste g' u3 pv (ra :: rest) (ra :: rest2) v1 hg' heqv hupv
                  rw [hvres]
                  dsimp only
                  rw [expect_cons_pos htyr]
                  simp [curTok_cons, ← hv]
            · rename_i hmap2
              rw [if_neg (by decide)] at h
              split at h
              · simp at h
              · rename_i el heqe
                obtain ⟨e1, e2, e3⟩ := el
                simp only [Option.some.injEq, Prod.mk.injEq, eq_self_iff_true, true_and, and_true] at h
                obtain ⟨hv, he, hs⟩ := h
                simp only [List.append_eq_nil] at he
                obtain ⟨⟨hA, hB⟩, hC⟩ := he
                have hcl := expect_errs_nil hA
                obtain ⟨l, u2, hu, htyl⟩ := checkTok_cons_of hcl (by decide)
                subst hu
                rw [expect_pos _ hcl] at heqe
                simp only [List.tail_cons] at heqe
                subst hB
                have hcr := expect_errs_nil hC
                obtain ⟨ra, u4, he2, htyr⟩ := checkTok_cons_of hcr (by decide)
                rw [expect_pos _ hcr, he2] at hs
                simp only [List.tail_cons] at hs
                rw [he2, hs] at heqe
                obtain ⟨pe, hpe_ne, hupe⟩ := cte u2 e1 [] (ra :: rest) heqe rfl
                have hpe : pre = t :: l :: (pe ++ [ra]) := by
                  apply append_cancel_right (s := rest)
                  rw [← hpre, hupe]
                  simp
                subst hpe
                simp only [List.cons_append, List.append_assoc, List.singleton_append, List.nil_append]
                rw [parse_container_type]
                simp only [checkTok_cons] at hent harr2 hmap2 ⊢
                rw [if_pos hent]
                rw [if_neg harr2, if_neg hmap2]
                rw [if_neg (by decide)]
                simp only [List.tail_cons]
                rw [expect_cons_pos htyl]
                dsimp only
                have hres := ste g' u2 pe (ra :: rest) (ra :: rest2) e1 hg' heqe hupe
                rw [hres]
                dsimp only
                rw [expect_cons_pos htyr]
                simp [curTok_cons, ← hv]
        · simp only [Option.some.injEq, Prod.mk.injEq, eq_self_iff_true, true_and, and_true] at h
          obtain ⟨-, he, -⟩ := h
          simp at he
    · intro g ts pre rest rest2 rv hg h hpre
      cases g with
      | zero => exact absurd hg (by omega)
      | succ g' =>
      have hg' : f ≤ g' := by omega
      simp only [parse_field] at h
      split at h
      · simp only [Option.some.injEq, Prod.mk.injEq, eq_self_iff_true, true_and, and_true] at h
        obtain ⟨-, he, -⟩ := h
        simp at he
      · rename_i hid0
        have hident : checkTok ts TokenType.IDENTIFIER = true := by
          revert hid0
          cases checkTok ts TokenType.IDENTIFIER <;> simp
        obtain ⟨t, u, hts, hty⟩ := checkTok_cons_of hident (by decide)
        subst hts
        simp only [List.tail_cons, curTok_cons] at h
        split at h
        · simp at h
        · rename_i tq heqt
          obtain ⟨tq1, tq2, tq3⟩ := tq
          have hcomp : (expect u TokenType.COLON "Expected ':' after field name").2.1 ++ tq2 = [] ∧
              tq3 = rest ∧
              (match tq1 with
                | none => (none : Option Field)
                | some te => some (.mk t.lexeme te t.line t.col)) = rv := by
            rcases tq1 with - | te <;>
              (simp only [Option.some.injEq, Prod.mk.injEq, eq_self_iff_true, true_and, and_true] at h
               exact ⟨h.2.1, h.2.2, h.1⟩)
          obtain ⟨he, hs, hv⟩ := hcomp
          simp only [List.append_eq_nil] at he
          obtain ⟨h1, h2⟩ := he
          have hcc := expect_errs_nil h1
          obtain ⟨c, u2, hu, htyc⟩ := checkTok_cons_of hcc (by decide)
          subst hu
          rw [expect_pos _ hcc] at heqt
          simp only [List.tail_cons] at heqt
          subst h2
          rw [hs] at heqt
          obtain ⟨pt, hpt_ne, hupt⟩ := cte u2 tq1 [] rest heqt rfl
          have hpe : pre = t :: c :: pt := by
            apply append_cancel_right (s := rest)
            rw [← hpre, hupt]
            simp
          subst hpe
          simp only [List.cons_append]
          rw [parse_field]
          rw [if_neg (by simp [checkTok_cons, hty])]
          simp only [List.tail_cons, curTok_cons]
          rw [expect_cons_pos htyc]
          dsimp only
          have hres := ste g' u2 pt rest rest2 tq1 hg' heqt hupt
          rw [hres]
          rcases tq1 with - | te <;> simp_all
    · intro g ts pre rest rest2 rv hg h hpre hok
      cases g with
      | zero => exact absurd hg (by omega)
      | succ g' =>
      have hg' : f ≤ g' := by omega
      simp only [parse_alternative] at h
      split at h
      · simp only [Option.some.injEq, Prod.mk.injEq, eq_self_iff_true, true_and, and_true] at h
        obtain ⟨-, he, -⟩ := h
        simp at he
      · rename_i hid0
        have hident : checkTok ts TokenType.IDENTIFIER = true := by
          revert hid0
          cases checkTok ts TokenType.IDENTIFIER <;> simp
        obtain ⟨t, u, hts, hty⟩ := checkTok_cons_of hident (by decide)
        subst hts
        simp only [List.tail_cons, curTok_cons] at h
        split at h
        · rename_i hcol
          split at h
          · simp at h
          · rename_i tq heqt
            obtain ⟨tq1, tq2, tq3⟩ := tq
            simp only [Option.some.injEq, Prod.mk.injEq, eq_self_iff_true, true_and, and_true] at h
            obtain ⟨hv, he, hs⟩ := h
            obtain ⟨c, u2, hu, htyc⟩ := checkTok_cons_of hcol (by decide)
            subst hu
            simp only [List.tail_cons] at heqt
            subst he
            rw [hs] at heqt
            obtain ⟨pt, hpt_ne, hupt⟩ := cte u2 tq1 [] rest heqt rfl
            have hpe : pre = t :: c :: pt := by
              apply append_cancel_right (s := rest)
              rw [← hpre, hupt]
              simp
            subst hpe
            simp only [List.cons_append]
            rw [parse_alternative]
            rw [if_neg (by simp [checkTok_cons, hty])]
            simp only [List.tail_cons, curTok_cons]
            rw [if_pos (show checkTok (c :: (pt ++ rest2)) TokenType.COLON = true by
                  simp [checkTok_cons, htyc])]
            have hres := ste g' u2 pt rest rest2 tq1 hg' heqt hupt
            rw [hres]
            simp [← hv]
        · rename_i hncol
          simp only [Option.some.injEq, Prod.mk.injEq, eq_self_iff_true, true_and, and_true] at h
          obtain ⟨hv, hs⟩ := h
          have hpe : pre = [t] := by
            apply append_cancel_right (s := rest)
            rw [← hpre, hs]
            simp
          subst hpe
          simp only [List.cons_append, List.nil_append]
          rw [parse_alternative]
          rw [if_neg (by simp [checkTok_cons, hty])]
          simp only [List.tail_cons, curTok_cons]
          rw [if_neg (show ¬ checkTok rest2 TokenType.COLON = true by
                rw [← hok, ← hs]; exact hncol)]
          rw [hv]
    · intro g ts pre rest rest2 acc rv hg h hpre hok
      cases g with
      | zero => exact absurd hg (by omega)
      | succ g' =>
      have hg' : f ≤ g' := by omega
      simp only [parse_struct_loop] at h
      split at h
      · rename_i hexit
        simp only [Option.some.injEq, Prod.mk.injEq, eq_self_iff_true, true_and, and_true] at h
        obtain ⟨hv, hs⟩ := h
        have hpe : pre = [] := append_eq_self_nil (hpre.symm.trans hs)
        subst hpe
        simp only [List.nil_append]
        rw [parse_struct_loop]
        rw [if_pos (by rw [← checkTok_congr_type hok TokenType.RBRACE,
              ← checkTok_congr_type hok TokenType.END_OF_FILE, ← hs]; exact hexit)]
        rw [hv]
      · rename_i hexit
        split at h
        · simp at h
        · rename_i fd heqf
          obtain ⟨f1, f2, f3⟩ := fd
          split at h
          · rename_i hcomma
            split at h
            · simp at h
            · rename_i q heq2
              obtain ⟨q1, q2, q3⟩ := q
              simp only [Option.some.injEq, Prod.mk.injEq, eq_self_iff_true, true_and, and_true] at h
              obtain ⟨hv, he, hs⟩ := h
              simp only [List.append_eq_nil] at he
              obtain ⟨hf2, hq2⟩ := he
              subst hf2
              subst hq2
              rw [hs] at heq2
              obtain ⟨pf, hpf_ne, htsf⟩ := cfi ts f1 [] f3 heqf rfl
              obtain ⟨ct, ts2t, hts2, htyc⟩ := checkTok_cons_of hcomma (by decide)
              rw [hts2] at heq2
              simp only [List.tail_cons] at heq2
              obtain ⟨p4, hp4⟩ := csl (skip_newlines ts2t) _ q1 [] rest heq2 rfl
              obtain ⟨nls, hd1, hnls1⟩ := skip_newlines_decomp f3
              obtain ⟨nls2, hd2, hnls2⟩ := skip_newlines_decomp ts2t
              have hf3 : f3 = (nls ++ ct :: (nls2 ++ p4)) ++ rest := by
                rw [hd1, hts2, hd2, hp4]
                simp
              have hpe : pre = pf ++ (nls ++ ct :: (nls2 ++ p4)) := by
                apply append_cancel_right (s := rest)
                rw [← hpre, htsf, hf3]
                simp
              have hpre_ne : pre ≠ [] := by rw [hpe]; simp [hpf_ne]
              have hck : ∀ k, checkTok (pre ++ rest2) k = checkTok ts k := fun k => by
                rw [checkTok_append hpre_ne, hpre, checkTok_append hpre_ne]
              rw [parse_struct_loop]
              rw [if_neg (by rw [hck, hck]; exact hexit)]
              have hstream : pre ++ rest2 = pf ++ ((nls ++ ct :: (nls2 ++ p4)) ++ rest2) := by
                rw [hpe]
                simp
              rw [hstream]
              have hfield := sfi g' ts pf f3 ((nls ++ ct :: (nls2 ++ p4)) ++ rest2) f1 hg' heqf htsf
              rw [hfield]
              dsimp only
              have hsk1 : skip_newlines ((nls ++ ct :: (nls2 ++ p4)) ++ rest2) =
                  ct :: ((nls2 ++ p4) ++ rest2) := by
                have h1 : ((nls ++ ct :: (nls2 ++ p4)) ++ rest2 : List Token) =
                    nls ++ (ct :: ((nls2 ++ p4) ++ rest2)) := by simp
                rw [h1, skip_newlines_append_nl hnls1]
                exact skip_newlines_of_curTok (by simp [curTok_cons, htyc])
              rw [hsk1]
              rw [if_pos (show checkTok (ct :: ((nls2 ++ p4) ++ rest2)) TokenType.COMMA = true by
                    simp [checkTok_cons, htyc])]
              simp only [List.tail_cons]
              have hsk2 : skip_newlines ((nls2 ++ p4) ++ rest2) = p4 ++ rest2 := by
                have h1 : ((nls2 ++ p4) ++ rest2 : List Token) = nls2 ++ (p4 ++ rest2) := by simp
                rw [h1, skip_newlines_append_nl hnls2]
                cases p4 with
                | nil =>
                  simp only [List.nil_append] at hp4 ⊢
                  apply skip_newlines_of_curTok
                  rw [show (curTok rest2).type = (curTok rest).type from hok.symm, ← hp4]
                  exact skip_newlines_curTok_not_newline ts2t
                | cons p4h p4t =>
                  have hq := skip_newlines_cons_head
                    (show skip_newlines ts2t = p4h :: (p4t ++ rest) by rw [hp4]; simp)
                  exact skip_newlines_of_curTok (by simpa [curTok_cons] using hq)
              rw [hsk2]
              have hrec := ssl g' (skip_newlines ts2t) p4 rest rest2 _ q1 hg' heq2 hp4 hok
              rw [hrec]
              simp [hv]
          · rename_i hncomma
            simp only [Option.some.injEq, Prod.mk.injEq, eq_self_iff_true, true_and, and_true] at h
            obtain ⟨hv, he, hs⟩ := h
            subst he
            obtain ⟨pf, hpf_ne, htsf⟩ := cfi ts f1 [] f3 heqf rfl
            obtain ⟨nls, hd1, hnls1⟩ := skip_newlines_decomp f3
            rw [hs] at hd1
            have hpe : pre = pf ++ nls := by
              apply append_cancel_right (s := rest)
              rw [← hpre, htsf, hd1]
              simp
            have hpre_ne : pre ≠ [] := by rw [hpe]; simp [hpf_ne]
            have hck : ∀ k, checkTok (pre ++ rest2) k = checkTok ts k := fun k => by
              rw [checkTok_append hpre_ne, hpre, checkTok_append hpre_ne]
            rw [parse_struct_loop]
            rw [if_neg (by rw [hck, hck]; exact hexit)]
            have hstream : pre ++ rest2 = pf ++ (nls ++ rest2) := by
              rw [hpe]
              simp
            rw [hstream]
            have hfield := sfi g' ts pf f3 (nls ++ rest2) f1 hg' heqf htsf
            rw [hfield]
            dsimp only
            have hsk : skip_newlines (nls ++ rest2) = rest2 := by
              rw [skip_newlines_append_nl hnls1]
              apply skip_newlines_of_curTok
              rw [show (curTok rest2).type = (curTok rest).type from hok.symm, ← hs]
              exact skip_newlines_curTok_not_newline f3
            rw [hsk]
            rw [if_neg (show ¬ checkTok rest2 TokenType.COMMA = true by
                  rw [← checkTok_congr_type hok TokenType.COMMA, ← hs]; exact hncomma)]
            simp [hv]
    · intro g ts pre rest rest2 acc rv hg h hpre hok
      cases g with
      | zero => exact absurd hg (by omega)
      | succ g' =>
      have hg' : f ≤ g' := by omega
      simp only [parse_variant_loop] at h
      split at h
      · rename_i hexit
        simp only [Option.some.injEq, Prod.mk.injEq, eq_self_iff_true, true_and, and_true] at h
        obtain ⟨hv, hs⟩ := h
        have hpe : pre = [] := append_eq_self_nil (hpre.symm.trans hs)
        subst hpe
        simp only [List.nil_append]
        rw [parse_variant_loop]
        rw [if_pos (by rw [← checkTok_congr_type hok TokenType.RBRACE,
              ← checkTok_congr_type hok TokenType.END_OF_FILE, ← hs]; exact hexit)]
        rw [hv]
      · rename_i hexit
        split at h
        · simp at h
        · rename_i fd heqf
          obtain ⟨f1, f2, f3⟩ := fd
          split at h
          · rename_i hcomma
            split at h
            · simp at h
            · rename_i q heq2
              obtain ⟨q1, q2, q3⟩ := q
              simp only [Option.some.injEq, Prod.mk.injEq, eq_self_iff_true, true_and, and_true] at h
              obtain ⟨hv, he, hs⟩ := h
              simp only [List.append_eq_nil] at he
              obtain ⟨hf2, hq2⟩ := he
              subst hf2
              subst hq2
              rw [hs] at heq2
              obtain ⟨pf, hpf_ne, htsf⟩ := cal ts f1 [] f3 heqf rfl
              obtain ⟨ct, ts2t, hts2, htyc⟩ := checkTok_cons_of hcomma (by decide)
              rw [hts2] at heq2
              simp only [List.tail_cons] at heq2
              obtain ⟨p4, hp4⟩ := cvl (skip_newlines ts2t) _ q1 [] rest heq2 rfl
              obtain ⟨nls, hd1, hnls1⟩ := skip_newlines_decomp f3
              obtain ⟨nls2, hd2, hnls2⟩ := skip_newlines_decomp ts2t
              have hf3 : f3 = (nls ++ ct :: (nls2 ++ p4)) ++ rest := by
                rw [hd1, hts2, hd2, hp4]
                simp
              have hpe : pre = pf ++ (nls ++ ct :: (nls2 ++ p4)) := by
                apply append_cancel_right (s := rest)
                rw [← hpre, htsf, hf3]
                simp
              have hpre_ne : pre ≠ [] := by rw [hpe]; simp [hpf_ne]
              have hck : ∀ k, checkTok (pre ++ rest2) k = checkTok ts k := fun k => by
                rw [checkTok_append hpre_ne, hpre, checkTok_append hpre_ne]
              rw [parse_variant_loop]
              rw [if_neg (by rw [hck, hck]; exact hexit)]
              have hstream : pre ++ rest2 = pf ++ ((nls ++ ct :: (nls2 ++ p4)) ++ rest2) := by
                rw [hpe]
                simp
              rw [hstream]
              have hokc : checkTok f3 TokenType.COLON =
                  checkTok ((nls ++ ct :: (nls2 ++ p4)) ++ rest2) TokenType.COLON := by
                rw [hf3]
                exact checkTok_congr_type (curTok_type_append_congr hok _) _
              have hfield := sal g' ts pf f3 ((nls ++ ct :: (nls2 ++ p4)) ++ rest2) f1 hg' heqf htsf hokc
              rw [hfield]
              dsimp only
              have hsk1 : skip_newlines ((nls ++ ct :: (nls2 ++ p4)) ++ rest2) =
                  ct :: ((nls2 ++ p4) ++ rest2) := by
                have h1 : ((nls ++ ct :: (nls2 ++ p4)) ++ rest2 : List Token) =
                    nls ++ (ct :: ((nls2 ++ p4) ++ rest2)) := by simp
                rw [h1, skip_newlines_append_nl hnls1]
                exact skip_newlines_of_curTok (by simp [curTok_cons, htyc])
              rw [hsk1]
              rw [if_pos (show checkTok (ct :: ((nls2 ++ p4) ++ rest2)) TokenType.COMMA = true by
                    simp [checkTok_cons, htyc])]
              simp only [List.tail_cons]
              have hsk2 : skip_newlines ((nls2 ++ p4) ++ rest2) = p4 ++ rest2 := by
                have h1 : ((nls2 ++ p4) ++ rest2 : List Token) = nls2 ++ (p4 ++ rest2) := by simp
                rw [h1, skip_newlines_append_nl hnls2]
                cases p4 with
                | nil =>
                  simp only [List.nil_append] at hp4 ⊢
                  apply skip_newlines_of_curTok
                  rw [show (curTok rest2).type = (curTok rest).type from hok.symm, ← hp4]
                  exact skip_newlines_curTok_not_newline ts2t
                | cons p4h p4t =>
                  have hq := skip_newlines_cons_head
                    (show skip_newlines ts2t = p4h :: (p4t ++ rest) by rw [hp4]; simp)
                  exact skip_newlines_of_curTok (by simpa [curTok_cons] using hq)
              rw [hsk2]
              have hrec := svl g' (skip_newlines ts2t) p4 rest rest2 _ q1 hg' heq2 hp4 hok
              rw [hrec]
              simp [hv]
          · rename_i hncomma
            simp only [Option.some.injEq, Prod.mk.injEq, eq_self_iff_true, true_and, and_true] at h
            obtain ⟨hv, he, hs⟩ := h
            subst he
            obtain ⟨pf, hpf_ne, htsf⟩ := cal ts f1 [] f3 heqf rfl
            obtain ⟨nls, hd1, hnls1⟩ := skip_newlines_decomp f3
            rw [hs] at hd1
            have hpe : pre = pf ++ nls := by
              apply append_cancel_right (s := rest)
              rw [← hpre, htsf, hd1]
              simp
            have hpre_ne : pre ≠ [] := by rw [hpe]; simp [hpf_ne]
            have hck : ∀ k, checkTok (pre ++ rest2) k = checkTok ts k := fun k => by
              rw [checkTok_append hpre_ne, hpre, checkTok_append hpre_ne]
            rw [parse_variant_loop]
            rw [if_neg (by rw [hck, hck]; exact hexit)]
            have hstream : pre ++ rest2 = pf ++ (nls ++ rest2) := by
              rw [hpe]
              simp
            rw [hstream]
            have hokn : checkTok f3 TokenType.COLON = checkTok (nls ++ rest2) TokenType.COLON := by
              rw [hd1]
              exact checkTok_congr_type (curTok_type_append_congr hok _) _
            have hfield := sal g' ts pf f3 (nls ++ rest2) f1 hg' heqf htsf hokn
            rw [hfield]
            dsimp only
            have hsk : skip_newlines (nls ++ rest2) = rest2 := by
              rw [skip_newlines_append_nl hnls1]
              apply skip_newlines_of_curTok
              rw [show (curTok rest2).type = (curTok rest).type from hok.symm, ← hs]
              exact skip_newlines_curTok_not_newline f3
            rw [hsk]
            rw [if_neg (show ¬ checkTok rest2 TokenType.COMMA = true by
                  rw [← checkTok_congr_type hok TokenType.COMMA, ← hs]; exact hncomma)]
            simp [hv]
    · intro g ts pre rest rest2 acc rv hg h hpre hok
      cases g with
      | zero => exact absurd hg (by omega)
      | succ g' =>
      have hg' : f ≤ g' := by omega
      simp only [parse_enum_loop] at h
      split at h
      · rename_i hexit
        simp only [Option.some.injEq, Prod.mk.injEq, eq_self_iff_true, true_and, and_true] at h
        obtain ⟨hv, hs⟩ := h
        have hpe : pre = [] := append_eq_self_nil (hpre.symm.trans hs)
        subst hpe
        simp only [List.nil_append]
        rw [parse_enum_loop]
        rw [if_pos (by rw [← checkTok_congr_type hok TokenType.RBRACE,
              ← checkTok_congr_type hok TokenType.END_OF_FILE, ← hs]; exact hexit)]
        rw [hv]
      · rename_i hexit
        split at h
        · simp only [Option.some.injEq, Prod.mk.injEq, eq_self_iff_true, true_and, and_true] at h
          obtain ⟨-, he, -⟩ := h
          simp at he
        · rename_i hid0
          have hident : checkTok ts TokenType.IDENTIFIER = true := by
            revert hid0
            cases checkTok ts TokenType.IDENTIFIER <;> simp
          obtain ⟨t, u, hts, hty⟩ := checkTok_cons_of hident (by decide)
          subst hts
          simp only [List.tail_cons, curTok_cons] at h
          split at h
          · rename_i hcomma
            obtain ⟨ct, ts2t, hts2, htyc⟩ := checkTok_cons_of hcomma (by decide)
            rw [hts2] at h
            simp only [List.tail_cons] at h
            obtain ⟨p4, hp4⟩ := cel (skip_newlines ts2t) _ rv [] rest h rfl
            obtain ⟨nls, hd1, hnls1⟩ := skip_newlines_decomp u
            obtain ⟨nls2, hd2, hnls2⟩ := skip_newlines_decomp ts2t
            have hu2 : u = (nls ++ ct :: (nls2 ++ p4)) ++ rest := by
              rw [hd1, hts2, hd2, hp4]
              simp
            have hpe : pre = t :: (nls ++ ct :: (nls2 ++ p4)) := by
              apply append_cancel_right (s := rest)
              rw [← hpre, hu2]
              simp
            have hpre_ne : pre ≠ [] := by rw [hpe]; simp
            have hck : ∀ k, checkTok (pre ++ rest2) k = checkTok (t :: u) k := fun k => by
              rw [checkTok_append hpre_ne, hpre, checkTok_append hpre_ne]
            rw [parse_enum_loop]
            rw [if_neg (by rw [hck, hck]; exact hexit)]
            rw [if_neg (by rw [hck]; exact hid0)]
            have hcg : curTok (pre ++ rest2) = t := by
              rw [curTok_append hpre_ne, hpe, curTok_cons]
            have htl : (pre ++ rest2).tail = (nls ++ ct :: (nls2 ++ p4)) ++ rest2 := by
              rw [tail_append hpre_ne, hpe]
              simp
            rw [hcg, htl]
            have hsk1 : skip_newlines ((nls ++ ct :: (nls2 ++ p4)) ++ rest2) =
                ct :: ((nls2 ++ p4) ++ rest2) := by
              have h1 : ((nls ++ ct :: (nls2 ++ p4)) ++ rest2 : List Token) =
                  nls ++ (ct :: ((nls2 ++ p4) ++ rest2)) := by simp
              rw [h1, skip_newlines_append_nl hnls1]
              exact skip_newlines_of_curTok (by simp [curTok_cons, htyc])
            rw [hsk1]
            rw [if_pos (show checkTok (ct :: ((nls2 ++ p4) ++ rest2)) TokenType.COMMA = true by
                  simp [checkTok_cons, htyc])]
            simp only [List.tail_cons]
            have hsk2 : skip_newlines ((nls2 ++ p4) ++ rest2) = p4 ++ rest2 := by
              have h1 : ((nls2 ++ p4) ++ rest2 : List Token) = nls2 ++ (p4 ++ rest2) := by simp
              rw [h1, skip_newlines_append_nl hnls2]
              cases p4 with
              | nil =>
                simp only [List.nil_append] at hp4 ⊢
                apply skip_newlines_of_curTok
                rw [show (curTok rest2).type = (curTok rest).type from hok.symm, ← hp4]
                exact skip_newlines_curTok_not_newline ts2t
              | cons p4h p4t =>
                have hq := skip_newlines_cons_head
                  (show skip_newlines ts2t = p4h :: (p4t ++ rest) by rw [hp4]; simp)
                exact skip_newlines_of_curTok (by simpa [curTok_cons] using hq)
            rw [hsk2]
            exact sel g' (skip_newlines ts2t) p4 rest rest2 _ rv hg' h hp4 hok
          · rename_i hncomma
            simp only [Option.some.injEq, Prod.mk.injEq, eq_self_iff_true, true_and, and_true] at h
            obtain ⟨hv, hs⟩ := h
            obtain ⟨nls, hd1, hnls1⟩ := skip_newlines_decomp u
            rw [hs] at hd1
            have hpe : pre = t :: nls := by
              apply append_cancel_right (s := rest)
              rw [← hpre, hd1]
              simp
            have hpre_ne : pre ≠ [] := by rw [hpe]; simp
            have hck : ∀ k, checkTok (pre ++ rest2) k = checkTok (t :: u) k := fun k => by
              rw [checkTok_append hpre_ne, hpre, checkTok_append hpre_ne]
            rw [parse_enum_loop]
            rw [if_neg (by rw [hck, hck]; exact hexit)]
            rw [if_neg (by rw [hck]; exact hid0)]
            have hcg : curTok (pre ++ rest2) = t := by
              rw [curTok_append hpre_ne, hpe, curTok_cons]
            have htl : (pre ++ rest2).tail = nls ++ rest2 := by
              rw [tail_append hpre_ne, hpe]
              simp
            rw [hcg, htl]
            have hsk : skip_newlines (nls ++ rest2) = rest2 := by
              rw [skip_newlines_append_nl hnls1]
              apply skip_newlines_of_curTok
              rw [show (curTok rest2).type = (curTok rest).type from hok.symm, ← hs]
              exact skip_newlines_curTok_not_newline u
            rw [hsk]
            rw [if_neg (show ¬ checkTok rest2 TokenType.COMMA = true by
                  rw [← checkTok_congr_type hok TokenType.COMMA, ← hs]; exact hncomma)]
            rw [hv]






/-! ## Code generator (C9)

cpp_generator.cpp is not among the sources; only cpp_generator.h and the
specification of the generator are available, so this section is modelled
from the spec rather than translated from source code. -/

/-- Modelled from the spec: the GenerationOptions record of section 4.4,
with the field list and defaults of cpp_generator.h. -/
structure GenerationOptions where
  namespace_name : String := "game"
  output_basename : String := "generated"
  generate_serialization : Bool := false
  generate_reflection : Bool := false
  use_strong_entity_id : Bool := true
  entity_id_typedef : String := "uint64_t"
  indentation_size : Nat := 4
deriving DecidableEq

/-- Modelled from the spec: upper-snake-case conversion used for the
header-guard macro name. -/
def to_screaming_snake_case (s : String) : String := s.map Char.toUpper

/-- Capitalize the first character of one word. -/
def capitalize_word (s : String) : String :=
  match s.toList with
  | [] => ""
  | c :: cs => String.mk (c.toUpper :: cs)

/-- Modelled from the spec: PascalCase name mangling (underscores as word
separators). -/
def to_pascal_case (s : String) : String :=
  String.join ((s.splitOn "_").map capitalize_word)

/-- Modelled from the spec: the header-guard macro name is the
upper-snake-cased output basename suffixed with _H. -/
def generate_header_guard_name (o : GenerationOptions) : String :=
  to_screaming_snake_case o.output_basename ++ "_H"

/-- The primitive kinds and container/variant/ref features used by a type
expression, for the include prelude of section 4.4 step 2. -/
structure UsedFeatures where
  prims : List PrimitiveType
  usesArray : Bool
  usesMap : Bool
  usesOptional : Bool
  usesVariant : Bool
  usesRef : Bool
deriving DecidableEq

def UsedFeatures.empty : UsedFeatures :=
  UsedFeatures.mk [] false false false false false

def UsedFeatures.union (a b : UsedFeatures) : UsedFeatures :=
  UsedFeatures.mk (a.prims ++ b.prims) (a.usesArray || b.usesArray)
    (a.usesMap || b.usesMap) (a.usesOptional || b.usesOptional)
    (a.usesVariant || b.usesVariant) (a.usesRef || b.usesRef)

mutual
/-- Modelled from the spec: the transitive scan over all definitions that
feeds the include prelude. -/
def te_features : TypeExpr → UsedFeatures
  | .prim p _ _ => UsedFeatures.mk [p] false false false false false
  | .structT fs _ _ => fields_features fs
  | .variantT as _ _ =>
    UsedFeatures.union (UsedFeatures.mk [] false false false true false) (alts_features as)
  | .enumT _ _ _ => UsedFeatures.empty
  | .container k e kt vt _ _ =>
    UsedFeatures.union
      (UsedFeatures.mk [] (decide (k = ContainerKind.ARRAY)) (decide (k = ContainerKind.MAP))
        (decide (k = ContainerKind.OPTIONAL)) false false)
      (UsedFeatures.union (opt_features e) (UsedFeatures.union (opt_features kt) (opt_features vt)))
  | .refT _ _ => UsedFeatures.mk [] false false false false true
  | .ident _ _ _ => UsedFeatures.empty
termination_by e => sizeOf e

def opt_features : Option TypeExpr → UsedFeatures
  | none => UsedFeatures.empty
  | some t => te_features t
termination_by e => sizeOf e

def fields_features : List Field → UsedFeatures
  | [] => UsedFeatures.empty
  | .mk _ t _ _ :: fs => UsedFeatures.union (te_features t) (fields_features fs)
termination_by fs => sizeOf fs

def alts_features : List Alt → UsedFeatures
  | [] => UsedFeatures.empty
  | .mk _ none _ _ :: as => alts_features as
  | .mk _ (some t) _ _ :: as => UsedFeatures.union (te_features t) (alts_features as)
termination_by as => sizeOf as
end

def schema_features : List TypeDefinition → UsedFeatures
  | [] => UsedFeatures.empty
  | d :: ds => UsedFeatures.union (te_features d.type) (schema_features ds)

/-- Modelled from the spec: fixed-width integer primitives. -/
def is_sized_int : PrimitiveType → Bool
  | .U8 => true
  | .U16 => true
  | .U32 => true
  | .U64 => true
  | .I8 => true
  | .I16 => true
  | .I32 => true
  | .I64 => true
  | _ => false

/-- Modelled from the spec: section 4.4 step 2, the include prelude
computed from the used primitive and container kinds, duplicates
suppressed. -/
def generate_includes (u : UsedFeatures) : String :=
  (if u.prims.any is_sized_int then "#include <cstdint>\n" else "") ++
  (if u.prims.contains PrimitiveType.STR then "#include <string>\n" else "") ++
  (if u.usesArray then "#include <vector>\n" else "") ++
  (if u.usesMap then "#include <unordered_map>\n" else "") ++
  (if u.usesOptional then "#include <optional>\n" else "") ++
  (if u.usesVariant || u.prims.contains PrimitiveType.UNIT then "#include <variant>\n" else "")

/-- Modelled from the spec: section 4.4 step 8, primitive mapping. -/
def map_primitive_type : PrimitiveType → String
  | .STR => "std::string"
  | .INT => "int32_t"
  | .BOOL => "bool"
  | .UNIT => "std::monostate"
  | .U8 => "uint8_t"
  | .U16 => "uint16_t"
  | .U32 => "uint32_t"
  | .U64 => "uint64_t"
  | .I8 => "int8_t"
  | .I16 => "int16_t"
  | .I32 => "int32_t"
  | .I64 => "int64_t"
  | .F32 => "float"
  | .F64 => "double"

/-- Modelled from the spec: section 4.4 step 4, the EntityID definition
controlled by use_strong_entity_id and entity_id_typedef. -/
def generate_entity_id (o : GenerationOptions) : String :=
  if o.use_strong_entity_id then
    "struct EntityID \x7b " ++ o.entity_id_typedef ++ " value; \x7d;\n"
  else
    "using EntityID = " ++ o.entity_id_typedef ++ ";\n"

mutual
/-- Modelled from the spec: section 4.4 step 8, the context-sensitive type
mapping; an anonymous compound is referenced through the hoisted helper
name passed as the context. -/
def map_type : TypeExpr → String → String
  | .prim p _ _, _ => map_primitive_type p
  | .refT _ _, _ => "EntityID"
  | .ident n _ _, _ => to_pascal_case n
  | .container k e kt vt _ _, ctx =>
    match k with
    | .ARRAY => "std::vector<" ++ opt_map_type e ctx ++ ">"
    | .OPTIONAL => "std::optional<" ++ opt_map_type e ctx ++ ">"
    | .MAP =>
      "std::unordered_map<" ++ opt_map_type kt ctx ++ ", " ++ opt_map_type vt ctx ++ ">"
  | .structT _ _ _, ctx => ctx
  | .variantT _ _ _, ctx => ctx
  | .enumT _ _ _, ctx => ctx
termination_by e _ => sizeOf e

def opt_map_type : Option TypeExpr → String → String
  | none, _ => "void"
  | some t, ctx => map_type t ctx
termination_by e _ => sizeOf e
end

/-- Modelled from the spec: one emitted field line of a record type. -/
def generate_field_line (parent ind : String) : Field → String
  | .mk n t _ _ => ind ++ map_type t (parent ++ "_" ++ n) ++ " " ++ n ++ ";\n"

/-- Modelled from the spec: section 4.4 step 5, Struct as a record type. -/
def generate_struct_body (name ind : String) (fs : List Field) : String :=
  "struct " ++ name ++ " \x7b\n" ++
  String.join (fs.map (generate_field_line name ind)) ++ "\x7d;\n"

/-- Modelled from the spec: an alternative's payload; implicit unit and
Primitive(UNIT) payloads become the empty payload type. -/
def alt_payload (parent : String) : Alt → String
  | .mk _ none _ _ => "std::monostate"
  | .mk _ (some (.prim .UNIT _ _)) _ _ => "std::monostate"
  | .mk n (some t) _ _ => map_type t (parent ++ "_" ++ n)

/-- Modelled from the spec: section 4.4 step 5, Variant as a tagged-union
alias over the alternatives' payloads. -/
def generate_variant_body (name : String) (as : List Alt) : String :=
  "using " ++ name ++ " = std::variant<" ++
  String.intercalate ", " (as.map (alt_payload name)) ++ ">;\n"

/-- Modelled from the spec: section 4.4 step 5, Enum as a scoped
enumeration with the value identifiers verbatim, in order. -/
def generate_enum_body (name ind : String) (vs : List String) : String :=
  "enum class " ++ name ++ " \x7b\n" ++
  String.join (vs.map (fun v => ind ++ v ++ ",\n")) ++ "\x7d;\n"

/-- Modelled from the spec: section 4.4 step 5, one top-level definition in
declaration order, with the PascalCase name mangling of step 6. -/
def generate_type_definition (ind : String) (d : TypeDefinition) : String :=
  match d.type with
  | .structT fs _ _ => generate_struct_body (to_pascal_case d.name) ind fs ++ "\n"
  | .variantT as _ _ => generate_variant_body (to_pascal_case d.name) as ++ "\n"
  | .enumT vs _ _ => generate_enum_body (to_pascal_case d.name) ind vs ++ "\n"
  | t => "using " ++ to_pascal_case d.name ++ " = " ++ map_type t (to_pascal_case d.name) ++ ";\n\n"

/-- Modelled from the spec: CppGenerator::generate_header, assembling the
guard preamble, include prelude, namespace opener, conditional EntityID,
the definitions in declaration order, and the closers (section 4.4 steps
1-9). A pure function of the schema and the options. -/
def generate_header (s : Schema) (o : GenerationOptions) : String :=
  let guard := generate_header_guard_name o
  let u := schema_features s.definitions
  let ind := String.mk (List.replicate o.indentation_size ' ')
  "#pragma once\n#ifndef " ++ guard ++ "\n#define " ++ guard ++ "\n\n" ++
  generate_includes u ++
  "\nnamespace " ++ o.namespace_name ++ " \x7b\n\n" ++
  (if u.usesRef then generate_entity_id o ++ "\n" else "") ++
  String.join (s.definitions.map (generate_type_definition ind)) ++
  "\x7d // namespace " ++ o.namespace_name ++ "\n\n#endif // " ++ guard ++ "\n"

/-- The number of fields of a parsed struct node (0 for any other node);
used to exhibit that two parses produced different ASTs. -/
def struct_field_count : TypeExpr → Nat
  | .structT fs _ _ => fs.length
  | _ => 0

theorem getLast?_append_ne {α : Type} {l l2 : List α} (h : l2 ≠ []) :
    (l ++ l2).getLast? = l2.getLast? := by
  rw [List.getLast?_append]
  cases h2 : l2.getLast? with
  | none => exact absurd (List.getLast?_eq_none_iff.mp h2) h
  | some a => rfl

theorem mem_of_getLast?_eq {α : Type} {l : List α} {a : α} (h : l.getLast? = some a) :
    a ∈ l := by
  obtain ⟨l2, rfl⟩ := List.getLast?_eq_some_iff.mp h
  simp

/-- A body loop entered at its closing brace exits at once. -/
theorem parse_struct_loop_rbrace (g : Nat) (hg : 1 ≤ g) {rb : Token}
    (hrb : rb.type = TokenType.RBRACE) (rest : List Token) (acc : List Field) :
    parse_struct_loop g (rb :: rest) acc = some (acc, [], rb :: rest) := by
  cases g with
  | zero => omega
  | succ g2 =>
    rw [parse_struct_loop]
    rw [if_pos (by simp [checkTok_cons, hrb])]

theorem parse_variant_loop_rbrace (g : Nat) (hg : 1 ≤ g) {rb : Token}
    (hrb : rb.type = TokenType.RBRACE) (rest : List Token) (acc : List Alt) :
    parse_variant_loop g (rb :: rest) acc = some (acc, [], rb :: rest) := by
  cases g with
  | zero => omega
  | succ g2 =>
    rw [parse_variant_loop]
    rw [if_pos (by simp [checkTok_cons, hrb])]

theorem parse_enum_loop_rbrace (g : Nat) (hg : 1 ≤ g) {rb : Token}
    (hrb : rb.type = TokenType.RBRACE) (rest : List Token) (acc : List String) :
    parse_enum_loop g (rb :: rest) acc = some (acc, [], rb :: rest) := by
  cases g with
  | zero => omega
  | succ g2 =>
    rw [parse_enum_loop]
    rw [if_pos (by simp [checkTok_cons, hrb])]

/-- parse_field on a non-identifier reports and consumes nothing. -/
theorem parse_field_err (g : Nat) (hg : 1 ≤ g) {t : Token}
    (hnid : ¬ t.type = TokenType.IDENTIFIER) (X : List Token) :
    parse_field g (t :: X) =
      some (none, [perr "Expected field name" (t :: X)], t :: X) := by
  cases g with
  | zero => omega
  | succ g2 =>
    rw [parse_field]
    rw [if_pos (by simp [checkTok_cons, hnid])]

/-- parse_alternative on a non-identifier reports and consumes nothing. -/
theorem parse_alternative_err (g : Nat) (hg : 1 ≤ g) {t : Token}
    (hnid : ¬ t.type = TokenType.IDENTIFIER) (X : List Token) :
    parse_alternative g (t :: X) =
      some (none, [perr "Expected alternative name" (t :: X)], t :: X) := by
  cases g with
  | zero => omega
  | succ g2 =>
    rw [parse_alternative]
    rw [if_pos (by simp [checkTok_cons, hnid])]

/-- Inserting one comma in front of the closing brace on which an
error-free run of the struct body loop stopped: the loop consumes the
comma (a field-less extra iteration when the body was empty) and stops
on the same brace with the same result. -/
theorem trailing_comma_struct_loop (fuel : Nat) :
    ∀ g ts acc fs pre rb rest cm,
      parse_struct_loop fuel ts acc = some (fs, [], rb :: rest) →
      ts = pre ++ rb :: rest →
      rb.type = TokenType.RBRACE →
      cm.type = TokenType.COMMA →
      fuel + 1 ≤ g →
      ∃ e2, parse_struct_loop g (pre ++ cm :: rb :: rest) acc = some (fs, e2, rb :: rest) := by
  induction fuel with
  | zero =>
    intro g ts acc fs pre rb rest cm h
    simp [parse_struct_loop] at h
  | succ f ih =>
    obtain ⟨cte, cst, cvt, cen, cco, cfi, cal, csl, cvl, cel⟩ := parse_consumes f
    obtain ⟨ste, sst, svt, sen, sco, sfi, sal, ssl, svl, sel⟩ := parse_sr f
    intro g ts acc fs pre rb rest cm h hpre hrb hcm hg
    cases g with
    | zero => exact absurd hg (by omega)
    | succ g' =>
    have hg' : f + 1 ≤ g' := by omega
    simp only [parse_struct_loop] at h
    split at h
    · rename_i hexit
      simp only [Option.some.injEq, Prod.mk.injEq, eq_self_iff_true, true_and, and_true] at h
      obtain ⟨hv, hs⟩ := h
      have hpe : pre = [] := append_eq_self_nil (hpre.symm.trans hs)
      subst hpe
      simp only [List.nil_append]
      refine ⟨[perr "Expected field name" (cm :: rb :: rest)], ?_⟩
      rw [parse_struct_loop]
      rw [if_neg (by simp [checkTok_cons, hcm])]
      rw [parse_field_err g' (by omega) (by simp [hcm]) (rb :: rest)]
      dsimp only
      rw [show skip_newlines (cm :: rb :: rest) = cm :: rb :: rest from
            skip_newlines_of_curTok (by simp [curTok_cons, hcm])]
      rw [if_pos (show checkTok (cm :: rb :: rest) TokenType.COMMA = true by
            simp [checkTok_cons, hcm])]
      simp only [List.tail_cons]
      rw [show skip_newlines (rb :: rest) = rb :: rest from
            skip_newlines_of_curTok (by simp [curTok_cons, hrb])]
      rw [parse_struct_loop_rbrace g' (by omega) hrb rest acc]
      rw [hv]
      rfl
    · rename_i hexit
      split at h
      · simp at h
      · rename_i fd heqf
        obtain ⟨f1, f2, f3⟩ := fd
        split at h
        · rename_i hcomma
          split at h
          · simp at h
          · rename_i q heq2
            obtain ⟨q1, q2, q3⟩ := q
            simp only [Option.some.injEq, Prod.mk.injEq] at h
            obtain ⟨hv, he, hs⟩ := h
            simp only [List.append_eq_nil] at he
            obtain ⟨hf2, hq2⟩ := he
            subst hf2
            subst hq2
            rw [hs] at heq2
            obtain ⟨pf, hpf_ne, htsf⟩ := cfi ts f1 [] f3 heqf rfl
            obtain ⟨ct, ts2t, hts2, htyc⟩ := checkTok_cons_of hcomma (by decide)
            rw [hts2] at heq2
            simp only [List.tail_cons] at heq2
            obtain ⟨p4, hp4⟩ := csl (skip_newlines ts2t) _ q1 [] (rb :: rest) heq2 rfl
            obtain ⟨nls, hd1, hnls1⟩ := skip_newlines_decomp f3
            obtain ⟨nls2, hd2, hnls2⟩ := skip_newlines_decomp ts2t
            have hf3 : f3 = (nls ++ ct :: (nls2 ++ p4)) ++ rb :: rest := by
              rw [hd1, hts2, hd2, hp4]
              simp
            have hpe : pre = pf ++ (nls ++ ct :: (nls2 ++ p4)) := by
              apply append_cancel_right (s := rb :: rest)
              rw [← hpre, htsf, hf3]
              simp
            have hpre_ne : pre ≠ [] := by rw [hpe]; simp [hpf_ne]
            have hck : ∀ k, checkTok (pre ++ cm :: rb :: rest) k = checkTok ts k := fun k => by
              rw [checkTok_append hpre_ne, hpre, checkTok_append hpre_ne]
            obtain ⟨e2, hrec⟩ := ih g' (skip_newlines ts2t) _ q1 p4 rb rest cm heq2 hp4 hrb hcm hg'
            refine ⟨e2, ?_⟩
            rw [parse_struct_loop]
            rw [if_neg (by rw [hck, hck]; exact hexit)]
            have hstream : pre ++ cm :: rb :: rest =
                pf ++ ((nls ++ ct :: (nls2 ++ p4)) ++ cm :: rb :: rest) := by
              rw [hpe]
              simp
            rw [hstream]
            have hfield := sfi g' ts pf f3 ((nls ++ ct :: (nls2 ++ p4)) ++ cm :: rb :: rest) f1
              (by omega) heqf htsf
            rw [hfield]
            dsimp only
            have hsk1 : skip_newlines ((nls ++ ct :: (nls2 ++ p4)) ++ cm :: rb :: rest) =
                ct :: ((nls2 ++ p4) ++ cm :: rb :: rest) := by
              have hx : ((nls ++ ct :: (nls2 ++ p4)) ++ cm :: rb :: rest : List Token) =
                  nls ++ (ct :: ((nls2 ++ p4) ++ cm :: rb :: rest)) := by simp
              rw [hx, skip_newlines_append_nl hnls1]
              exact skip_newlines_of_curTok (by simp [curTok_cons, htyc])
            rw [hsk1]
            rw [if_pos (show checkTok (ct :: ((nls2 ++ p4) ++ cm :: rb :: rest)) TokenType.COMMA = true by
                  simp [checkTok_cons, htyc])]
            simp only [List.tail_cons]
            have hsk2 : skip_newlines ((nls2 ++ p4) ++ cm :: rb :: rest) = p4 ++ cm :: rb :: rest := by
              have hx : ((nls2 ++ p4) ++ cm :: rb :: rest : List Token) =
                  nls2 ++ (p4 ++ cm :: rb :: rest) := by simp
              rw [hx, skip_newlines_append_nl hnls2]
              cases p4 with
              | nil =>
                simp only [List.nil_append]
                exact skip_newlines_of_curTok (by simp [curTok_cons, hcm])
              | cons p4h p4t =>
                have hq := skip_newlines_cons_head
                  (show skip_newlines ts2t = p4h :: (p4t ++ rb :: rest) by rw [hp4]; simp)
                exact skip_newlines_of_curTok (by simpa [curTok_cons] using hq)
            rw [hsk2]
            rw [hrec]
            dsimp only
            rw [hv]
            rfl
        · rename_i hncomma
          simp only [Option.some.injEq, Prod.mk.injEq] at h
          obtain ⟨hv, he, hs⟩ := h
          subst he
          obtain ⟨pf, hpf_ne, htsf⟩ := cfi ts f1 [] f3 heqf rfl
          obtain ⟨nls, hd1, hnls1⟩ := skip_newlines_decomp f3
          rw [hs] at hd1
          have hpe : pre = pf ++ nls := by
            apply append_cancel_right (s := rb :: rest)
            rw [← hpre, htsf, hd1]
            simp
          have hpre_ne : pre ≠ [] := by rw [hpe]; simp [hpf_ne]
          have hck : ∀ k, checkTok (pre ++ cm :: rb :: rest) k = checkTok ts k := fun k => by
            rw [checkTok_append hpre_ne, hpre, checkTok_append hpre_ne]
          refine ⟨[], ?_⟩
          rw [parse_struct_loop]
          rw [if_neg (by rw [hck, hck]; exact hexit)]
          have hstream : pre ++ cm :: rb :: rest = pf ++ (nls ++ cm :: rb :: rest) := by
            rw [hpe]
            simp
          rw [hstream]
          have hfield := sfi g' ts pf f3 (nls ++ cm :: rb :: rest) f1 (by omega) heqf htsf
          rw [hfield]
          dsimp only
          have hsk : skip_newlines (nls ++ cm :: rb :: rest) = cm :: rb :: rest := by
            rw [skip_newlines_append_nl hnls1]
            exact skip_newlines_of_curTok (by simp [curTok_cons, hcm])
          rw [hsk]
          rw [if_pos (show checkTok (cm :: rb :: rest) TokenType.COMMA = true by
                simp [checkTok_cons, hcm])]
          simp only [List.tail_cons]
          rw [show skip_newlines (rb :: rest) = rb :: rest from
                skip_newlines_of_curTok (by simp [curTok_cons, hrb])]
          rw [parse_struct_loop_rbrace g' (by omega) hrb rest _]
          rw [hv]
          rfl

/-- Inserting one comma in front of the closing brace on which an
error-free run of the variant body loop stopped: the loop consumes the
comma (a field-less extra iteration when the body was empty) and stops
on the same brace with the same result. -/
theorem trailing_comma_variant_loop (fuel : Nat) :
    ∀ g ts acc fs pre rb rest cm,
      parse_variant_loop fuel ts acc = some (fs, [], rb :: rest) →
      ts = pre ++ rb :: rest →
      rb.type = TokenType.RBRACE →
      cm.type = TokenType.COMMA →
      fuel + 1 ≤ g →
      ∃ e2, parse_variant_loop g (pre ++ cm :: rb :: rest) acc = some (fs, e2, rb :: rest) := by
  induction fuel with
  | zero =>
    intro g ts acc fs pre rb rest cm h
    simp [parse_variant_loop] at h
  | succ f ih =>
    obtain ⟨cte, cst, cvt, cen, cco, cfi, cal, csl, cvl, cel⟩ := parse_consumes f
    obtain ⟨ste, sst, svt, sen, sco, sfi, sal, ssl, svl, sel⟩ := parse_sr f
    intro g ts acc fs pre rb rest cm h hpre hrb hcm hg
    cases g with
    | zero => exact absurd hg (by omega)
    | succ g' =>
    have hg' : f + 1 ≤ g' := by omega
    simp only [parse_variant_loop] at h
    split at h
    · rename_i hexit
      simp only [Option.some.injEq, Prod.mk.injEq, eq_self_iff_true, true_and, and_true] at h
      obtain ⟨hv, hs⟩ := h
      have hpe : pre = [] := append_eq_self_nil (hpre.symm.trans hs)
      subst hpe
      simp only [List.nil_append]
      refine ⟨[perr "Expected alternative name" (cm :: rb :: rest)], ?_⟩
      rw [parse_variant_loop]
      rw [if_neg (by simp [checkTok_cons, hcm])]
      rw [parse_alternative_err g' (by omega) (by simp [hcm]) (rb :: rest)]
      dsimp only
      rw [show skip_newlines (cm :: rb :: rest) = cm :: rb :: rest from
            skip_newlines_of_curTok (by simp [curTok_cons, hcm])]
      rw [if_pos (show checkTok (cm :: rb :: rest) TokenType.COMMA = true by
            simp [checkTok_cons, hcm])]
      simp only [List.tail_cons]
      rw [show skip_newlines (rb :: rest) = rb :: rest from
            skip_newlines_of_curTok (by simp [curTok_cons, hrb])]
      rw [parse_variant_loop_rbrace g' (by omega) hrb rest acc]
      rw [hv]
      rfl
    · rename_i hexit
      split at h
      · simp at h
      · rename_i fd heqf
        obtain ⟨f1, f2, f3⟩ := fd
        split at h
        · rename_i hcomma
          split at h
          · simp at h
          · rename_i q heq2
            obtain ⟨q1, q2, q3⟩ := q
            simp only [Option.some.injEq, Prod.mk.injEq] at h
            obtain ⟨hv, he, hs⟩ := h
            simp only [List.append_eq_nil] at he
            obtain ⟨hf2, hq2⟩ := he
            subst hf2
            subst hq2
            rw [hs] at heq2
            obtain ⟨pf, hpf_ne, htsf⟩ := cal ts f1 [] f3 heqf rfl
            obtain ⟨ct, ts2t, hts2, htyc⟩ := checkTok_cons_of hcomma (by decide)
            rw [hts2] at heq2
            simp only [List.tail_cons] at heq2
            obtain ⟨p4, hp4⟩ := cvl (skip_newlines ts2t) _ q1 [] (rb :: rest) heq2 rfl
            obtain ⟨nls, hd1, hnls1⟩ := skip_newlines_decomp f3
            obtain ⟨nls2, hd2, hnls2⟩ := skip_newlines_decomp ts2t
            have hf3 : f3 = (nls ++ ct :: (nls2 ++ p4)) ++ rb :: rest := by
              rw [hd1, hts2, hd2, hp4]
              simp
            have hpe : pre = pf ++ (nls ++ ct :: (nls2 ++ p4)) := by
              apply append_cancel_right (s := rb :: rest)
              rw [← hpre, htsf, hf3]
              simp
            have hpre_ne : pre ≠ [] := by rw [hpe]; simp [hpf_ne]
            have hck : ∀ k, checkTok (pre ++ cm :: rb :: rest) k = checkTok ts k := fun k => by
              rw [checkTok_append hpre_ne, hpre, checkTok_append hpre_ne]
            obtain ⟨e2, hrec⟩ := ih g' (skip_newlines ts2t) _ q1 p4 rb rest cm heq2 hp4 hrb hcm hg'
            refine ⟨e2, ?_⟩
            rw [parse_variant_loop]
            rw [if_neg (by rw [hck, hck]; exact hexit)]
            have hstream : pre ++ cm :: rb :: rest =
                pf ++ ((nls ++ ct :: (nls2 ++ p4)) ++ cm :: rb :: rest) := by
              rw [hpe]
              simp
            rw [hstream]
            have hfield := sal g' ts pf f3 ((nls ++ ct :: (nls2 ++ p4)) ++ cm :: rb :: rest) f1
              (by omega) heqf htsf (by
                rw [hf3]
                have hq : (nls ++ [ct] : List Token) ≠ [] := by simp
                have hk1 := checkTok_append hq ((nls2 ++ p4) ++ rb :: rest) TokenType.COLON
                have hk2 := checkTok_append hq ((nls2 ++ p4) ++ cm :: rb :: rest) TokenType.COLON
                rw [show ((nls ++ ct :: (nls2 ++ p4)) ++ rb :: rest : List Token) =
                      (nls ++ [ct]) ++ ((nls2 ++ p4) ++ rb :: rest) by simp,
                    show ((nls ++ ct :: (nls2 ++ p4)) ++ cm :: rb :: rest : List Token) =
                      (nls ++ [ct]) ++ ((nls2 ++ p4) ++ cm :: rb :: rest) by simp,
                    hk1, hk2])
            rw [hfield]
            dsimp only
            have hsk1 : skip_newlines ((nls ++ ct :: (nls2 ++ p4)) ++ cm :: rb :: rest) =
                ct :: ((nls2 ++ p4) ++ cm :: rb :: rest) := by
              have hx : ((nls ++ ct :: (nls2 ++ p4)) ++ cm :: rb :: rest : List Token) =
                  nls ++ (ct :: ((nls2 ++ p4) ++ cm :: rb :: rest)) := by simp
              rw [hx, skip_newlines_append_nl hnls1]
              exact skip_newlines_of_curTok (by simp [curTok_cons, htyc])
            rw [hsk1]
            rw [if_pos (show checkTok (ct :: ((nls2 ++ p4) ++ cm :: rb :: rest)) TokenType.COMMA = true by
                  simp [checkTok_cons, htyc])]
            simp only [List.tail_cons]
            have hsk2 : skip_newlines ((nls2 ++ p4) ++ cm :: rb :: rest) = p4 ++ cm :: rb :: rest := by
              have hx : ((nls2 ++ p4) ++ cm :: rb :: rest : List Token) =
                  nls2 ++ (p4 ++ cm :: rb :: rest) := by simp
              rw [hx, skip_newlines_append_nl hnls2]
              cases p4 with
              | nil =>
                simp only [List.nil_append]
                exact skip_newlines_of_curTok (by simp [curTok_cons, hcm])
              | cons p4h p4t =>
                have hq := skip_newlines_cons_head
                  (show skip_newlines ts2t = p4h :: (p4t ++ rb :: rest) by rw [hp4]; simp)
                exact skip_newlines_of_curTok (by simpa [curTok_cons] using hq)
            rw [hsk2]
            rw [hrec]
            dsimp only
            rw [hv]
            rfl
        · rename_i hncomma
          simp only [Option.some.injEq, Prod.mk.injEq] at h
          obtain ⟨hv, he, hs⟩ := h
          subst he
          obtain ⟨pf, hpf_ne, htsf⟩ := cal ts f1 [] f3 heqf rfl
          obtain ⟨nls, hd1, hnls1⟩ := skip_newlines_decomp f3
          rw [hs] at hd1
          have hpe : pre = pf ++ nls := by
            apply append_cancel_right (s := rb :: rest)
            rw [← hpre, htsf, hd1]
            simp
          have hpre_ne : pre ≠ [] := by rw [hpe]; simp [hpf_ne]
          have hck : ∀ k, checkTok (pre ++ cm :: rb :: rest) k = checkTok ts k := fun k => by
            rw [checkTok_append hpre_ne, hpre, checkTok_append hpre_ne]
          refine ⟨[], ?_⟩
          rw [parse_variant_loop]
          rw [if_neg (by rw [hck, hck]; exact hexit)]
          have hstream : pre ++ cm :: rb :: rest = pf ++ (nls ++ cm :: rb :: rest) := by
            rw [hpe]
            simp
          rw [hstream]
          have hfield := sal g' ts pf f3 (nls ++ cm :: rb :: rest) f1 (by omega) heqf htsf (by
              rw [hd1]
              cases nls with
              | nil =>
                simp only [List.nil_append, checkTok_cons, hrb, hcm]
                decide
              | cons a l =>
                have hk1 := checkTok_append (List.cons_ne_nil a l) (rb :: rest) TokenType.COLON
                have hk2 := checkTok_append (List.cons_ne_nil a l) (cm :: rb :: rest) TokenType.COLON
                rw [hk1, hk2])
          rw [hfield]
          dsimp only
          have hsk : skip_newlines (nls ++ cm :: rb :: rest) = cm :: rb :: rest := by
            rw [skip_newlines_append_nl hnls1]
            exact skip_newlines_of_curTok (by simp [curTok_cons, hcm])
          rw [hsk]
          rw [if_pos (show checkTok (cm :: rb :: rest) TokenType.COMMA = true by
                simp [checkTok_cons, hcm])]
          simp only [List.tail_cons]
          rw [show skip_newlines (rb :: rest) = rb :: rest from
                skip_newlines_of_curTok (by simp [curTok_cons, hrb])]
          rw [parse_variant_loop_rbrace g' (by omega) hrb rest _]
          rw [hv]
          rfl

/-- Inserting one comma before the closing brace of an error-free enum
body whose last consumed token is a value (identifier): the loop
consumes the comma and stops on the same brace with the same values and
no diagnostics. -/
theorem trailing_comma_enum_loop (fuel : Nat) :
    ∀ g ts acc fs pre rb rest cm,
      parse_enum_loop fuel ts acc = some (fs, [], rb :: rest) →
      ts = pre ++ rb :: rest →
      rb.type = TokenType.RBRACE →
      cm.type = TokenType.COMMA →
      (∃ lt, pre.getLast? = some lt ∧ lt.type = TokenType.IDENTIFIER) →
      fuel + 1 ≤ g →
      parse_enum_loop g (pre ++ cm :: rb :: rest) acc = some (fs, [], rb :: rest) := by
  induction fuel with
  | zero =>
    intro g ts acc fs pre rb rest cm h
    simp [parse_enum_loop] at h
  | succ f ih =>
    obtain ⟨cte, cst, cvt, cen, cco, cfi, cal, csl, cvl, cel⟩ := parse_consumes f
    intro g ts acc fs pre rb rest cm h hpre hrb hcm hlast hg
    cases g with
    | zero => exact absurd hg (by omega)
    | succ g' =>
    have hg' : f + 1 ≤ g' := by omega
    simp only [parse_enum_loop] at h
    split at h
    · rename_i hexit
      simp only [Option.some.injEq, Prod.mk.injEq, eq_self_iff_true, true_and, and_true] at h
      obtain ⟨hv, hs⟩ := h
      have hpe : pre = [] := append_eq_self_nil (hpre.symm.trans hs)
      obtain ⟨lt, hl1, -⟩ := hlast
      rw [hpe] at hl1
      simp at hl1
    · rename_i hexit
      split at h
      · simp only [Option.some.injEq, Prod.mk.injEq] at h
        obtain ⟨-, he, -⟩ := h
        simp at he
      · rename_i hid0
        have hident : checkTok ts TokenType.IDENTIFIER = true := by
          revert hid0
          cases checkTok ts TokenType.IDENTIFIER <;> simp
        obtain ⟨t, u, hts, hty⟩ := checkTok_cons_of hident (by decide)
        subst hts
        simp only [List.tail_cons, curTok_cons] at h
        split at h
        · rename_i hcomma
          obtain ⟨ct, ts2t, hts2, htyc⟩ := checkTok_cons_of hcomma (by decide)
          rw [hts2] at h
          simp only [List.tail_cons] at h
          obtain ⟨p4, hp4⟩ := cel (skip_newlines ts2t) _ fs [] (rb :: rest) h rfl
          obtain ⟨nls, hd1, hnls1⟩ := skip_newlines_decomp u
          obtain ⟨nls2, hd2, hnls2⟩ := skip_newlines_decomp ts2t
          have hu2 : u = (nls ++ ct :: (nls2 ++ p4)) ++ rb :: rest := by
            rw [hd1, hts2, hd2, hp4]
            simp
          have hpe : pre = t :: (nls ++ ct :: (nls2 ++ p4)) := by
            apply append_cancel_right (s := rb :: rest)
            rw [← hpre, hu2]
            simp
          have hp4ne : p4 ≠ [] := by
            intro hp40
            obtain ⟨lt, hl1, hl2⟩ := hlast
            rw [hpe, hp40] at hl1
            simp only [List.append_nil] at hl1
            cases hn2 : nls2 with
            | nil =>
              rw [hn2] at hl1
              have hlc : (t :: (nls ++ [ct])).getLast? = some ct := by
                rw [show (t :: (nls ++ [ct]) : List Token) = (t :: nls) ++ [ct] by simp]
                rw [getLast?_append_ne (by simp)]
                rfl
              have := hlc.symm.trans hl1
              injection this with hlt
              rw [← hlt] at hl2
              rw [htyc] at hl2
              simp at hl2
            | cons a l2 =>
              rw [hn2] at hl1
              have heq2 : (t :: (nls ++ ct :: (a :: l2))).getLast? = (a :: l2).getLast? := by
                rw [show (t :: (nls ++ ct :: (a :: l2)) : List Token) =
                      (t :: (nls ++ [ct])) ++ (a :: l2) by simp]
                rw [getLast?_append_ne (by simp)]
              rw [heq2] at hl1
              have hmem := mem_of_getLast?_eq hl1
              have hnn := hnls2 lt (hn2 ▸ hmem)
              rw [hnn] at hl2
              simp at hl2
          have hlast2 : ∃ lt, p4.getLast? = some lt ∧ lt.type = TokenType.IDENTIFIER := by
            obtain ⟨lt, hl1, hl2⟩ := hlast
            refine ⟨lt, ?_, hl2⟩
            rw [hpe] at hl1
            rw [show (t :: (nls ++ ct :: (nls2 ++ p4)) : List Token) =
                  (t :: (nls ++ ct :: nls2)) ++ p4 by simp] at hl1
            rw [getLast?_append_ne hp4ne] at hl1
            exact hl1
          have hrec := ih g' (skip_newlines ts2t) _ fs p4 rb rest cm h hp4 hrb hcm hlast2 hg'
          have hpre_ne : pre ≠ [] := by rw [hpe]; simp
          have hck : ∀ k, checkTok (pre ++ cm :: rb :: rest) k = checkTok (t :: u) k := fun k => by
            rw [checkTok_append hpre_ne, hpre, checkTok_append hpre_ne]
          rw [parse_enum_loop]
          rw [if_neg (by rw [hck, hck]; exact hexit)]
          rw [if_neg (by rw [hck]; exact hid0)]
          have hcg : curTok (pre ++ cm :: rb :: rest) = t := by
            rw [curTok_append hpre_ne, hpe, curTok_cons]
          have htl : (pre ++ cm :: rb :: rest).tail =
              (nls ++ ct :: (nls2 ++ p4)) ++ cm :: rb :: rest := by
            rw [tail_append hpre_ne, hpe]
            simp
          rw [hcg, htl]
          have hsk1 : skip_newlines ((nls ++ ct :: (nls2 ++ p4)) ++ cm :: rb :: rest) =
              ct :: ((nls2 ++ p4) ++ cm :: rb :: rest) := by
            have hx : ((nls ++ ct :: (nls2 ++ p4)) ++ cm :: rb :: rest : List Token) =
                nls ++ (ct :: ((nls2 ++ p4) ++ cm :: rb :: rest)) := by simp
            rw [hx, skip_newlines_append_nl hnls1]
            exact skip_newlines_of_curTok (by simp [curTok_cons, htyc])
          rw [hsk1]
          rw [if_pos (show checkTok (ct :: ((nls2 ++ p4) ++ cm :: rb :: rest)) TokenType.COMMA = true by
                simp [checkTok_cons, htyc])]
          simp only [List.tail_cons]
          have hsk2 : skip_newlines ((nls2 ++ p4) ++ cm :: rb :: rest) = p4 ++ cm :: rb :: rest := by
            have hx : ((nls2 ++ p4) ++ cm :: rb :: rest : List Token) =
                nls2 ++ (p4 ++ cm :: rb :: rest) := by simp
            rw [hx, skip_newlines_append_nl hnls2]
            cases p4 with
            | nil => exact absurd rfl hp4ne
            | cons p4h p4t =>
              have hq := skip_newlines_cons_head
                (show skip_newlines ts2t = p4h :: (p4t ++ rb :: rest) by rw [hp4]; simp)
              exact skip_newlines_of_curTok (by simpa [curTok_cons] using hq)
          rw [hsk2]
          exact hrec
        · rename_i hncomma
          simp only [Option.some.injEq, Prod.mk.injEq, eq_self_iff_true, true_and, and_true] at h
          obtain ⟨hv, hs⟩ := h
          obtain ⟨nls, hd1, hnls1⟩ := skip_newlines_decomp u
          rw [hs] at hd1
          have hpe : pre = t :: nls := by
            apply append_cancel_right (s := rb :: rest)
            rw [← hpre, hd1]
            simp
          have hnlsnil : nls = [] := by
            cases hn : nls with
            | nil => rfl
            | cons a l2 =>
              obtain ⟨lt, hl1, hl2⟩ := hlast
              rw [hpe, hn] at hl1
              have heq2 : (t :: (a :: l2)).getLast? = (a :: l2).getLast? := by
                rw [show (t :: (a :: l2) : List Token) = [t] ++ (a :: l2) by simp]
                rw [getLast?_append_ne (by simp)]
              rw [heq2] at hl1
              have hmem := mem_of_getLast?_eq hl1
              have hnn := hnls1 lt (hn ▸ hmem)
              rw [hnn] at hl2
              simp at hl2
          subst hnlsnil
          rw [hpe]
          simp only [List.nil_append, List.cons_append]
          rw [parse_enum_loop]
          rw [if_neg (by simp [checkTok_cons, hty])]
          rw [if_neg (by simp [checkTok_cons, hty])]
          simp only [List.tail_cons, curTok_cons]
          rw [show skip_newlines (cm :: rb :: rest) = cm :: rb :: rest from
                skip_newlines_of_curTok (by simp [curTok_cons, hcm])]
          rw [if_pos (show checkTok (cm :: rb :: rest) TokenType.COMMA = true by
                simp [checkTok_cons, hcm])]
          simp only [List.tail_cons]
          rw [show skip_newlines (rb :: rest) = rb :: rest from
                skip_newlines_of_curTok (by simp [curTok_cons, hrb])]
          rw [parse_enum_loop_rbrace g' (by omega) hrb rest _]
          rw [hv]

/-- Trailing comma before the closing brace of an error-free struct body:
same node, same remaining stream. -/
theorem trailing_comma_struct (F : Nat) (ts : List Token) (node : TypeExpr)
    (rest pre : List Token) (rb cm : Token) (g : Nat)
    (h : parse_struct_type F ts = some (node, [], rest))
    (hpre : ts = pre ++ rb :: rest)
    (hcm : cm.type = TokenType.COMMA)
    (hg : F < g) :
    rb.type = TokenType.RBRACE ∧
    ∃ e2, parse_struct_type g (pre ++ cm :: rb :: rest) = some (node, e2, rest) := by
  cases F with
  | zero => simp [parse_struct_type] at h
  | succ f =>
  cases g with
  | zero => omega
  | succ g' =>
  have hg' : f + 1 ≤ g' := by omega
  simp only [parse_struct_type] at h
  split at h
  · simp at h
  · rename_i b heq
    obtain ⟨b1, b2, b3⟩ := b
    simp only [Option.some.injEq, Prod.mk.injEq] at h
    obtain ⟨hv, he, hs⟩ := h
    simp only [List.append_eq_nil] at he
    obtain ⟨⟨⟨h1, h2⟩, h3⟩, h4⟩ := he
    have hc1 := expect_errs_nil h1
    obtain ⟨t1, u1, hts1, hty1⟩ := checkTok_cons_of hc1 (by decide)
    subst hts1
    rw [expect_pos _ hc1] at h2 heq
    simp only [List.tail_cons] at h2 heq
    have hc2 := expect_errs_nil h2
    obtain ⟨t2, u2, hts2, hty2⟩ := checkTok_cons_of hc2 (by decide)
    subst hts2
    rw [expect_pos _ hc2] at heq
    simp only [List.tail_cons] at heq
    have hc3 := expect_errs_nil h4
    obtain ⟨rb0, u3, hb2, htyrb⟩ := checkTok_cons_of hc3 (by decide)
    rw [expect_pos _ hc3, hb2] at hs
    simp only [List.tail_cons] at hs
    subst h3
    rw [hb2, hs] at heq
    obtain ⟨p3, hp3⟩ := (parse_consumes f).2.2.2.2.2.2.2.1 (skip_newlines u2) [] b1 [] (rb0 :: rest) heq rfl
    obtain ⟨nls, hdec, hnls⟩ := skip_newlines_decomp u2
    have hmain : pre ++ rb :: rest = (t1 :: t2 :: (nls ++ p3)) ++ rb0 :: rest := by
      rw [← hpre, hdec, hp3]
      simp
    obtain ⟨hpe, hrbeq⟩ := List.append_inj' hmain (by simp)
    injection hrbeq with hrb0 hrest0
    subst hrb0
    obtain ⟨e2, hloop⟩ := trailing_comma_struct_loop f g' (skip_newlines u2) [] b1 p3 rb rest cm heq hp3 htyrb hcm hg'
    refine ⟨htyrb, e2, ?_⟩
    subst hpe
    simp only [List.cons_append, List.append_assoc]
    rw [parse_struct_type]
    rw [expect_cons_pos hty1]
    dsimp only
    rw [expect_cons_pos hty2]
    dsimp only
    rw [skip_newlines_append_nl hnls]
    have hskip : skip_newlines (p3 ++ cm :: rb :: rest) = p3 ++ cm :: rb :: rest := by
      cases p3 with
      | nil =>
        simp only [List.nil_append]
        exact skip_newlines_of_curTok (by simp [curTok_cons, hcm])
      | cons q qs =>
        have hq := skip_newlines_cons_head
          (show skip_newlines u2 = q :: (qs ++ (rb :: rest)) by rw [hp3]; simp)
        exact skip_newlines_of_curTok (by simpa [curTok_cons] using hq)
    rw [hskip]
    rw [hloop]
    dsimp only
    rw [expect_cons_pos htyrb]
    simp only [curTok_cons] at hv
    simp [curTok_cons, ← hv]

/-- Trailing comma before the closing brace of an error-free variant body:
same node, same remaining stream. -/
theorem trailing_comma_variant (F : Nat) (ts : List Token) (node : TypeExpr)
    (rest pre : List Token) (rb cm : Token) (g : Nat)
    (h : parse_variant_type F ts = some (node, [], rest))
    (hpre : ts = pre ++ rb :: rest)
    (hcm : cm.type = TokenType.COMMA)
    (hg : F < g) :
    rb.type = TokenType.RBRACE ∧
    ∃ e2, parse_variant_type g (pre ++ cm :: rb :: rest) = some (node, e2, rest) := by
  cases F with
  | zero => simp [parse_variant_type] at h
  | succ f =>
  cases g with
  | zero => omega
  | succ g' =>
  have hg' : f + 1 ≤ g' := by omega
  simp only [parse_variant_type] at h
  split at h
  · simp at h
  · rename_i b heq
    obtain ⟨b1, b2, b3⟩ := b
    simp only [Option.some.injEq, Prod.mk.injEq] at h
    obtain ⟨hv, he, hs⟩ := h
    simp only [List.append_eq_nil] at he
    obtain ⟨⟨⟨h1, h2⟩, h3⟩, h4⟩ := he
    have hc1 := expect_errs_nil h1
    obtain ⟨t1, u1, hts1, hty1⟩ := checkTok_cons_of hc1 (by decide)
    subst hts1
    rw [expect_pos _ hc1] at h2 heq
    simp only [List.tail_cons] at h2 heq
    have hc2 := expect_errs_nil h2
    obtain ⟨t2, u2, hts2, hty2⟩ := checkTok_cons_of hc2 (by decide)
    subst hts2
    rw [expect_pos _ hc2] at heq
    simp only [List.tail_cons] at heq
    have hc3 := expect_errs_nil h4
    obtain ⟨rb0, u3, hb2, htyrb⟩ := checkTok_cons_of hc3 (by decide)
    rw [expect_pos _ hc3, hb2] at hs
    simp only [List.tail_cons] at hs
    subst h3
    rw [hb2, hs] at heq
    obtain ⟨p3, hp3⟩ := (parse_consumes f).2.2.2.2.2.2.2.2.1 (skip_newlines u2) [] b1 [] (rb0 :: rest) heq rfl
    obtain ⟨nls, hdec, hnls⟩ := skip_newlines_decomp u2
    have hmain : pre ++ rb :: rest = (t1 :: t2 :: (nls ++ p3)) ++ rb0 :: rest := by
      rw [← hpre, hdec, hp3]
      simp
    obtain ⟨hpe, hrbeq⟩ := List.append_inj' hmain (by simp)
    injection hrbeq with hrb0 hrest0
    subst hrb0
    obtain ⟨e2, hloop⟩ := trailing_comma_variant_loop f g' (skip_newlines u2) [] b1 p3 rb rest cm heq hp3 htyrb hcm hg'
    refine ⟨htyrb, e2, ?_⟩
    subst hpe
    simp only [List.cons_append, List.append_assoc]
    rw [parse_variant_type]
    rw [expect_cons_pos hty1]
    dsimp only
    rw [expect_cons_pos hty2]
    dsimp only
    rw [skip_newlines_append_nl hnls]
    have hskip : skip_newlines (p3 ++ cm :: rb :: rest) = p3 ++ cm :: rb :: rest := by
      cases p3 with
      | nil =>
        simp only [List.nil_append]
        exact skip_newlines_of_curTok (by simp [curTok_cons, hcm])
      | cons q qs =>
        have hq := skip_newlines_cons_head
          (show skip_newlines u2 = q :: (qs ++ (rb :: rest)) by rw [hp3]; simp)
        exact skip_newlines_of_curTok (by simpa [curTok_cons] using hq)
    rw [hskip]
    rw [hloop]
    dsimp only
    rw [expect_cons_pos htyrb]
    simp only [curTok_cons] at hv
    simp [curTok_cons, ← hv]

/-- Trailing comma before the closing brace of an error-free enum body:
same node, same remaining stream. -/
theorem trailing_comma_enum (F : Nat) (ts : List Token) (node : TypeExpr)
    (rest pre : List Token) (rb cm : Token) (g : Nat)
    (h : parse_enum_type F ts = some (node, [], rest))
    (hpre : ts = pre ++ rb :: rest)
    (hcm : cm.type = TokenType.COMMA)
    (hg : F < g)
    (hlast : ∃ lt, pre.getLast? = some lt ∧ lt.type = TokenType.IDENTIFIER) :
    rb.type = TokenType.RBRACE ∧
    parse_enum_type g (pre ++ cm :: rb :: rest) = some (node, [], rest) := by
  cases F with
  | zero => simp [parse_enum_type] at h
  | succ f =>
  cases g with
  | zero => omega
  | succ g' =>
  have hg' : f + 1 ≤ g' := by omega
  simp only [parse_enum_type] at h
  split at h
  · simp at h
  · rename_i b heq
    obtain ⟨b1, b2, b3⟩ := b
    simp only [Option.some.injEq, Prod.mk.injEq] at h
    obtain ⟨hv, he, hs⟩ := h
    simp only [List.append_eq_nil] at he
    obtain ⟨⟨⟨h1, h2⟩, h3⟩, h4⟩ := he
    have hc1 := expect_errs_nil h1
    obtain ⟨t1, u1, hts1, hty1⟩ := checkTok_cons_of hc1 (by decide)
    subst hts1
    rw [expect_pos _ hc1] at h2 heq
    simp only [List.tail_cons] at h2 heq
    have hc2 := expect_errs_nil h2
    obtain ⟨t2, u2, hts2, hty2⟩ := checkTok_cons_of hc2 (by decide)
    subst hts2
    rw [expect_pos _ hc2] at heq
    simp only [List.tail_cons] at heq
    have hc3 := expect_errs_nil h4
    obtain ⟨rb0, u3, hb2, htyrb⟩ := checkTok_cons_of hc3 (by decide)
    rw [expect_pos _ hc3, hb2] at hs
    simp only [List.tail_cons] at hs
    subst h3
    rw [hb2, hs] at heq
    obtain ⟨p3, hp3⟩ := (parse_consumes f).2.2.2.2.2.2.2.2.2 (skip_newlines u2) [] b1 [] (rb0 :: rest) heq rfl
    obtain ⟨nls, hdec, hnls⟩ := skip_newlines_decomp u2
    have hmain : pre ++ rb :: rest = (t1 :: t2 :: (nls ++ p3)) ++ rb0 :: rest := by
      rw [← hpre, hdec, hp3]
      simp
    obtain ⟨hpe, hrbeq⟩ := List.append_inj' hmain (by simp)
    injection hrbeq with hrb0 hrest0
    subst hrb0
    have hp3ne : p3 ≠ [] := by
      intro hp30
      obtain ⟨lt, hl1, hl2⟩ := hlast
      rw [hpe, hp30] at hl1
      simp only [List.append_nil] at hl1
      cases hn : nls with
      | nil =>
        rw [hn] at hl1
        have hlc : (t1 :: t2 :: ([] : List Token)).getLast? = some t2 := rfl
        have hx := hlc.symm.trans hl1
        injection hx with hlt
        rw [← hlt] at hl2
        rw [hty2] at hl2
        simp at hl2
      | cons a l2 =>
        rw [hn] at hl1
        have heq2 : (t1 :: t2 :: (a :: l2)).getLast? = (a :: l2).getLast? := by
          rw [show (t1 :: t2 :: (a :: l2) : List Token) = [t1, t2] ++ (a :: l2) by simp]
          rw [getLast?_append_ne (by simp)]
        rw [heq2] at hl1
        have hmem := mem_of_getLast?_eq hl1
        have hnn := hnls lt (hn ▸ hmem)
        rw [hnn] at hl2
        simp at hl2
    have hlast2 : ∃ lt, p3.getLast? = some lt ∧ lt.type = TokenType.IDENTIFIER := by
      obtain ⟨lt, hl1, hl2⟩ := hlast
      refine ⟨lt, ?_, hl2⟩
      rw [hpe] at hl1
      rw [show (t1 :: t2 :: (nls ++ p3) : List Token) = (t1 :: t2 :: nls) ++ p3 by simp] at hl1
      rw [getLast?_append_ne hp3ne] at hl1
      exact hl1
    have hloop := trailing_comma_enum_loop f g' (skip_newlines u2) [] b1 p3 rb rest cm heq hp3 htyrb hcm hlast2 hg'
    refine ⟨htyrb, ?_⟩
    subst hpe
    simp only [List.cons_append, List.append_assoc]
    rw [parse_enum_type]
    rw [expect_cons_pos hty1]
    dsimp only
    rw [expect_cons_pos hty2]
    dsimp only
    rw [skip_newlines_append_nl hnls]
    have hskip : skip_newlines (p3 ++ cm :: rb :: rest) = p3 ++ cm :: rb :: rest := by
      cases p3 with
      | nil =>
        simp only [List.nil_append]
        exact skip_newlines_of_curTok (by simp [curTok_cons, hcm])
      | cons q qs =>
        have hq := skip_newlines_cons_head
          (show skip_newlines u2 = q :: (qs ++ (rb :: rest)) by rw [hp3]; simp)
        exact skip_newlines_of_curTok (by simpa [curTok_cons] using hq)
    rw [hskip]
    rw [hloop]
    dsimp only
    rw [expect_cons_pos htyrb]
    simp only [curTok_cons] at hv
    simp [curTok_cons, ← hv]


/-- Claim C8, corrected. For a source whose struct or variant body parses
without diagnostics, inserting one comma immediately before the closing
brace of that body leaves the parsed node and the remaining stream
unchanged (an empty body additionally yields diagnostics for the comma,
but the AST is the same); for an enum body the same holds with no new
diagnostics provided the token immediately before the closing brace is a
value identifier. Without that proviso the claim is false: see the
counterexample, where the inserted comma changes the AST because the
empty enum body's loop leaves the comma unconsumed. -/
theorem claim_C8_trailing_comma :
    (∀ F ts node rest pre rb cm g,
       parse_struct_type F ts = some (node, [], rest) →
       ts = pre ++ rb :: rest → cm.type = TokenType.COMMA → F < g →
       rb.type = TokenType.RBRACE ∧
       ∃ e2, parse_struct_type g (pre ++ cm :: rb :: rest) = some (node, e2, rest)) ∧
    (∀ F ts node rest pre rb cm g,
       parse_variant_type F ts = some (node, [], rest) →
       ts = pre ++ rb :: rest → cm.type = TokenType.COMMA → F < g →
       rb.type = TokenType.RBRACE ∧
       ∃ e2, parse_variant_type g (pre ++ cm :: rb :: rest) = some (node, e2, rest)) ∧
    (∀ F ts node rest pre rb cm g,
       parse_enum_type F ts = some (node, [], rest) →
       ts = pre ++ rb :: rest → cm.type = TokenType.COMMA → F < g →
       (∃ lt, pre.getLast? = some lt ∧ lt.type = TokenType.IDENTIFIER) →
       rb.type = TokenType.RBRACE ∧
       parse_enum_type g (pre ++ cm :: rb :: rest) = some (node, [], rest)) :=
  ⟨fun F ts node rest pre rb cm g h hp hc hg =>
     trailing_comma_struct F ts node rest pre rb cm g h hp hc hg,
   fun F ts node rest pre rb cm g h hp hc hg =>
     trailing_comma_variant F ts node rest pre rb cm g h hp hc hg,
   fun F ts node rest pre rb cm g h hp hc hg hl =>
     trailing_comma_enum F ts node rest pre rb cm g h hp hc hg hl⟩

/-- Claim C8, counterexample to the literal claim. The source
struct \x7b a: enum \x7b \x7d, b: u32 \x7d parses without diagnostics
(the enum body itself contributes none), yet inserting one comma
immediately before the enum body's closing brace produces a different
AST: the struct keeps only the field a, two diagnostics appear, and the
parse of the struct stops early, because parse_enum_loop's
"Expected enum value" branch exits without consuming the comma, the
enum's closing-brace expect fails, and the enclosing struct loop then
consumes the comma and closes at the enum's brace. -/
theorem claim_C8_counterexample :
    parse_struct_type 20
      [⟨.STRUCT, "struct", 1, 1, ""⟩, ⟨.LBRACE, "\x7b", 1, 8, ""⟩,
       ⟨.IDENTIFIER, "a", 1, 10, ""⟩, ⟨.COLON, ":", 1, 11, ""⟩,
       ⟨.ENUM, "enum", 1, 13, ""⟩, ⟨.LBRACE, "\x7b", 1, 18, ""⟩,
       ⟨.RBRACE, "\x7d", 1, 20, ""⟩, ⟨.COMMA, ",", 1, 21, ""⟩,
       ⟨.IDENTIFIER, "b", 1, 23, ""⟩, ⟨.COLON, ":", 1, 24, ""⟩,
       ⟨.U32, "u32", 1, 26, ""⟩, ⟨.RBRACE, "\x7d", 1, 30, ""⟩] =
      some (.structT
              [.mk "a" (.enumT [] 1 13) 1 10,
               .mk "b" (.prim .U32 1 26) 1 23] 1 1, [], []) ∧
    parse_struct_type 20
      [⟨.STRUCT, "struct", 1, 1, ""⟩, ⟨.LBRACE, "\x7b", 1, 8, ""⟩,
       ⟨.IDENTIFIER, "a", 1, 10, ""⟩, ⟨.COLON, ":", 1, 11, ""⟩,
       ⟨.ENUM, "enum", 1, 13, ""⟩, ⟨.LBRACE, "\x7b", 1, 18, ""⟩,
       ⟨.COMMA, ",", 1, 19, ""⟩,
       ⟨.RBRACE, "\x7d", 1, 20, ""⟩, ⟨.COMMA, ",", 1, 21, ""⟩,
       ⟨.IDENTIFIER, "b", 1, 23, ""⟩, ⟨.COLON, ":", 1, 24, ""⟩,
       ⟨.U32, "u32", 1, 26, ""⟩, ⟨.RBRACE, "\x7d", 1, 30, ""⟩] =
      some (.structT [.mk "a" (.enumT [] 1 13) 1 10] 1 1,
            ["Line 1, Column 19: Expected enum value",
             "Line 1, Column 19: Expected '\x7d' after enum values"],
            [⟨.COMMA, ",", 1, 21, ""⟩, ⟨.IDENTIFIER, "b", 1, 23, ""⟩,
             ⟨.COLON, ":", 1, 24, ""⟩, ⟨.U32, "u32", 1, 26, ""⟩,
             ⟨.RBRACE, "\x7d", 1, 30, ""⟩]) ∧
    struct_field_count (.structT
      [.mk "a" (.enumT [] 1 13) 1 10,
       .mk "b" (.prim .U32 1 26) 1 23] 1 1) = 2 ∧
    struct_field_count (.structT [.mk "a" (.enumT [] 1 13) 1 10] 1 1) = 1 :=
  ⟨rfl, rfl, rfl, rfl⟩

/-- Witness for claim C8: the struct conjunct applied to the concrete
error-free source struct \x7b x: u32 \x7d; the hypotheses are discharged
by evaluation. -/
theorem claim_C8_witness :
    parse_struct_type 10
      ([⟨.STRUCT, "struct", 1, 1, ""⟩, ⟨.LBRACE, "\x7b", 1, 8, ""⟩,
        ⟨.IDENTIFIER, "x", 1, 10, ""⟩, ⟨.COLON, ":", 1, 11, ""⟩,
        ⟨.U32, "u32", 1, 13, ""⟩] ++ ⟨.RBRACE, "\x7d", 1, 17, ""⟩ :: []) =
      some (.structT [.mk "x" (.prim .U32 1 13) 1 10] 1 1, [], []) ∧
    ((⟨.RBRACE, "\x7d", 1, 17, ""⟩ : Token).type = TokenType.RBRACE ∧
     ∃ e2, parse_struct_type 12
        ([⟨.STRUCT, "struct", 1, 1, ""⟩, ⟨.LBRACE, "\x7b", 1, 8, ""⟩,
          ⟨.IDENTIFIER, "x", 1, 10, ""⟩, ⟨.COLON, ":", 1, 11, ""⟩,
          ⟨.U32, "u32", 1, 13, ""⟩] ++
         ⟨.COMMA, ",", 1, 14, ""⟩ :: ⟨.RBRACE, "\x7d", 1, 17, ""⟩ :: []) =
        some (.structT [.mk "x" (.prim .U32 1 13) 1 10] 1 1, e2, [])) :=
  ⟨rfl,
   claim_C8_trailing_comma.1 10
     ([Token.mk TokenType.STRUCT "struct" 1 1 "", Token.mk TokenType.LBRACE "\x7b" 1 8 "",
       Token.mk TokenType.IDENTIFIER "x" 1 10 "", Token.mk TokenType.COLON ":" 1 11 "",
       Token.mk TokenType.U32 "u32" 1 13 ""] ++ Token.mk TokenType.RBRACE "\x7d" 1 17 "" :: [])
     (TypeExpr.structT [Field.mk "x" (TypeExpr.prim PrimitiveType.U32 1 13) 1 10] 1 1) []
     [Token.mk TokenType.STRUCT "struct" 1 1 "", Token.mk TokenType.LBRACE "\x7b" 1 8 "",
      Token.mk TokenType.IDENTIFIER "x" 1 10 "", Token.mk TokenType.COLON ":" 1 11 "",
      Token.mk TokenType.U32 "u32" 1 13 ""]
     (Token.mk TokenType.RBRACE "\x7d" 1 17 "") (Token.mk TokenType.COMMA "," 1 14 "") 12
     rfl rfl rfl (by decide)⟩

/-- Claim C9, confirmed on the spec-modelled generator (the source file
cpp_generator.cpp is absent): generate_header is a plain function of the
schema and the options, so two invocations on equal inputs return the
same string. -/
theorem claim_C9_generation_deterministic
    (s1 s2 : Schema) (o1 o2 : GenerationOptions)
    (hs : s1 = s2) (ho : o1 = o2) :
    generate_header s1 o1 = generate_header s2 o2 := by
  rw [hs, ho]

/-- Witness for claim C9: determinism applied to a concrete one-struct
schema and concrete options. -/
theorem claim_C9_witness :
    generate_header
      ⟨[⟨"position", .structT
          [.mk "x" (.prim .F32 1 14) 1 12, .mk "y" (.prim .F32 1 22) 1 20] 1 1, 1, 1⟩], 1, 1⟩
      ⟨"game", "generated", false, false, true, "uint64_t", 4⟩ =
    generate_header
      ⟨[⟨"position", .structT
          [.mk "x" (.prim .F32 1 14) 1 12, .mk "y" (.prim .F32 1 22) 1 20] 1 1, 1, 1⟩], 1, 1⟩
      ⟨"game", "generated", false, false, true, "uint64_t", 4⟩ :=
  claim_C9_generation_deterministic _ _ _ _ rfl rfl

end Carch
